import Mathlib

/-!
# http-balancer: token bucket, limiter, selection strategies and handlers

A shallow embedding of `internal/limiter/limiter.go`,
`internal/balancer/strategy.go`, the handlers `Forward` and `AddClient` of
`internal/balancer/handlers.go` with `response.go`, the probe `pingEndpoint` of
`internal/balancer/endpoint.go`, `Client.Valid` of `internal/client/storage.go`
and `Validate`, `Load` of `internal/config/config.go`, with the properties of
the specification stated over it.

Conventions of the embedding:

* Go `uint` is the 64-bit unsigned integer: a `Nat` below `2 ^ 64`, and the one
  addition that can leave the range (`b.tokens + amount`) is reduced
  `% 2 ^ 64`.
* `time.Duration` is an `Int` number of nanoseconds; `Time.Sub` saturates at
  the ends of the `int64` range like the library function.
* `float64` arithmetic is IEEE-754 binary64 with round-to-nearest-even.  All
  the values of `refill` are non-negative quotients of naturals far inside the
  normal range, so a value is carried as a pair `(numerator, denominator)` of
  naturals and every operation rounds its exact result to 53 significant bits.
* the conversion `uint(f)` truncates towards zero when the truncated value is
  representable; otherwise Go leaves the result to the implementation, and the
  embedding takes that result from a parameter `oor`.
* what the handlers get from other packages is a parameter: the registry calls
  `Has` and `Add`, the validation of the key, the decoding of JSON, the random
  source.  The validation `Forward` is run with, `Validate` of package
  `github.com/google/uuid`, is embedded as `uuid.Validate`.
* a call that may panic or loop for ever returns an `Except`, or `none` when the
  fuel of its loop is used up.
* a mutex is a field telling who holds it.  `Forward` is one request at a
  time, and finds `b.mu` held when an earlier request left it so.  Concurrent
  calls of `Limiter.Available` are a list of calls that a schedule lets execute
  one statement at a time; `RLock` and `Lock` of `l.mu` wait as those of
  `sync.RWMutex` do, and `bucket.Available()`, which runs under the mutex of
  the bucket, is one statement.
-/

namespace Balancer

/-! ## binary64 rounding -/

/-- Round the quotient `n / d` to the nearest integer, ties to the even one. -/
def roundNE (n d : Nat) : Nat :=
  let q := n / d
  let r := n % d
  if 2 * r < d then q
  else if d < 2 * r then q + 1
  else if q % 2 = 0 then q else q + 1

/-- Auxiliary for `ilog2`: the recursion runs on the fuel. -/
def ilog2Aux : Nat → Nat → Nat
  | 0, _ => 0
  | fuel + 1, n => if n < 2 then 0 else ilog2Aux fuel (n / 2) + 1

/-- Position of the leading bit: `2 ^ ilog2 n ≤ n < 2 ^ (ilog2 n + 1)` for `n > 0`. -/
def ilog2 (n : Nat) : Nat := ilog2Aux n n

/-- The binary scaling `s` for which `n / d * 2 ^ s` lies in `[2^52, 2^53)`
(for `n, d > 0`). -/
def f64Shift (n d : Nat) : Int :=
  let s0 : Int := 52 + (ilog2 d : Int) - (ilog2 n : Int)
  if n * 2 ^ s0.toNat < d * 2 ^ (-s0).toNat * 2 ^ 52 then s0 + 1 else s0

/-- Round the non-negative rational `n / d` to binary64: 53 significant bits,
nearest, ties to even.  The result is again a pair numerator, denominator. -/
def f64Round (n d : Nat) : Nat × Nat :=
  if n = 0 then (0, 1)
  else
    let s := f64Shift n d
    let m := roundNE (n * 2 ^ s.toNat) (d * 2 ^ (-s).toNat)
    (m * 2 ^ (-s).toNat, 2 ^ s.toNat)

/-- The rational number a pair numerator, denominator stands for. -/
def f64Val (p : Nat × Nat) : ℚ := (p.1 : ℚ) / (p.2 : ℚ)

/-- Conversion `float64(n)` of a non-negative integer. -/
def f64OfNat (n : Nat) : Nat × Nat := f64Round n 1

/-- Quotient `x / y` of two binary64 values. -/
def f64Div (x y : Nat × Nat) : Nat × Nat := f64Round (x.1 * y.2) (x.2 * y.1)

/-- Product `x * y` of two binary64 values. -/
def f64Mul (x y : Nat × Nat) : Nat × Nat := f64Round (x.1 * y.1) (x.2 * y.2)

/-! ## time -/

/-- Largest `time.Duration`, in nanoseconds. -/
def maxDuration : Int := 2 ^ 63 - 1

/-- Smallest `time.Duration`, in nanoseconds. -/
def minDuration : Int := -(2 ^ 63)

/-- One second, `time.Second`, in nanoseconds. -/
def Second : Nat := 1000000000

/-- A `time.Time` as the bucket sees it: the zero value (January 1, year 1,
which a bucket made by `NewBucket` holds), or a reading of the clock in
nanoseconds.  Every clock reading is more than `maxDuration` later than the
zero value. -/
inductive Time where
  | zero : Time
  | clock (ns : Int) : Time
deriving DecidableEq, Repr

/-- The method `t.Sub(u)`: the difference `t - u`, saturated to the range of
`time.Duration`. -/
def Time.Sub : Time → Time → Int
  | .clock t, .clock u => max minDuration (min maxDuration (t - u))
  | .clock _, .zero => maxDuration
  | .zero, .clock _ => minDuration
  | .zero, .zero => 0

/-- The order of instants: `u` is not later than `t`. -/
def Time.le : Time → Time → Prop
  | .zero, _ => True
  | .clock _, .zero => False
  | .clock u, .clock t => u ≤ t

instance : LE Time := ⟨Time.le⟩

instance (u t : Time) : Decidable (u ≤ t) :=
  match u, t with
  | .zero, _ => isTrue trivial
  | .clock _, .zero => isFalse (fun h => h)
  | .clock u, .clock t => inferInstanceAs (Decidable (u ≤ t))

/-! ## token bucket -/

/-- The struct `TokenBucket` (without its mutex). -/
structure TokenBucket where
  capacity : Nat
  tokens : Nat
  rate : Nat
  lastRefill : Time
deriving DecidableEq, Repr

/-- The binary64 value `float64(elapsed) / float64(time.Second) * float64(rate)`
for an elapsed time of `elapsed ≥ 0` nanoseconds. -/
def refillFloat (elapsed rate : Nat) : Nat × Nat :=
  f64Mul (f64Div (f64OfNat elapsed) (f64OfNat Second)) (f64OfNat rate)

/-- The expression `uint(float64(elapsed) / float64(time.Second) * float64(rate))`:
the magnitude is computed by `refillFloat` (rounding is symmetric in the sign)
and truncated towards zero.  `oor` is what the platform yields when the
truncated value is not a `uint`. -/
def refillAmount (oor : Int → Nat → Nat) (elapsed : Int) (rate : Nat) : Nat :=
  let f := refillFloat elapsed.natAbs rate
  let t := f.1 / f.2
  if 0 ≤ elapsed then
    if t < 2 ^ 64 then t else oor elapsed rate % 2 ^ 64
  else
    if t = 0 then 0 else oor elapsed rate % 2 ^ 64

/-- The method `refill`. -/
def TokenBucket.refill (oor : Int → Nat → Nat) (now : Int) (b : TokenBucket) : TokenBucket :=
  let elapsed := (Time.clock now).Sub b.lastRefill
  let amount := refillAmount oor elapsed b.rate
  if 0 < amount then
    { b with tokens := min b.capacity ((b.tokens + amount) % 2 ^ 64),
             lastRefill := Time.clock now }
  else b

/-- The method `Available`, with `time.Now()` passed in as `now`: the result and
the bucket afterwards. -/
def TokenBucket.Available (oor : Int → Nat → Nat) (now : Int) (b : TokenBucket) :
    Bool × TokenBucket :=
  let b1 := b.refill oor now
  if b1.tokens ≠ 0 then (true, { b1 with tokens := b1.tokens - 1 })
  else (false, b1)

/-- The function `NewBucket`. -/
def NewBucket (capacity rate : Nat) : TokenBucket :=
  { capacity := capacity, tokens := capacity, rate := rate, lastRefill := Time.zero }

/-- One operation on a bucket: an admission (`Available`) or a sweep of the
refill loop (`refill`), each at the time the clock shows. -/
inductive Call where
  | available (now : Int) : Call
  | refill (now : Int) : Call
deriving DecidableEq, Repr

/-- The time at which a call reads the clock. -/
def Call.time : Call → Int
  | .available now => now
  | .refill now => now

/-- The bucket after one call. -/
def TokenBucket.step (oor : Int → Nat → Nat) (b : TokenBucket) : Call → TokenBucket
  | .available now => (b.Available oor now).2
  | .refill now => b.refill oor now

/-- The bucket after a sequence of calls. -/
def TokenBucket.run (oor : Int → Nat → Nat) (b : TokenBucket) (calls : List Call) : TokenBucket :=
  calls.foldl (TokenBucket.step oor) b

/-- The results of a sequence of `Available` calls at the given times, and the
bucket afterwards. -/
def TokenBucket.admissions (oor : Int → Nat → Nat) : TokenBucket → List Int → List Bool × TokenBucket
  | b, [] => ([], b)
  | b, now :: rest =>
    let r := b.Available oor now
    let rs := TokenBucket.admissions oor r.2 rest
    (r.1 :: rs.1, rs.2)

/-! ## limiter -/

/-- The struct `client.Client`. -/
structure Client where
  Name : String
  Key : String
  Capacity : Nat
  Rate : Nat
deriving DecidableEq, Repr

/-- The struct `Limiter`: the map from key to bucket.  The registry is passed to
`Limiter.Available` as the function its `Has` method computes. -/
structure Limiter where
  buckets : String → Option TokenBucket

/-- The function `New` of the limiter: an empty map. -/
def Limiter.New : Limiter := ⟨fun _ => none⟩

/-- The method `Limiter.Available`.  `Has` is the registry call (an error or a
client record), `now` the clock reading taken by the bucket. -/
def Limiter.Available (oor : Int → Nat → Nat) (Has : String → Except String Client)
    (now : Int) (key : String) (l : Limiter) : Bool × Limiter :=
  match l.buckets key with
  | some bucket =>
    let r := bucket.Available oor now
    (r.1, ⟨Function.update l.buckets key (some r.2)⟩)
  | none =>
    match l.buckets key with
    | some bucket =>
      let r := bucket.Available oor now
      (r.1, ⟨Function.update l.buckets key (some r.2)⟩)
    | none =>
      match Has key with
      | .error _ => (false, l)
      | .ok client =>
        let created := NewBucket client.Capacity client.Rate
        let r := created.Available oor now
        (r.1, ⟨Function.update l.buckets key (some r.2)⟩)

/-- The results of a sequence of `Limiter.Available` calls on one key at the
given times, and the limiter afterwards. -/
def Limiter.admissions (oor : Int → Nat → Nat) (Has : String → Except String Client)
    (key : String) : Limiter → List Int → List Bool × Limiter
  | l, [] => ([], l)
  | l, now :: rest =>
    let r := l.Available oor Has now key
    let rs := Limiter.admissions oor Has key r.2 rest
    (r.1 :: rs.1, rs.2)

/-! ## selection strategies -/

/-- The struct `Endpoint`, as far as the strategies read it: `id` stands for the
identity of the pointer, `active` and `connections` for the two atomics. -/
structure Endpoint where
  id : Nat
  active : Bool
  connections : Int
deriving DecidableEq, Repr

/-- The method `IsActive`. -/
def Endpoint.IsActive (e : Endpoint) : Bool := e.active

/-- The struct `RoundRobin`: the endpoints and the cursor (a `uint64`).  The
length of a slice fits an `int`, so the conversions between `int` and `uint64`
in `Next` and the sum `start + i` are exact. -/
structure RoundRobin where
  endpoints : List Endpoint
  current : Nat
deriving DecidableEq, Repr

/-- The loop `for i := range total` of `RoundRobin.Next`, from iteration `i` with
`k` iterations left: the endpoint returned and the cursor afterwards. -/
def RoundRobin.loop (endpoints : List Endpoint) (current total start : Nat) :
    Nat → Nat → Option Endpoint × Nat
  | 0, _ => (none, current)
  | k + 1, i =>
    let index := (start + i) % total
    match endpoints[index]? with
    | some endpoint =>
      if endpoint.IsActive then (some endpoint, (index + 1) % total)
      else RoundRobin.loop endpoints current total start k (i + 1)
    | none => (none, current)

/-- The method `RoundRobin.Next`: the endpoint returned (`none` for nil) and the
strategy afterwards. -/
def RoundRobin.Next (r : RoundRobin) : Option Endpoint × RoundRobin :=
  let total := r.endpoints.length
  if total = 0 then (none, r)
  else
    let start := r.current % total
    let res := RoundRobin.loop r.endpoints r.current total start total 0
    (res.1, { r with current := res.2 })

/-- Whether position `k` of the list holds an active endpoint. -/
def activeAt (endpoints : List Endpoint) (k : Nat) : Bool :=
  (endpoints[k]?.map Endpoint.active).getD false

/-- The cyclic order `i mod n, (i+1) mod n, ...` of the `n` positions. -/
def cyclicOrder (n i : Nat) : List Nat :=
  (List.range n).map (fun j => (i + j) % n)

/-- Reference definition of round-robin selection, after the specification: the
first active endpoint in the cyclic order from the cursor, the cursor moving to
`(found_index + 1) mod n`; nil and an unchanged cursor when there is none. -/
def RoundRobin.NextSpec (r : RoundRobin) : Option Endpoint × RoundRobin :=
  let n := r.endpoints.length
  match (cyclicOrder n r.current).find? (activeAt r.endpoints) with
  | some k => (r.endpoints[k]?, { r with current := (k + 1) % n })
  | none => (none, r)

/-- The endpoints returned by `N` sequential calls of `RoundRobin.Next`. -/
def RoundRobin.dispatch : Nat → RoundRobin → List (Option Endpoint)
  | 0, _ => []
  | N + 1, r => (r.Next).1 :: RoundRobin.dispatch N (r.Next).2

/-- The loop `for { ... }` of `Random.Next`, run for at most `fuel` samples.
`sample k` is the value of the `k`-th call `rand.IntN(total)` before reduction
into `[0, total)`.  The result is `none` when the loop is still running after
`fuel` samples, and `some res` when it has returned `res`. -/
def Random.loop (endpoints : List Endpoint) (sample : Nat → Nat) (total : Nat) :
    Nat → Nat → Option (Option Endpoint)
  | 0, _ => none
  | fuel + 1, k =>
    match endpoints[sample k % total]? with
    | some endpoint =>
      if endpoint.IsActive then some (some endpoint)
      else Random.loop endpoints sample total fuel (k + 1)
    | none => some none

/-- The method `Random.Next`, run for at most `fuel` samples. -/
def Random.Next (endpoints : List Endpoint) (sample : Nat → Nat) (fuel : Nat) :
    Option (Option Endpoint) :=
  let total := endpoints.length
  if total = 0 then some none
  else Random.loop endpoints sample total fuel 0

/-- The method `Connections`, called on a pointer that may be nil: reading the
counter of a nil `*Endpoint` is a nil pointer dereference, a runtime panic. -/
def Endpoint.Connections : Option Endpoint → Except String Int
  | some e => .ok e.connections
  | none => .error "invalid memory address or nil pointer dereference"

/-- The loop `for _, e := range lc.endpoints` of `LeastConnections.Next`, with
the variables `endpoint` (nil at the start) and `minimal`: the pointer returned,
or the panic that ends the call. -/
def LeastConnections.loop : List Endpoint → Option Endpoint → Int →
    Except String (Option Endpoint)
  | [], endpoint, _ => .ok endpoint
  | e :: rest, endpoint, minimal =>
    if !e.IsActive then LeastConnections.loop rest endpoint minimal
    else
      match Endpoint.Connections endpoint with
      | .error msg => .error msg
      | .ok num =>
        if num < minimal then LeastConnections.loop rest (some e) num
        else LeastConnections.loop rest endpoint minimal

/-- The method `LeastConnections.Next`; `math.MaxInt64` is `2^63 - 1`. -/
def LeastConnections.Next (endpoints : List Endpoint) : Except String (Option Endpoint) :=
  LeastConnections.loop endpoints none (2 ^ 63 - 1)

/-- How a call that may fail to return ends: it returned a value, it panicked,
or it is still running when the fuel of the model is used up. -/
inductive Outcome (α : Type) where
  | returned (a : α) : Outcome α
  | panicked (msg : String) : Outcome α
  | running : Outcome α
deriving DecidableEq, Repr

/-- The interface `Strategy` with its three implementations. -/
inductive Strategy where
  | roundRobin (r : RoundRobin) : Strategy
  | random (endpoints : List Endpoint) : Strategy
  | leastConnections (endpoints : List Endpoint) : Strategy
deriving DecidableEq, Repr

/-- The call `strategy.Next()`: the endpoint returned and the strategy afterwards.
`sample` and `fuel` are the random source and the fuel of `Random.Next`. -/
def Strategy.Next (sample : Nat → Nat) (fuel : Nat) :
    Strategy → Outcome (Option Endpoint × Strategy)
  | .roundRobin r => .returned ((r.Next).1, .roundRobin (r.Next).2)
  | .random endpoints =>
    match Random.Next endpoints sample fuel with
    | some res => .returned (res, .random endpoints)
    | none => .running
  | .leastConnections endpoints =>
    match LeastConnections.Next endpoints with
    | .ok res => .returned (res, .leastConnections endpoints)
    | .error msg => .panicked msg

/-- The method `NewConnection` up to its return: nothing when the context is
already done, and otherwise the counter incremented (the goroutine it starts
decrements the counter when the request ends). -/
def Endpoint.NewConnection (ctxDone : Bool) (e : Endpoint) : Endpoint :=
  if ctxDone then e else { e with connections := e.connections + 1 }

/-- The effect of `endpoint.NewConnection(ctx)` on a list of endpoints: the
endpoint is shared by pointer, so the entry with its `id` changes. -/
def connect (ctxDone : Bool) (id : Nat) (endpoints : List Endpoint) : List Endpoint :=
  endpoints.map (fun e => if e.id = id then e.NewConnection ctxDone else e)

/-- The effect of `endpoint.NewConnection(ctx)` on the endpoints a strategy holds. -/
def Strategy.NewConnection (ctxDone : Bool) (id : Nat) : Strategy → Strategy
  | .roundRobin r => .roundRobin ⟨connect ctxDone id r.endpoints, r.current⟩
  | .random endpoints => .random (connect ctxDone id endpoints)
  | .leastConnections endpoints => .leastConnections (connect ctxDone id endpoints)

/-! ## package `github.com/google/uuid` -/

/-- The UTF-8 encoding of a character, as bytes. -/
def utf8 (c : Char) : List Nat :=
  let v := c.toNat
  if v ≤ 0x7f then [v]
  else if v ≤ 0x7ff then [v / 64 % 32 + 192, v % 64 + 128]
  else if v ≤ 0xffff then [v / 4096 % 16 + 224, v / 64 % 64 + 128, v % 64 + 128]
  else [v / 262144 % 8 + 240, v / 4096 % 64 + 128, v / 64 % 64 + 128, v % 64 + 128]

/-- The bytes of a Go string: indexing `s[i]` and `len(s)` count bytes of the
UTF-8 text. -/
def bytes (s : String) : List Nat := s.data.flatMap utf8

/-- The table `xvalues` of package uuid, as `xtob` reads it: whether the byte is
a hexadecimal digit, `0`-`9`, `A`-`F` or `a`-`f`. -/
def uuid.xvalid (x : Nat) : Bool :=
  (48 ≤ x && x ≤ 57) || (65 ≤ x && x ≤ 70) || (97 ≤ x && x ≤ 102)

/-- The second result of `xtob(x1, x2)`: both bytes are hexadecimal digits. -/
def uuid.xtob (x1 x2 : Nat) : Bool := uuid.xvalid x1 && uuid.xvalid x2

/-- The test `strings.EqualFold(p, "urn:uuid:")` on the first nine bytes: equal
up to the case of the letters.  None of the letters `u`, `r`, `n`, `i`, `d` has
a case variant outside ASCII, so folding is the folding of `A`-`Z`. -/
def uuid.equalFoldUrn (p : List Nat) : Bool :=
  p.map (fun x => if 65 ≤ x ∧ x ≤ 90 then x + 32 else x)
    = [117, 114, 110, 58, 117, 117, 105, 100, 58]

/-- The last block of `uuid.Validate`, the check of the standard format: a text
of 36 bytes has `-` at 8, 13, 18 and 23 and pairs of hexadecimal digits at the
sixteen listed places; a text of another length is let through. -/
def uuid.standard (s : List Nat) : Bool :=
  if s.length = 36 then
    if s.getD 8 0 ≠ 45 ∨ s.getD 13 0 ≠ 45 ∨ s.getD 18 0 ≠ 45 ∨ s.getD 23 0 ≠ 45 then false
    else [0, 2, 4, 6, 9, 11, 14, 16, 19, 21, 24, 26, 28, 30, 32, 34].all
      (fun x => uuid.xtob (s.getD x 0) (s.getD (x + 1) 0))
  else true

/-- The function `Validate` of package `github.com/google/uuid` on the bytes of
its argument, `true` for a nil error.  The `switch` on `len(s)`: 36 bytes go to
the check of the standard format as they are; 45 bytes must start with
`urn:uuid:` in any letter case and lose that prefix; 38 bytes must be wrapped in
braces and lose them; 32 bytes must be sixteen pairs of hexadecimal digits; any
other length is an error. -/
def uuid.ValidateBytes (s : List Nat) : Bool :=
  if s.length = 36 then uuid.standard s
  else if s.length = 36 + 9 then
    if !uuid.equalFoldUrn (s.take 9) then false else uuid.standard (s.drop 9)
  else if s.length = 36 + 2 then
    if s.getD 0 0 ≠ 123 ∨ s.getD (s.length - 1) 0 ≠ 125 then false
    else uuid.standard ((s.take (s.length - 1)).drop 1)
  else if s.length = 32 then
    if (List.range 16).all (fun i => uuid.xtob (s.getD (2 * i) 0) (s.getD (2 * i + 1) 0))
    then uuid.standard s else false
  else false

/-- The call `uuid.Validate(key)` of `Forward`: whether the error is nil. -/
def uuid.Validate (s : String) : Bool := uuid.ValidateBytes (bytes s)

/-- The words "canonical UUID" of the specification: the text form of a UUID, 36
characters, lower-case hexadecimal digits (`0`-`9` are 48-57, `a`-`f` are
97-102) in groups of 8, 4, 4, 4 and 12 separated by `-` (45).  It is the form
`uuid.NewString` produces for the keys the registry issues. -/
def canonicalUUIDSpec (s : String) : Bool :=
  s.data.length = 36 &&
  (List.range 36).all (fun i =>
    if i = 8 ∨ i = 13 ∨ i = 18 ∨ i = 23 then (s.data.getD i ' ').toNat = 45
    else (48 ≤ (s.data.getD i ' ').toNat && (s.data.getD i ' ').toNat ≤ 57) ||
      (97 ≤ (s.data.getD i ' ').toNat && (s.data.getD i ' ').toNat ≤ 102))

/-! ## HTTP handlers -/

/-- The constant `http.StatusBadRequest`. -/
def StatusBadRequest : Int := 400

/-- The constant `http.StatusUnauthorized`. -/
def StatusUnauthorized : Int := 401

/-- The constant `http.StatusTooManyRequests`. -/
def StatusTooManyRequests : Int := 429

/-- The constant `http.StatusInternalServerError`. -/
def StatusInternalServerError : Int := 500

/-- The constant `http.StatusServiceUnavailable`. -/
def StatusServiceUnavailable : Int := 503

/-- The struct `ResponseMessage`, encoded with the JSON names `code` and
`message`. -/
structure ResponseMessage where
  Code : Int
  Message : String
deriving DecidableEq, Repr

/-- What `ResponseError` leaves in the response writer: the status passed to
`WriteHeader` and the message handed to the JSON encoder. -/
structure ErrorResponse where
  status : Int
  body : ResponseMessage
deriving DecidableEq, Repr

/-- The function `ResponseError`. -/
def ResponseError (message : String) (code : Int) : ErrorResponse :=
  { status := code, body := { Code := code, Message := message } }

/-- The text `json.NewEncoder(w).Encode` writes for a `ResponseMessage` whose
message holds no character that JSON escapes (as all messages of the handlers):
the object with the fields in the order of the struct, followed by a newline. -/
def ResponseMessage.encode (m : ResponseMessage) : String :=
  "\x7b\"code\":" ++ toString m.Code ++ ",\"message\":\"" ++ m.Message ++ "\"\x7d\n"

/-- The calls `Forward` makes on its collaborators, in the order it makes them. -/
inductive Event where
  | limiterAvailable (key : String) : Event
  | strategyNext : Event
  | newConnection (id : Nat) : Event
  | proxyServeHTTP (id : Nat) : Event
deriving DecidableEq, Repr

/-- How `Forward` answers a request: an error written by `ResponseError`, the
request handed to the reverse proxy of an endpoint, or no answer of its own
because `strategy.Next` panicked or has not returned, or because the handler
waits at `b.mu.Lock()` for a mutex that is never released. -/
inductive Reply where
  | error (response : ErrorResponse) : Reply
  | proxied (endpoint : Endpoint) : Reply
  | panicked (msg : String) : Reply
  | running : Reply
  | blocked : Reply
deriving DecidableEq, Repr

end Balancer

/-- The struct `Balancer`, as far as `Forward` uses it.  The field `mu` tells
whether the mutex `b.mu` is held when a request arrives.  `Forward` locks it
around `strategy.Next()` and unlocks it without `defer`, after the call has
returned: a call that panics or never returns leaves it held. -/
structure Balancer where
  limiter : Balancer.Limiter
  strategy : Balancer.Strategy
  mu : Bool

namespace Balancer

/-- The result of one request to `Forward`: the reply, the calls made, and the
balancer afterwards. -/
structure ForwardResult where
  reply : Reply
  trace : List Event
  balancer : Balancer

/-- The handler `Forward`.  `header` is the `X-API-Key` header of the request
(`none` when it is missing, `Header.Get` then returns the empty string),
`uuidValidate key` tells whether `uuid.Validate(key)` returns a nil error, `Has`
is the registry call of the limiter, `now` the clock reading of the bucket,
`ctxDone` whether the context of the request is already done, and `sample`,
`fuel` drive `Random.Next`.  An admitted request that finds `b.mu` held waits at
`b.mu.Lock()`; one that takes it gives it back only when `strategy.Next`
returned. -/
def Forward (oor : Int → Nat → Nat) (Has : String → Except String Client)
    (uuidValidate : String → Bool) (sample : Nat → Nat) (fuel : Nat)
    (trackConnections : Bool) (now : Int) (ctxDone : Bool) (header : Option String)
    (b : Balancer) : ForwardResult :=
  let key := header.getD ""
  if key = "" then
    ⟨.error (ResponseError "client key is not found" StatusUnauthorized), [], b⟩
  else if !uuidValidate key then
    ⟨.error (ResponseError "invalid client key" StatusUnauthorized), [], b⟩
  else
    let admitted := b.limiter.Available oor Has now key
    if !admitted.1 then
      ⟨.error (ResponseError "too many requests" StatusTooManyRequests),
        [.limiterAvailable key], { b with limiter := admitted.2 }⟩
    else if b.mu then
      ⟨.blocked, [.limiterAvailable key], { b with limiter := admitted.2 }⟩
    else
      match b.strategy.Next sample fuel with
      | .panicked msg =>
        ⟨.panicked msg, [.limiterAvailable key, .strategyNext],
          { b with limiter := admitted.2, mu := true }⟩
      | .running =>
        ⟨.running, [.limiterAvailable key, .strategyNext],
          { b with limiter := admitted.2, mu := true }⟩
      | .returned (none, strategy) =>
        ⟨.error (ResponseError "no available endpoint" StatusServiceUnavailable),
          [.limiterAvailable key, .strategyNext],
          { limiter := admitted.2, strategy := strategy, mu := false }⟩
      | .returned (some endpoint, strategy) =>
        if trackConnections then
          ⟨.proxied endpoint,
            [.limiterAvailable key, .strategyNext, .newConnection endpoint.id,
              .proxyServeHTTP endpoint.id],
            { limiter := admitted.2, strategy := strategy.NewConnection ctxDone endpoint.id,
              mu := false }⟩
        else
          ⟨.proxied endpoint,
            [.limiterAvailable key, .strategyNext, .proxyServeHTTP endpoint.id],
            { limiter := admitted.2, strategy := strategy, mu := false }⟩

/-- The method `Client.Valid`: `none` for a nil error, otherwise the text of the
error. -/
def Client.Valid (c : Client) : Option String :=
  if c.Name = "" then some "empty name"
  else if c.Capacity = 0 then some "null capacity"
  else if c.Rate = 0 then some "null rate"
  else none

/-- How `AddClient` answers: an error written by `ResponseError`, or the key of
the new client written by `Response` (status 200). -/
inductive AddReply where
  | error (response : ErrorResponse) : AddReply
  | key (key : String) : AddReply
deriving DecidableEq, Repr

/-- The handler `AddClient`: the reply and the clients passed to the registry's
`Add`, in order.  `decoded` is the result of decoding the request body into a
`Client`, `Add` the registry call (an error or the new key). -/
def AddClient (decoded : Except String Client) (Add : Client → Except String String) :
    AddReply × List Client :=
  match decoded with
  | .error _ => (.error (ResponseError "invalid JSON" StatusBadRequest), [])
  | .ok client =>
    match client.Valid with
    | some err => (.error (ResponseError err StatusBadRequest), [])
    | none =>
      match Add client with
      | .error _ =>
        (.error (ResponseError "failed to add a client" StatusInternalServerError), [client])
      | .ok key => (.key key, [client])

/-! ## health probe -/

/-- What one turn of the loop of `pingEndpoint` receives from its `select`: the
cancel channel, or a tick followed by a `client.Get` that fails or that returns
a response with some status code. -/
inductive Probe where
  | cancel : Probe
  | failed : Probe
  | status (code : Int) : Probe
deriving DecidableEq, Repr

/-- The loop `for { select { ... } }` of `pingEndpoint`, run for at most `fuel`
turns, from turn `k` with the counter `current` and `tries` calls of
`client.Get` made so far.  The result is `none` when the loop is still running
after `fuel` turns, and otherwise the value returned with the number of tries. -/
def Endpoint.pingLoop (probes : Nat → Probe) (attempts : Int) :
    Nat → Nat → Int → Nat → Option (Bool × Nat)
  | 0, _, _, _ => none
  | fuel + 1, k, current, tries =>
    match probes k with
    | .cancel => Endpoint.pingLoop probes attempts fuel (k + 1) current tries
    | .failed =>
      if current < attempts then
        Endpoint.pingLoop probes attempts fuel (k + 1) (current + 1) (tries + 1)
      else some (false, tries + 1)
    | .status code =>
      if 200 ≤ code ∧ code < 300 then some (true, tries + 1)
      else Endpoint.pingLoop probes attempts fuel (k + 1) current (tries + 1)

/-- The method `pingEndpoint` (`var current int` starts at 0), run for at most
`fuel` turns of its loop. -/
def Endpoint.pingEndpoint (probes : Nat → Probe) (attempts : Int) (fuel : Nat) :
    Option (Bool × Nat) :=
  Endpoint.pingLoop probes attempts fuel 0 0 0

/-- The value `attempts := 5` with which `SetHealthCheck` calls `pingEndpoint`. -/
def attempts : Int := 5

/-! ## configuration -/

/-- The struct `Defaults`. -/
structure Defaults where
  Capacity : Nat
  Rate : Nat
deriving DecidableEq, Repr

/-- The anonymous struct of the field `Database`. -/
structure Database where
  Host : String
  Name : String
  Password : String
  Port : String
  User : String
deriving DecidableEq, Repr

/-- The struct `Config`; the two intervals are durations in nanoseconds. -/
structure Config where
  LoggingLevel : String
  Port : Nat
  Endpoints : List String
  Strategy : String
  HealthInterval : Int
  RefillInterval : Int
  Defaults : Defaults
  Mode : String
  MigrationsPath : String
  FilePath : String
  Database : Database
deriving DecidableEq, Repr

/-- The keys of the map `logLevels`. -/
def logLevels : List String := ["none", "debug", "info", "warn", "error"]

/-- The slice `strategies`. -/
def strategies : List String := ["round-robin", "least-connections", "random"]

/-- The slice `modes`. -/
def modes : List String := ["local", "remote"]

/-- The method `Config.Validate` on a pointer (`none` for nil): `none` for a nil
error, otherwise the text of the error. -/
def Config.Validate : Option Config → Option String
  | none => some "empty config is passed"
  | some c =>
    if ¬ c.LoggingLevel ∈ logLevels then some "invalid balancer logging level"
    else if c.Port = 0 then some "null server port"
    else if c.Endpoints.length = 0 then some "list of endpoints is empty"
    else if ¬ c.Strategy ∈ strategies then some "invalid balancer strategy"
    else if c.HealthInterval = 0 then some "null health interval"
    else if c.RefillInterval = 0 then some "null refill interval"
    else if c.Defaults.Capacity = 0 then some "null default capacity"
    else if c.Defaults.Rate = 0 then some "null default rate"
    else if ¬ c.Mode ∈ modes then some "invalid balancer mode"
    else if c.MigrationsPath = "" then some "empty migrations path"
    else if c.Mode = "local" ∧ c.FilePath = "" then some "empty file path in local mode"
    else none

/-- The values of the command-line flags of `cli.go` after `flag.Parse`. -/
structure Flags where
  Path : String
  Port : Nat
  HealthInterval : Int
  RefillInterval : Int
  Endpoints : String
  LoggingLevel : String
  Strategy : String
  Mode : String
  MigrationsPath : String
  FilePath : String
deriving DecidableEq, Repr

/-- The function `Load`.  `visited` lists the names of the flags set on the
command line (what `flag.Visit` visits), `Unmarshal` decodes the JSON list of
endpoints, and `fromFile` is the result of the other branch, which reads the
configuration file. -/
def Load (visited : List String) (flags : Flags)
    (Unmarshal : String → Except String (List String)) (fromFile : Except String Config) :
    Except String Config :=
  let hasPort := decide ("port" ∈ visited)
  let hasEndpoints := decide ("endpoints" ∈ visited)
  if hasPort && hasEndpoints then
    match Unmarshal flags.Endpoints with
    | .error err => .error ("decode endpoints JSON list: " ++ err)
    | .ok endpoints =>
      if ¬ flags.LoggingLevel ∈ logLevels then
        .error ("invalid logging level: " ++ flags.LoggingLevel)
      else
        .ok { LoggingLevel := flags.LoggingLevel,
              Port := flags.Port,
              Endpoints := endpoints,
              Strategy := flags.Strategy,
              HealthInterval := flags.HealthInterval,
              RefillInterval := flags.RefillInterval,
              Defaults := ⟨0, 0⟩,
              Mode := flags.Mode,
              MigrationsPath := flags.MigrationsPath,
              FilePath := flags.FilePath,
              Database := ⟨"", "", "", "", ""⟩ }
  else fromFile

/-- The function `New` of the balancer: the validation with which it starts;
`rest` is everything it does with a configuration that passed. -/
def New {β : Type} (rest : Config → Except String β) (cfg : Option Config) : Except String β :=
  match Config.Validate cfg with
  | some err => .error ("invalid config: " ++ err)
  | none =>
    match cfg with
    | some c => rest c
    | none => .error "invalid config: empty config is passed"

/-! ## concurrent calls of `Limiter.Available` -/

/-- Where a call of `Limiter.Available` stands: each constructor names the
statement the call executes next, and carries the local variables `bucket`,
`found`, `client` and the result as far as they are set.  A bucket is known by
its pointer. -/
inductive Pc where
  /-- The call is at `l.mu.RLock()`. -/
  | start : Pc
  /-- The call is at `bucket, found := l.buckets[key]`, holding the read lock. -/
  | rlocked : Pc
  /-- The call is at `l.mu.RUnlock()`, with the result of the lookup. -/
  | looked (bucket : Option Nat) : Pc
  /-- The call is at the last `return bucket.Available()`, outside `l.mu`. -/
  | hit (bucket : Nat) : Pc
  /-- The call is at `l.mu.Lock()`. -/
  | miss : Pc
  /-- The call is at the second lookup `bucket, found = l.buckets[key]`. -/
  | locked : Pc
  /-- The call is at `l.clients.Has(ctx, key)`. -/
  | lockedMiss : Pc
  /-- The call is at `return false`, before the deferred `l.mu.Unlock()`. -/
  | failed : Pc
  /-- The call is at `created := NewBucket(...)` and `l.buckets[key] = created`. -/
  | gotClient (client : Client) : Pc
  /-- The call is at `bucket.Available()` or `created.Available()` under `l.mu`. -/
  | lockedHit (bucket : Nat) : Pc
  /-- The call is at the deferred `l.mu.Unlock()`, with its result. -/
  | unlocking (bucket : Nat) (result : Bool) : Pc
  /-- The call has returned `result`, after `Available` on `bucket` if any. -/
  | returned (bucket : Option Nat) (result : Bool) : Pc
deriving DecidableEq, Repr

/-- What concurrent calls of `Limiter.Available` share: the map `l.buckets` from
keys to pointers, the buckets behind the pointers with the number allocated so
far, the state of the `sync.RWMutex` `l.mu` (the number of read locks held and
the call holding the write lock), and a record of the keys `Has` and
`NewBucket` were called for. -/
structure Shared where
  buckets : String → Option Nat
  heap : Nat → TokenBucket
  next : Nat
  readers : Nat
  writer : Option Nat
  hasCalls : List String
  created : List String

/-- One statement of the call numbered `id` of `Limiter.Available(ctx, key)`.
`RLock` waits while the write lock is held and `Lock` waits while any lock is
held: a call that waits stays where it is.  (`sync.RWMutex` also makes `RLock`
wait once a `Lock` is waiting, which only takes interleavings away.)
`bucket.Available()` runs under the mutex of the bucket and is one step; `now`
is the clock it reads. -/
def Limiter.stepCall (oor : Int → Nat → Nat) (Has : String → Except String Client)
    (now : Int) (id : Nat) (key : String) (s : Shared) : Pc → Shared × Pc
  | .start =>
    if s.writer = none then ({ s with readers := s.readers + 1 }, .rlocked) else (s, .start)
  | .rlocked => (s, .looked (s.buckets key))
  | .looked (some bucket) => ({ s with readers := s.readers - 1 }, .hit bucket)
  | .looked none => ({ s with readers := s.readers - 1 }, .miss)
  | .hit bucket =>
    ({ s with heap := Function.update s.heap bucket ((s.heap bucket).Available oor now).2 },
      .returned (some bucket) ((s.heap bucket).Available oor now).1)
  | .miss =>
    if s.writer = none ∧ s.readers = 0 then ({ s with writer := some id }, .locked)
    else (s, .miss)
  | .locked =>
    match s.buckets key with
    | some bucket => (s, .lockedHit bucket)
    | none => (s, .lockedMiss)
  | .lockedMiss =>
    match Has key with
    | .error _ => ({ s with hasCalls := s.hasCalls ++ [key] }, .failed)
    | .ok client => ({ s with hasCalls := s.hasCalls ++ [key] }, .gotClient client)
  | .failed => ({ s with writer := none }, .returned none false)
  | .gotClient client =>
    ({ s with
        heap := Function.update s.heap s.next (NewBucket client.Capacity client.Rate)
        next := s.next + 1
        buckets := Function.update s.buckets key (some s.next)
        created := s.created ++ [key] },
      .lockedHit s.next)
  | .lockedHit bucket =>
    ({ s with heap := Function.update s.heap bucket ((s.heap bucket).Available oor now).2 },
      .unlocking bucket ((s.heap bucket).Available oor now).1)
  | .unlocking bucket result => ({ s with writer := none }, .returned (some bucket) result)
  | .returned bucket result => (s, .returned bucket result)

/-- A call of `Limiter.Available` in flight: its argument and where it stands. -/
structure Goroutine where
  key : String
  pc : Pc
deriving DecidableEq, Repr

/-- Calls of `Limiter.Available` running concurrently on one limiter. -/
structure Concurrent where
  shared : Shared
  calls : List Goroutine

/-- The calls on `keys`, all about to start, on the shared state `s`. -/
def Concurrent.init (s : Shared) (keys : List String) : Concurrent :=
  ⟨s, keys.map (fun key => ⟨key, .start⟩)⟩

/-- The scheduler lets the call numbered `t.1` execute its next statement, at
the clock reading `t.2`. -/
def Concurrent.step (oor : Int → Nat → Nat) (Has : String → Except String Client)
    (c : Concurrent) (t : Nat × Int) : Concurrent :=
  match c.calls[t.1]? with
  | none => c
  | some g =>
    ⟨(Limiter.stepCall oor Has t.2 t.1 g.key c.shared g.pc).1,
      c.calls.set t.1 ⟨g.key, (Limiter.stepCall oor Has t.2 t.1 g.key c.shared g.pc).2⟩⟩

/-- An interleaving: the calls execute statements in the order of `schedule`. -/
def Concurrent.run (oor : Int → Nat → Nat) (Has : String → Except String Client)
    (c : Concurrent) (schedule : List (Nat × Int)) : Concurrent :=
  schedule.foldl (Concurrent.step oor Has) c

/-- The statements of one call executed alone: `n` steps of the call numbered
`id`, all at the clock reading `now`. -/
def Limiter.stepsCall (oor : Int → Nat → Nat) (Has : String → Except String Client)
    (now : Int) (id : Nat) (key : String) : Nat → Shared × Pc → Shared × Pc
  | 0, sp => sp
  | n + 1, sp =>
    Limiter.stepsCall oor Has now id key n (Limiter.stepCall oor Has now id key sp.1 sp.2)

/-- The schedule that runs `n` calls one after the other, nine statements each
(no path through `Limiter.Available` is longer), at the clock reading `now`. -/
def Concurrent.sequential (now : Int) : Nat → List (Nat × Int)
  | 0 => []
  | n + 1 => Concurrent.sequential now n ++ List.replicate 9 (n, now)

/-- The limiter of the sequential embedding that a shared state stands for: under
each key the bucket its pointer leads to. -/
def Shared.limiter (s : Shared) : Limiter :=
  ⟨fun key => (s.buckets key).map s.heap⟩

/-- Whether a call at this place holds the write lock of `l.mu`. -/
def Pc.holdsLock : Pc → Bool
  | .locked | .lockedMiss | .failed | .gotClient _ | .lockedHit _ | .unlocking _ _ => true
  | _ => false

/-- The bucket a call has in hand, from a lookup or from `NewBucket`. -/
def Pc.bucket : Pc → Option Nat
  | .looked bucket => bucket
  | .hit bucket | .lockedHit bucket | .unlocking bucket _ => some bucket
  | .returned bucket _ => bucket
  | _ => none

/-- The places of a call on a key while the key has no bucket and `Has` has not
been called for it. -/
def Pc.okFresh : Pc → Bool
  | .start | .rlocked | .looked none | .miss | .locked | .lockedMiss => true
  | _ => false

/-- The places of a call on a key while one call has the client from `Has` and
has not stored the bucket yet. -/
def Pc.okConsulted : Pc → Bool
  | .start | .rlocked | .looked none | .miss | .gotClient _ => true
  | _ => false

/-- The places of a call on a key once the bucket `p` is stored under the key. -/
def Pc.okInstalled (p : Nat) : Pc → Bool
  | .start | .rlocked | .looked none | .miss | .locked => true
  | .looked (some q) | .hit q | .lockedHit q | .unlocking q _ | .returned (some q) _ => q = p
  | _ => false

/-- The invariant of the calls for one key `k` that had no bucket at the start,
when `h0`, `c0` and `n0` are the numbers of `Has` calls for `k`, of buckets
created for `k` and of buckets allocated at the start.  The write lock is held
by the call that is inside the locked section, and one of three holds: no bucket
and no `Has` call for `k` yet; one `Has` call made, by the holder of the write
lock, which is about to store the bucket; or one bucket stored, and every bucket
a call on `k` has in hand is that one. -/
def Concurrent.Inv (k : String) (h0 c0 n0 : Nat) (c : Concurrent) : Prop :=
  (∀ (j : Nat) (g : Goroutine), c.calls[j]? = some g → g.pc.holdsLock = true → c.shared.writer = some j) ∧
  n0 ≤ c.shared.next ∧
  ((c.shared.buckets k = none ∧ c.shared.hasCalls.count k = h0 ∧
      c.shared.created.count k = c0 ∧
      ∀ (j : Nat) (g : Goroutine), c.calls[j]? = some g → g.key = k → g.pc.okFresh = true) ∨
   (c.shared.buckets k = none ∧ c.shared.hasCalls.count k = h0 + 1 ∧
      c.shared.created.count k = c0 ∧
      (∃ (w : Nat) (client : Client), c.calls[w]? = some ⟨k, .gotClient client⟩) ∧
      ∀ (j : Nat) (g : Goroutine), c.calls[j]? = some g → g.key = k → g.pc.okConsulted = true) ∨
   (∃ p, n0 ≤ p ∧ p < c.shared.next ∧ c.shared.buckets k = some p ∧
      c.shared.hasCalls.count k = h0 + 1 ∧ c.shared.created.count k = c0 + 1 ∧
      ∀ (j : Nat) (g : Goroutine), c.calls[j]? = some g → g.key = k → g.pc.okInstalled p = true))

/-! ## token bucket: invariant -/

theorem refill_tokens_le (oor : Int → Nat → Nat) (now : Int) (b : TokenBucket)
    (h : b.tokens ≤ b.capacity) : (b.refill oor now).tokens ≤ (b.refill oor now).capacity := by
  unfold TokenBucket.refill
  dsimp only
  split
  · exact Nat.min_le_left _ _
  · exact h

theorem refill_capacity (oor : Int → Nat → Nat) (now : Int) (b : TokenBucket) :
    (b.refill oor now).capacity = b.capacity := by
  unfold TokenBucket.refill
  dsimp only
  split <;> rfl

theorem refill_rate (oor : Int → Nat → Nat) (now : Int) (b : TokenBucket) :
    (b.refill oor now).rate = b.rate := by
  unfold TokenBucket.refill
  dsimp only
  split <;> rfl

theorem Available_capacity (oor : Int → Nat → Nat) (now : Int) (b : TokenBucket) :
    (b.Available oor now).2.capacity = b.capacity := by
  unfold TokenBucket.Available
  dsimp only
  split <;> simp [refill_capacity]

theorem Available_rate (oor : Int → Nat → Nat) (now : Int) (b : TokenBucket) :
    (b.Available oor now).2.rate = b.rate := by
  unfold TokenBucket.Available
  dsimp only
  split <;> simp [refill_rate]

theorem Available_tokens_le (oor : Int → Nat → Nat) (now : Int) (b : TokenBucket)
    (h : b.tokens ≤ b.capacity) :
    (b.Available oor now).2.tokens ≤ (b.Available oor now).2.capacity := by
  have h1 := refill_tokens_le oor now b h
  unfold TokenBucket.Available
  dsimp only
  split
  · simp only
    omega
  · exact h1

theorem step_inv (oor : Int → Nat → Nat) (b : TokenBucket) (c : Call)
    (h : b.tokens ≤ b.capacity) :
    (b.step oor c).tokens ≤ (b.step oor c).capacity ∧ (b.step oor c).capacity = b.capacity := by
  cases c with
  | available now => exact ⟨Available_tokens_le oor now b h, Available_capacity oor now b⟩
  | refill now => exact ⟨refill_tokens_le oor now b h, refill_capacity oor now b⟩

theorem run_inv (oor : Int → Nat → Nat) (calls : List Call) :
    ∀ b : TokenBucket, b.tokens ≤ b.capacity →
      (b.run oor calls).tokens ≤ b.capacity ∧ (b.run oor calls).capacity = b.capacity := by
  induction calls with
  | nil => intro b h; exact ⟨h, rfl⟩
  | cons c cs ih =>
    intro b h
    have hs := step_inv oor b c h
    have := ih (b.step oor c) hs.1
    simp only [TokenBucket.run, List.foldl_cons] at this ⊢
    rw [hs.2] at this
    exact this

/-- C1. Token-bucket invariant: for every bucket made by `NewBucket capacity rate`
and every finite sequence of `Available` and `refill` calls at any times, the
bucket afterwards has `0 ≤ tokens ≤ capacity` (with the capacity it was made
with); as the sequence is arbitrary this holds after each call. -/
theorem C1_tokens_within_capacity (oor : Int → Nat → Nat) (capacity rate : Nat)
    (calls : List Call) :
    0 ≤ ((NewBucket capacity rate).run oor calls).tokens ∧
    ((NewBucket capacity rate).run oor calls).tokens ≤ capacity ∧
    ((NewBucket capacity rate).run oor calls).capacity = capacity := by
  have h := run_inv oor calls (NewBucket capacity rate) (le_refl _)
  exact ⟨Nat.zero_le _, h.1, h.2⟩

/-! ## limiter: registry failure -/

/-- C6. `Limiter.Available` fails closed on a registry failure: for a key absent
from the bucket map, if the registry's `Has` returns an error, the call returns
false and the limiter (its bucket map) is unchanged. -/
theorem C6_registry_failure_fail_closed (oor : Int → Nat → Nat)
    (Has : String → Except String Client) (now : Int) (key : String) (l : Limiter)
    (habsent : l.buckets key = none) (err : String) (hfail : Has key = .error err) :
    l.Available oor Has now key = (false, l) ∧
    (l.Available oor Has now key).2.buckets key = none := by
  have h : l.Available oor Has now key = (false, l) := by
    unfold Limiter.Available
    simp only [habsent, hfail]
  rw [h]
  exact ⟨rfl, habsent⟩

theorem C6_registry_failure_fail_closed_witness :
    (Limiter.New.Available (fun _ _ => 0) (fun _ => .error "connection refused") 0 "k"
        = (false, Limiter.New)) ∧
    (Limiter.New.Available (fun _ _ => 0) (fun _ => .error "connection refused") 0 "k").2.buckets "k"
        = none :=
  C6_registry_failure_fail_closed (fun _ _ => 0) (fun _ => .error "connection refused") 0 "k"
    Limiter.New rfl "connection refused" rfl

/-! ## random strategy -/

theorem Random_loop_inactive (endpoints : List Endpoint) (sample : Nat → Nat)
    (hne : endpoints ≠ []) (hall : ∀ e ∈ endpoints, e.active = false) :
    ∀ fuel k, Random.loop endpoints sample endpoints.length fuel k = none := by
  intro fuel
  induction fuel with
  | zero => intro k; rfl
  | succ f ih =>
    intro k
    have hpos : 0 < endpoints.length := List.length_pos.mpr hne
    have hlt : sample k % endpoints.length < endpoints.length := Nat.mod_lt _ hpos
    unfold Random.loop
    rw [List.getElem?_eq_getElem hlt]
    simp only
    have := hall _ (List.getElem_mem hlt)
    simp only [Endpoint.IsActive, this]
    exact ih (k + 1)

theorem Random_loop_active (endpoints : List Endpoint) (sample : Nat → Nat) (total : Nat)
    (e : Endpoint) :
    ∀ fuel k, Random.loop endpoints sample total fuel k = some (some e) →
      e ∈ endpoints ∧ e.active = true := by
  intro fuel
  induction fuel with
  | zero => intro k h; simp [Random.loop] at h
  | succ f ih =>
    intro k h
    unfold Random.loop at h
    cases hg : endpoints[sample k % total]? with
    | none => simp [hg] at h
    | some x =>
      simp only [hg] at h
      by_cases hx : x.IsActive = true
      · simp only [hx, if_true, Option.some.injEq] at h
        subst h
        exact ⟨List.getElem?_mem hg, hx⟩
      · simp only [hx] at h
        exact ih (k + 1) h

/-- Runs of `Random.Next`: every run of `Random.Next` that returns a
non-nil endpoint returns an active endpoint of the list; and on a non-empty list
whose endpoints are all inactive the loop has not returned after any number of
samples, whatever the random source yields. -/
theorem Random_Next_inactive_diverges (endpoints : List Endpoint) (sample : Nat → Nat) :
    (∀ fuel e, Random.Next endpoints sample fuel = some (some e) →
        e ∈ endpoints ∧ e.active = true) ∧
    (endpoints ≠ [] → (∀ e ∈ endpoints, e.active = false) →
        ∀ fuel, Random.Next endpoints sample fuel = none) := by
  constructor
  · intro fuel e h
    unfold Random.Next at h
    dsimp only at h
    split at h
    · simp at h
    · exact Random_loop_active endpoints sample _ e fuel 0 h
  · intro hne hall fuel
    unfold Random.Next
    dsimp only
    rw [if_neg (by simpa using hne)]
    exact Random_loop_inactive endpoints sample hne hall fuel 0

/-- C10 at the failing input: with the single endpoint inactive, `Random.Next`
has not returned after `fuel` samples, for every `fuel` and every random source:
it never returns nil. -/
theorem C10_Random_Next_single_inactive_never_returns (sample : Nat → Nat) (fuel : Nat) :
    Random.Next [{ id := 0, active := false, connections := 0 }] sample fuel = none :=
  (Random_Next_inactive_diverges _ sample).2 (by simp) (by simp) fuel

/-! ## round-robin strategy -/

theorem RoundRobin_loop_eq (endpoints : List Endpoint) (current start : Nat)
    (hpos : 0 < endpoints.length) :
    ∀ k i, RoundRobin.loop endpoints current endpoints.length start k i =
      match (List.range' i k).find? (fun j => activeAt endpoints ((start + j) % endpoints.length)) with
      | some j => (endpoints[(start + j) % endpoints.length]?,
          ((start + j) % endpoints.length + 1) % endpoints.length)
      | none => (none, current) := by
  intro k
  induction k with
  | zero => intro i; simp [RoundRobin.loop]
  | succ k ih =>
    intro i
    have hlt : (start + i) % endpoints.length < endpoints.length := Nat.mod_lt _ hpos
    have he : endpoints[(start + i) % endpoints.length]? =
        some (endpoints[(start + i) % endpoints.length]) := List.getElem?_eq_getElem hlt
    generalize endpoints[(start + i) % endpoints.length] = e at he
    unfold RoundRobin.loop
    simp only [List.range'_succ, List.find?_cons, activeAt, he, Option.map_some',
      Option.getD_some, Endpoint.IsActive]
    by_cases hact : e.active = true
    · simp [hact, he]
    · have hf : e.active = false := by simpa using hact
      simp only [hf, Bool.false_eq_true, if_false]
      rw [ih (i + 1)]
      simp only [activeAt]

theorem mem_cyclicOrder (n i k : Nat) : k ∈ cyclicOrder n i ↔ k < n := by
  unfold cyclicOrder
  simp only [List.mem_map, List.mem_range]
  constructor
  · rintro ⟨j, hj, rfl⟩
    exact Nat.mod_lt _ (by omega)
  · intro hk
    refine ⟨(k + n - i % n) % n, Nat.mod_lt _ (by omega), ?_⟩
    have hi : i % n < n := Nat.mod_lt _ (by omega)
    have : i % n + (k + n - i % n) = k + n := by omega
    rw [Nat.add_mod_mod, ← Nat.mod_add_mod, this, Nat.add_mod_right, Nat.mod_eq_of_lt hk]

theorem activeAt_eq_true (endpoints : List Endpoint) (k : Nat) :
    activeAt endpoints k = true ↔ ∃ e, endpoints[k]? = some e ∧ e.active = true := by
  unfold activeAt
  cases endpoints[k]? <;> simp

theorem RoundRobin_Next_eq_NextSpec (r : RoundRobin) : r.Next = r.NextSpec := by
  unfold RoundRobin.Next RoundRobin.NextSpec
  dsimp only
  by_cases hn : r.endpoints.length = 0
  · simp [hn, cyclicOrder]
  · have hpos : 0 < r.endpoints.length := Nat.pos_of_ne_zero hn
    rw [if_neg hn, RoundRobin_loop_eq _ _ _ hpos, ← List.range_eq_range']
    unfold cyclicOrder
    rw [List.find?_map]
    have hfun : (fun j => activeAt r.endpoints ((r.current % r.endpoints.length + j) % r.endpoints.length))
        = (activeAt r.endpoints ∘
            (fun j => (r.current + j) % r.endpoints.length)) := by
      funext j
      simp only [Function.comp, activeAt, Nat.mod_add_mod]
    rw [hfun]
    cases List.find? _ (List.range r.endpoints.length) with
    | none => rfl
    | some j => simp only [Option.map_some', Nat.mod_add_mod]

theorem RoundRobin_NextSpec_none_iff (r : RoundRobin) :
    (r.NextSpec).1 = none ↔ ∀ e ∈ r.endpoints, e.active = false := by
  unfold RoundRobin.NextSpec
  dsimp only
  cases hf : (cyclicOrder r.endpoints.length r.current).find?
      (activeAt r.endpoints) with
  | none =>
    simp only [true_iff]
    intro e he
    obtain ⟨k, hk, rfl⟩ := List.getElem_of_mem he
    have := List.find?_eq_none.mp hf k ((mem_cyclicOrder _ _ _).mpr hk)
    simpa [activeAt, List.getElem?_eq_getElem hk] using this
  | some k =>
    have hP := List.find?_some hf
    obtain ⟨e, he, hact⟩ := (activeAt_eq_true r.endpoints k).mp hP
    simp only [he]
    constructor
    · intro h; simp at h
    · intro h
      have := h e (List.getElem?_mem he)
      rw [hact] at this
      simp at this

/-- C8. `RoundRobin.Next` equals its reference definition: for every list of
endpoints and every cursor value it returns the first active endpoint in the
cyclic order from the cursor and moves the cursor to `(found_index + 1) mod n`;
the endpoint returned is an active endpoint of the list; it returns nil exactly
when no endpoint is active (the empty list included), and then the strategy,
cursor included, is unchanged. -/
theorem C8_RoundRobin_Next_refines_spec (r : RoundRobin) :
    r.Next = r.NextSpec ∧
    (∀ e, (r.Next).1 = some e → e ∈ r.endpoints ∧ e.active = true) ∧
    ((r.Next).1 = none ↔ ∀ e ∈ r.endpoints, e.active = false) ∧
    ((r.Next).1 = none → (r.Next).2 = r) := by
  refine ⟨RoundRobin_Next_eq_NextSpec r, ?_, ?_, ?_⟩
  · intro e he
    rw [RoundRobin_Next_eq_NextSpec] at he
    unfold RoundRobin.NextSpec at he
    dsimp only at he
    cases hf : (cyclicOrder r.endpoints.length r.current).find?
        (activeAt r.endpoints) with
    | none => simp [hf] at he
    | some k =>
      simp only [hf] at he
      obtain ⟨e', he', hact⟩ := (activeAt_eq_true r.endpoints k).mp (List.find?_some hf)
      rw [he'] at he
      cases he
      exact ⟨List.getElem?_mem he', hact⟩
  · rw [RoundRobin_Next_eq_NextSpec]
    exact RoundRobin_NextSpec_none_iff r
  · rw [RoundRobin_Next_eq_NextSpec]
    intro h
    unfold RoundRobin.NextSpec at h ⊢
    dsimp only at h ⊢
    cases hf : (cyclicOrder r.endpoints.length r.current).find?
        (activeAt r.endpoints) with
    | none => rfl
    | some k =>
      exfalso
      simp only [hf] at h
      obtain ⟨e', he', _⟩ := (activeAt_eq_true r.endpoints k).mp (List.find?_some hf)
      rw [he'] at h
      simp at h

/-! ## round-robin fairness -/

theorem RoundRobin_Next_all_active (r : RoundRobin) (hpos : 0 < r.endpoints.length)
    (hact : ∀ e ∈ r.endpoints, e.active = true) :
    r.Next = (r.endpoints[r.current % r.endpoints.length]?,
      { r with current := (r.current % r.endpoints.length + 1) % r.endpoints.length }) := by
  have hlt : r.current % r.endpoints.length < r.endpoints.length := Nat.mod_lt _ hpos
  have hne : r.endpoints.length ≠ 0 := by omega
  unfold RoundRobin.Next
  dsimp only
  rw [if_neg hne]
  obtain ⟨k, hk⟩ : ∃ k, r.endpoints.length = k + 1 := ⟨r.endpoints.length - 1, by omega⟩
  have hl : RoundRobin.loop r.endpoints r.current r.endpoints.length
      (r.current % r.endpoints.length) r.endpoints.length 0 =
      (r.endpoints[r.current % r.endpoints.length]?,
        (r.current % r.endpoints.length + 1) % r.endpoints.length) := by
    conv_lhs => arg 5; rw [hk]
    unfold RoundRobin.loop
    simp only [Nat.add_zero, Nat.mod_mod]
    rw [List.getElem?_eq_getElem hlt]
    simp only [Endpoint.IsActive, hact _ (List.getElem_mem hlt), if_true]
  rw [hl]

theorem RoundRobin_dispatch_all_active (endpoints : List Endpoint)
    (hpos : 0 < endpoints.length) (hact : ∀ e ∈ endpoints, e.active = true) :
    ∀ N current, RoundRobin.dispatch N ⟨endpoints, current⟩ =
      (List.range N).map (fun j => endpoints[(current + j) % endpoints.length]?) := by
  intro N
  induction N with
  | zero => intro current; rfl
  | succ N ih =>
    intro current
    have hn := RoundRobin_Next_all_active ⟨endpoints, current⟩ hpos hact
    simp only at hn
    unfold RoundRobin.dispatch
    rw [hn]
    simp only
    rw [ih, List.range_succ_eq_map, List.map_cons, List.map_map]
    simp only [Nat.add_zero, List.cons.injEq, true_and]
    apply List.map_congr_left
    intro j _
    simp only [Function.comp, Nat.mod_add_mod]
    congr 2
    omega

theorem cyclic_hit_iff (n c t j : Nat) (hc : c < n) (ht : t < n) :
    (c + j) % n = t ↔ j ≡ t + (n - c) [MOD n] := by
  unfold Nat.ModEq
  constructor
  · intro h
    rw [← h, Nat.mod_add_mod]
    have : c + j + (n - c) = j + n := by omega
    rw [this, Nat.add_mod_right]
  · intro h
    rw [← Nat.add_mod_mod, h, Nat.add_mod_mod]
    have : c + (t + (n - c)) = t + n := by omega
    rw [this, Nat.add_mod_right, Nat.mod_eq_of_lt ht]

/-- C9. Round-robin fairness: with `n ≥ 1` endpoints, all active (and distinct as
pointers), from every cursor value and for every `N`, the `N` sequential calls
of `RoundRobin.Next` return each endpoint at least `⌊N/n⌋` and at most `⌈N/n⌉`
times. -/
theorem C9_RoundRobin_fairness (r : RoundRobin) (N : Nat) (hne : r.endpoints ≠ [])
    (hact : ∀ e ∈ r.endpoints, e.active = true) (hnodup : r.endpoints.Nodup)
    (e : Endpoint) (he : e ∈ r.endpoints) :
    N / r.endpoints.length ≤ (RoundRobin.dispatch N r).count (some e) ∧
    (RoundRobin.dispatch N r).count (some e) ≤
      (N + r.endpoints.length - 1) / r.endpoints.length := by
  obtain ⟨endpoints, current⟩ := r
  simp only at hne hact hnodup he ⊢
  have hpos : 0 < endpoints.length := List.length_pos.mpr hne
  obtain ⟨t, ht, rfl⟩ := List.getElem_of_mem he
  have hc : current % endpoints.length < endpoints.length := Nat.mod_lt _ hpos
  have hcount : (RoundRobin.dispatch N ⟨endpoints, current⟩).count (some endpoints[t]) =
      Nat.count (fun j => j ≡ t + (endpoints.length - current % endpoints.length)
        [MOD endpoints.length]) N := by
    rw [RoundRobin_dispatch_all_active endpoints hpos hact, List.count_eq_countP,
      List.countP_map, Nat.count]
    apply List.countP_congr
    intro j _
    have hlt : (current + j) % endpoints.length < endpoints.length := Nat.mod_lt _ hpos
    simp only [Function.comp, List.getElem?_eq_getElem hlt, beq_iff_eq, Option.some.injEq,
      decide_eq_true_eq]
    rw [hnodup.getElem_inj_iff, ← cyclic_hit_iff _ _ _ _ hc ht, Nat.mod_add_mod]
  rw [hcount, Nat.count_modEq_card N hpos]
  constructor
  · omega
  · split
    · rename_i hlt
      have hm : 1 ≤ N % endpoints.length := by omega
      have hdm := Nat.div_add_mod N endpoints.length
      rw [Nat.le_div_iff_mul_le hpos]
      have : (N / endpoints.length + 1) * endpoints.length
          = endpoints.length * (N / endpoints.length) + endpoints.length := by ring
      omega
    · rw [Nat.add_zero]
      exact Nat.div_le_div_right (by omega)

set_option maxRecDepth 4000 in
theorem C9_RoundRobin_fairness_witness :
    6 / 3 ≤ (RoundRobin.dispatch 6 ⟨[⟨0, true, 0⟩, ⟨1, true, 0⟩, ⟨2, true, 0⟩], 7⟩).count
      (some ⟨1, true, 0⟩) ∧
    (RoundRobin.dispatch 6 ⟨[⟨0, true, 0⟩, ⟨1, true, 0⟩, ⟨2, true, 0⟩], 7⟩).count
      (some ⟨1, true, 0⟩) ≤ (6 + 3 - 1) / 3 :=
  C9_RoundRobin_fairness ⟨[⟨0, true, 0⟩, ⟨1, true, 0⟩, ⟨2, true, 0⟩], 7⟩ 6 (by simp)
    (by decide) (by decide) ⟨1, true, 0⟩ (by decide)

/-! ## binary64 rounding: error bounds -/

theorem roundNE_bounds (n d : Nat) (hd : 0 < d) :
    2 * (roundNE n d * d) ≤ 2 * n + d ∧ 2 * n ≤ 2 * (roundNE n d * d) + d := by
  have hdm := Nat.div_add_mod n d
  have hr : n % d < d := Nat.mod_lt _ hd
  have hc : n / d * d = d * (n / d) := Nat.mul_comm _ _
  have hc1 : (n / d + 1) * d = d * (n / d) + d := by ring
  unfold roundNE
  dsimp only
  split
  · rw [hc]; omega
  · split
    · rw [hc1]; omega
    · split
      · rw [hc]; omega
      · rw [hc1]; omega

theorem ilog2Aux_bounds : ∀ fuel n, 0 < n → n ≤ fuel →
    2 ^ ilog2Aux fuel n ≤ n ∧ n < 2 ^ (ilog2Aux fuel n + 1) := by
  intro fuel
  induction fuel with
  | zero => intro n h0 h1; omega
  | succ f ih =>
    intro n h0 h1
    unfold ilog2Aux
    split
    · simp; omega
    · have h2 : 0 < n / 2 := Nat.div_pos (by omega) (by omega)
      have h3 : n / 2 ≤ f := by omega
      obtain ⟨ha, hb⟩ := ih (n / 2) h2 h3
      rw [pow_succ] at hb ⊢
      rw [pow_succ]
      constructor <;> omega

theorem ilog2_bounds (n : Nat) (h : 0 < n) : 2 ^ ilog2 n ≤ n ∧ n < 2 ^ (ilog2 n + 1) :=
  ilog2Aux_bounds n n h (le_refl n)

theorem f64Shift_normal (n d : Nat) (hn : 0 < n) (hd : 0 < d) :
    d * 2 ^ (-(f64Shift n d)).toNat * 2 ^ 52 ≤ n * 2 ^ (f64Shift n d).toNat := by
  obtain ⟨hn1, _⟩ := ilog2_bounds n hn
  obtain ⟨_, hd2⟩ := ilog2_bounds d hd
  unfold f64Shift
  dsimp only
  split
  · rename_i hlt
    by_cases hs : (0 : Int) ≤ 52 + (ilog2 d : Int) - (ilog2 n : Int) + 1
    · have ha : (52 + (ilog2 d : Int) - (ilog2 n : Int) + 1).toNat + ilog2 n = 53 + ilog2 d := by
        omega
      have hb : (-(52 + (ilog2 d : Int) - (ilog2 n : Int) + 1)).toNat = 0 := by omega
      rw [hb, pow_zero, Nat.mul_one]
      calc d * 2 ^ 52 ≤ 2 ^ (ilog2 d + 1) * 2 ^ 52 := Nat.mul_le_mul_right _ hd2.le
        _ = 2 ^ ilog2 n * 2 ^ (52 + (ilog2 d : Int) - (ilog2 n : Int) + 1).toNat := by
            rw [← pow_add, ← pow_add]; congr 1; omega
        _ ≤ n * 2 ^ (52 + (ilog2 d : Int) - (ilog2 n : Int) + 1).toNat :=
            Nat.mul_le_mul_right _ hn1
    · have ha : (52 + (ilog2 d : Int) - (ilog2 n : Int) + 1).toNat = 0 := by omega
      have hb : (-(52 + (ilog2 d : Int) - (ilog2 n : Int) + 1)).toNat + 52 + (ilog2 d + 1)
          = ilog2 n := by omega
      rw [ha, pow_zero, Nat.mul_one]
      calc d * 2 ^ (-(52 + (ilog2 d : Int) - (ilog2 n : Int) + 1)).toNat * 2 ^ 52
          ≤ 2 ^ (ilog2 d + 1) * 2 ^ (-(52 + (ilog2 d : Int) - (ilog2 n : Int) + 1)).toNat * 2 ^ 52 :=
            Nat.mul_le_mul_right _ (Nat.mul_le_mul_right _ hd2.le)
        _ = 2 ^ ilog2 n := by
            rw [← pow_add, ← pow_add]; congr 1; omega
        _ ≤ n := hn1
  · rename_i hge
    exact Nat.le_of_not_lt hge

theorem f64Shift_upper (n d : Nat) (hn : 0 < n) (hd : 0 < d) :
    n * 2 ^ (f64Shift n d).toNat < d * 2 ^ (-(f64Shift n d)).toNat * 2 ^ 53 := by
  obtain ⟨_, hn2⟩ := ilog2_bounds n hn
  obtain ⟨hd1, _⟩ := ilog2_bounds d hd
  unfold f64Shift
  dsimp only
  generalize hs0 : (52 + (ilog2 d : Int) - (ilog2 n : Int)) = s0
  split
  · rename_i hlt
    -- the quotient was below `2^52`: one more doubling
    by_cases hs : 0 ≤ s0
    · have ha : (s0 + 1).toNat = s0.toNat + 1 := by omega
      have hb : (-(s0 + 1)).toNat = 0 := by omega
      have hb0 : (-s0).toNat = 0 := by omega
      rw [hb0, pow_zero, Nat.mul_one] at hlt
      rw [ha, hb, pow_zero, Nat.mul_one, pow_succ, ← Nat.mul_assoc]
      omega
    · have ha : (s0 + 1).toNat = 0 := by omega
      have ha0 : s0.toNat = 0 := by omega
      have hb : (-s0).toNat = (-(s0 + 1)).toNat + 1 := by omega
      rw [ha0, pow_zero, Nat.mul_one, hb, pow_succ, ← Nat.mul_assoc] at hlt
      rw [ha, pow_zero, Nat.mul_one]
      generalize d * 2 ^ (-(s0 + 1)).toNat = D at hlt ⊢
      omega
  · by_cases hs : 0 ≤ s0
    · have hb0 : (-s0).toNat = 0 := by omega
      rw [hb0, pow_zero, Nat.mul_one]
      calc n * 2 ^ s0.toNat < 2 ^ (ilog2 n + 1) * 2 ^ s0.toNat :=
            Nat.mul_lt_mul_of_pos_right hn2 (by positivity)
        _ = 2 ^ ilog2 d * 2 ^ 53 := by
            rw [← pow_add, ← pow_add]; congr 1; omega
        _ ≤ d * 2 ^ 53 := Nat.mul_le_mul_right _ hd1
    · have ha0 : s0.toNat = 0 := by omega
      rw [ha0, pow_zero, Nat.mul_one]
      calc n < 2 ^ (ilog2 n + 1) := hn2
        _ = 2 ^ ilog2 d * 2 ^ (-s0).toNat * 2 ^ 53 := by
            rw [← pow_add, ← pow_add]; congr 1; omega
        _ ≤ d * 2 ^ (-s0).toNat * 2 ^ 53 :=
            Nat.mul_le_mul_right _ (Nat.mul_le_mul_right _ hd1)

/-- The result of `f64Round` is a binary64 number: an integer significand in
`[2^52, 2^53]` scaled by a power of two, the nearest-even rounding of the scaled
quotient. -/
theorem f64Round_significand (n d : Nat) (hn : 0 < n) (hd : 0 < d) :
    2 ^ 52 ≤ roundNE (n * 2 ^ (f64Shift n d).toNat) (d * 2 ^ (-(f64Shift n d)).toNat) ∧
    roundNE (n * 2 ^ (f64Shift n d).toNat) (d * 2 ^ (-(f64Shift n d)).toNat) ≤ 2 ^ 53 ∧
    f64Round n d =
      (roundNE (n * 2 ^ (f64Shift n d).toNat) (d * 2 ^ (-(f64Shift n d)).toNat)
          * 2 ^ (-(f64Shift n d)).toNat,
        2 ^ (f64Shift n d).toNat) := by
  have hD : 0 < d * 2 ^ (-(f64Shift n d)).toNat := Nat.mul_pos hd (by positivity)
  obtain ⟨h1, h2⟩ := roundNE_bounds (n * 2 ^ (f64Shift n d).toNat)
    (d * 2 ^ (-(f64Shift n d)).toNat) hD
  have h3 := f64Shift_normal n d hn hd
  have h4 := f64Shift_upper n d hn hd
  refine ⟨?_, ?_, ?_⟩
  · by_contra hlt
    have hm : roundNE (n * 2 ^ (f64Shift n d).toNat) (d * 2 ^ (-(f64Shift n d)).toNat)
        ≤ 2 ^ 52 - 1 := by omega
    have := Nat.mul_le_mul_right (d * 2 ^ (-(f64Shift n d)).toNat) hm
    generalize roundNE (n * 2 ^ (f64Shift n d).toNat) (d * 2 ^ (-(f64Shift n d)).toNat)
      * (d * 2 ^ (-(f64Shift n d)).toNat) = P at h1 h2 this
    generalize d * 2 ^ (-(f64Shift n d)).toNat = D at h3 h4 hD this h1 h2
    norm_num at this h3
    omega
  · by_contra hgt
    have hm : 2 ^ 53 + 1
        ≤ roundNE (n * 2 ^ (f64Shift n d).toNat) (d * 2 ^ (-(f64Shift n d)).toNat) := by omega
    have := Nat.mul_le_mul_right (d * 2 ^ (-(f64Shift n d)).toNat) hm
    generalize roundNE (n * 2 ^ (f64Shift n d).toNat) (d * 2 ^ (-(f64Shift n d)).toNat)
      * (d * 2 ^ (-(f64Shift n d)).toNat) = P at h1 h2 this
    generalize d * 2 ^ (-(f64Shift n d)).toNat = D at h3 h4 hD this h1 h2
    norm_num at this h4
    omega
  · unfold f64Round
    rw [if_neg (by omega)]

theorem f64Round_den_pos (n d : Nat) : 0 < (f64Round n d).2 := by
  unfold f64Round
  split
  · exact Nat.one_pos
  · exact Nat.pos_pow_of_pos _ (by decide)

theorem f64Round_nat_bounds (n d : Nat) (hd : 0 < d) :
    (f64Round n d).1 * d * 2 ^ 53 ≤ n * (f64Round n d).2 * (2 ^ 53 + 1) ∧
    n * (f64Round n d).2 * (2 ^ 53 - 1) ≤ (f64Round n d).1 * d * 2 ^ 53 := by
  unfold f64Round
  split
  · rename_i h0
    subst h0
    simp
  · rename_i h0
    have hn : 0 < n := Nat.pos_of_ne_zero h0
    dsimp only
    have hD : 0 < d * 2 ^ (-(f64Shift n d)).toNat :=
      Nat.mul_pos hd (Nat.pos_pow_of_pos _ (by decide))
    obtain ⟨h1, h2⟩ := roundNE_bounds (n * 2 ^ (f64Shift n d).toNat)
      (d * 2 ^ (-(f64Shift n d)).toNat) hD
    have h3 := f64Shift_normal n d hn hd
    generalize n * 2 ^ (f64Shift n d).toNat = N at h1 h2 h3 ⊢
    generalize hDe : d * 2 ^ (-(f64Shift n d)).toNat = D at h1 h2 h3 hD
    generalize hme : roundNE N D = m at h1 h2
    have e1 : m * 2 ^ (-(f64Shift n d)).toNat * d = m * D := by rw [← hDe]; ring
    rw [e1]
    generalize m * D = P at h1 h2
    norm_num at h3 ⊢
    constructor <;> omega

theorem f64Round_le (n d : Nat) (hd : 0 < d) :
    f64Val (f64Round n d) ≤ (n : ℚ) / d * (1 + 1 / 2 ^ 53) := by
  have hy : (0 : ℚ) < ((f64Round n d).2 : ℚ) := by exact_mod_cast f64Round_den_pos n d
  have hd' : (0 : ℚ) < (d : ℚ) := by exact_mod_cast hd
  have h : ((f64Round n d).1 : ℚ) * d * 2 ^ 53 ≤ n * (f64Round n d).2 * (2 ^ 53 + 1) := by
    exact_mod_cast (f64Round_nat_bounds n d hd).1
  unfold f64Val
  rw [div_le_iff₀ hy]
  have e : (n : ℚ) / d * (1 + 1 / 2 ^ 53) * ((f64Round n d).2 : ℚ)
      = (n * (f64Round n d).2 * (2 ^ 53 + 1)) / (d * 2 ^ 53) := by
    field_simp
    ring
  rw [e, le_div_iff₀ (by positivity)]
  linarith

theorem f64Round_ge (n d : Nat) (hd : 0 < d) :
    (n : ℚ) / d * (1 - 1 / 2 ^ 53) ≤ f64Val (f64Round n d) := by
  have hy : (0 : ℚ) < ((f64Round n d).2 : ℚ) := by exact_mod_cast f64Round_den_pos n d
  have hd' : (0 : ℚ) < (d : ℚ) := by exact_mod_cast hd
  have h : (n : ℚ) * (f64Round n d).2 * (2 ^ 53 - 1) ≤ ((f64Round n d).1 : ℚ) * d * 2 ^ 53 := by
    have := (f64Round_nat_bounds n d hd).2
    have h' : ((n * (f64Round n d).2 * (2 ^ 53 - 1) : ℕ) : ℚ)
        ≤ (((f64Round n d).1 * d * 2 ^ 53 : ℕ) : ℚ) := by exact_mod_cast this
    push_cast at h'
    linarith
  unfold f64Val
  rw [le_div_iff₀ hy]
  have e : (n : ℚ) / d * (1 - 1 / 2 ^ 53) * ((f64Round n d).2 : ℚ)
      = (n * (f64Round n d).2 * (2 ^ 53 - 1)) / (d * 2 ^ 53) := by
    field_simp
    ring
  rw [e, div_le_iff₀ (by positivity)]
  linarith

theorem f64Val_nonneg (p : Nat × Nat) : 0 ≤ f64Val p := by
  unfold f64Val
  positivity

theorem f64OfNat_Second : f64OfNat Second = (1000000000 * 2 ^ 23, 2 ^ 23) := by decide

theorem f64Div_Second_le (x : Nat × Nat) (hx : 0 < x.2) :
    f64Val (f64Div x (f64OfNat Second)) ≤ f64Val x / 10 ^ 9 * (1 + 1 / 2 ^ 53) := by
  rw [f64OfNat_Second]
  unfold f64Div
  dsimp only
  have h := f64Round_le (x.1 * 2 ^ 23) (x.2 * (1000000000 * 2 ^ 23))
    (Nat.mul_pos hx (by norm_num))
  have hx' : (0 : ℚ) < (x.2 : ℚ) := by exact_mod_cast hx
  have e : ((x.1 * 2 ^ 23 : ℕ) : ℚ) / ((x.2 * (1000000000 * 2 ^ 23) : ℕ) : ℚ)
      = f64Val x / 10 ^ 9 := by
    unfold f64Val
    push_cast
    field_simp
    ring
  rw [e] at h
  exact h

theorem f64Div_Second_ge (x : Nat × Nat) (hx : 0 < x.2) :
    f64Val x / 10 ^ 9 * (1 - 1 / 2 ^ 53) ≤ f64Val (f64Div x (f64OfNat Second)) := by
  rw [f64OfNat_Second]
  unfold f64Div
  dsimp only
  have h := f64Round_ge (x.1 * 2 ^ 23) (x.2 * (1000000000 * 2 ^ 23))
    (Nat.mul_pos hx (by norm_num))
  have hx' : (0 : ℚ) < (x.2 : ℚ) := by exact_mod_cast hx
  have e : ((x.1 * 2 ^ 23 : ℕ) : ℚ) / ((x.2 * (1000000000 * 2 ^ 23) : ℕ) : ℚ)
      = f64Val x / 10 ^ 9 := by
    unfold f64Val
    push_cast
    field_simp
    ring
  rw [e] at h
  exact h

theorem f64Mul_le (x y : Nat × Nat) (hx : 0 < x.2) (hy : 0 < y.2) :
    f64Val (f64Mul x y) ≤ f64Val x * f64Val y * (1 + 1 / 2 ^ 53) := by
  unfold f64Mul
  have h := f64Round_le (x.1 * y.1) (x.2 * y.2) (Nat.mul_pos hx hy)
  have e : ((x.1 * y.1 : ℕ) : ℚ) / ((x.2 * y.2 : ℕ) : ℚ) = f64Val x * f64Val y := by
    unfold f64Val
    push_cast
    rw [mul_div_mul_comm]
  rw [e] at h
  exact h

theorem f64Mul_ge (x y : Nat × Nat) (hx : 0 < x.2) (hy : 0 < y.2) :
    f64Val x * f64Val y * (1 - 1 / 2 ^ 53) ≤ f64Val (f64Mul x y) := by
  unfold f64Mul
  have h := f64Round_ge (x.1 * y.1) (x.2 * y.2) (Nat.mul_pos hx hy)
  have e : ((x.1 * y.1 : ℕ) : ℚ) / ((x.2 * y.2 : ℕ) : ℚ) = f64Val x * f64Val y := by
    unfold f64Val
    push_cast
    rw [mul_div_mul_comm]
  rw [e] at h
  exact h

theorem f64OfNat_le (n : Nat) : f64Val (f64OfNat n) ≤ (n : ℚ) * (1 + 1 / 2 ^ 53) := by
  have h := f64Round_le n 1 Nat.one_pos
  simpa [f64OfNat] using h

theorem f64OfNat_ge (n : Nat) : (n : ℚ) * (1 - 1 / 2 ^ 53) ≤ f64Val (f64OfNat n) := by
  have h := f64Round_ge n 1 Nat.one_pos
  simpa [f64OfNat] using h

theorem refillFloat_den_pos (e r : Nat) : 0 < (refillFloat e r).2 := f64Round_den_pos _ _

theorem refillFloat_le (e r : Nat) :
    f64Val (refillFloat e r) ≤ (e : ℚ) * r / 10 ^ 9 * (1 + 1 / 2 ^ 53) ^ 4 := by
  have hE := f64OfNat_le e
  have hR := f64OfNat_le r
  have hX := f64Div_Second_le (f64OfNat e) (f64Round_den_pos _ _)
  have hY := f64Mul_le (f64Div (f64OfNat e) (f64OfNat Second)) (f64OfNat r)
    (f64Round_den_pos _ _) (f64Round_den_pos _ _)
  have hu : (0 : ℚ) ≤ 1 + 1 / 2 ^ 53 := by norm_num
  have hX' : f64Val (f64Div (f64OfNat e) (f64OfNat Second))
      ≤ (e : ℚ) * (1 + 1 / 2 ^ 53) / 10 ^ 9 * (1 + 1 / 2 ^ 53) := by
    refine hX.trans ?_
    gcongr
  unfold refillFloat
  calc f64Val (f64Mul (f64Div (f64OfNat e) (f64OfNat Second)) (f64OfNat r))
      ≤ f64Val (f64Div (f64OfNat e) (f64OfNat Second)) * f64Val (f64OfNat r)
          * (1 + 1 / 2 ^ 53) := hY
    _ ≤ ((e : ℚ) * (1 + 1 / 2 ^ 53) / 10 ^ 9 * (1 + 1 / 2 ^ 53)) * ((r : ℚ) * (1 + 1 / 2 ^ 53))
          * (1 + 1 / 2 ^ 53) := by
        have := f64Val_nonneg (f64OfNat r)
        gcongr
    _ = (e : ℚ) * r / 10 ^ 9 * (1 + 1 / 2 ^ 53) ^ 4 := by ring

theorem refillFloat_ge (e r : Nat) :
    (e : ℚ) * r / 10 ^ 9 * (1 - 1 / 2 ^ 53) ^ 4 ≤ f64Val (refillFloat e r) := by
  have hE := f64OfNat_ge e
  have hR := f64OfNat_ge r
  have hX := f64Div_Second_ge (f64OfNat e) (f64Round_den_pos _ _)
  have hY := f64Mul_ge (f64Div (f64OfNat e) (f64OfNat Second)) (f64OfNat r)
    (f64Round_den_pos _ _) (f64Round_den_pos _ _)
  have hu : (0 : ℚ) ≤ 1 - 1 / 2 ^ 53 := by norm_num
  have hX' : (e : ℚ) * (1 - 1 / 2 ^ 53) / 10 ^ 9 * (1 - 1 / 2 ^ 53)
      ≤ f64Val (f64Div (f64OfNat e) (f64OfNat Second)) := by
    refine le_trans ?_ hX
    gcongr
  unfold refillFloat
  calc (e : ℚ) * r / 10 ^ 9 * (1 - 1 / 2 ^ 53) ^ 4
      = ((e : ℚ) * (1 - 1 / 2 ^ 53) / 10 ^ 9 * (1 - 1 / 2 ^ 53)) * ((r : ℚ) * (1 - 1 / 2 ^ 53))
          * (1 - 1 / 2 ^ 53) := by ring
    _ ≤ f64Val (f64Div (f64OfNat e) (f64OfNat Second)) * f64Val (f64OfNat r)
          * (1 - 1 / 2 ^ 53) := by
        have h1 : (0 : ℚ) ≤ (e : ℚ) * (1 - 1 / 2 ^ 53) / 10 ^ 9 * (1 - 1 / 2 ^ 53) := by
          positivity
        have h2 : (0 : ℚ) ≤ (r : ℚ) * (1 - 1 / 2 ^ 53) := by positivity
        have h3 := f64Val_nonneg (f64Div (f64OfNat e) (f64OfNat Second))
        gcongr
    _ ≤ f64Val (f64Mul (f64Div (f64OfNat e) (f64OfNat Second)) (f64OfNat r)) := hY

theorem refillFloat_trunc_upper (e r : Nat) :
    (refillFloat e r).1 / (refillFloat e r).2 * (10 ^ 9 * 2 ^ 212) ≤ e * r * (2 ^ 53 + 1) ^ 4 := by
  have h := refillFloat_le e r
  have hc : (((refillFloat e r).1 / (refillFloat e r).2 : ℕ) : ℚ) ≤ f64Val (refillFloat e r) :=
    Nat.cast_div_le
  have h2 : (((refillFloat e r).1 / (refillFloat e r).2 : ℕ) : ℚ) * (10 ^ 9 * 2 ^ 212)
      ≤ (e : ℚ) * r * (2 ^ 53 + 1) ^ 4 := by
    have e0 : ((1 : ℚ) + 1 / 2 ^ 53) ^ 4 = (2 ^ 53 + 1) ^ 4 / 2 ^ 212 := by norm_num
    have e1 : (e : ℚ) * r / 10 ^ 9 * (1 + 1 / 2 ^ 53) ^ 4
        = (e : ℚ) * r * (2 ^ 53 + 1) ^ 4 / (10 ^ 9 * 2 ^ 212) := by
      rw [e0, div_mul_div_comm]
    rw [e1] at h
    rw [← le_div_iff₀ (by positivity)]
    exact hc.trans h
  exact_mod_cast h2

theorem refillFloat_trunc_lower (e r : Nat) :
    e * r * 9007199254740991 ^ 4 <
      ((refillFloat e r).1 / (refillFloat e r).2 + 1) * (10 ^ 9 * 2 ^ 212) := by
  have h := refillFloat_ge e r
  have hpos := refillFloat_den_pos e r
  have hpos' : (0 : ℚ) < ((refillFloat e r).2 : ℚ) := by exact_mod_cast hpos
  have hc : f64Val (refillFloat e r)
      < (((refillFloat e r).1 / (refillFloat e r).2 + 1 : ℕ) : ℚ) := by
    unfold f64Val
    rw [div_lt_iff₀ hpos']
    have := Nat.lt_mul_div_succ (refillFloat e r).1 hpos
    have h' : (((refillFloat e r).1 : ℕ) : ℚ)
        < (((refillFloat e r).2 * ((refillFloat e r).1 / (refillFloat e r).2 + 1) : ℕ) : ℚ) := by
      exact_mod_cast this
    rw [Nat.cast_mul] at h'
    linarith
  have h2 : (e : ℚ) * r * 9007199254740991 ^ 4
      < (((refillFloat e r).1 / (refillFloat e r).2 + 1 : ℕ) : ℚ) * (10 ^ 9 * 2 ^ 212) := by
    have e0 : ((1 : ℚ) - 1 / 2 ^ 53) ^ 4 = 9007199254740991 ^ 4 / 2 ^ 212 := by norm_num
    have e1 : (e : ℚ) * r / 10 ^ 9 * (1 - 1 / 2 ^ 53) ^ 4
        = (e : ℚ) * r * 9007199254740991 ^ 4 / (10 ^ 9 * 2 ^ 212) := by
      rw [e0, div_mul_div_comm]
    rw [e1] at h
    have h3 := lt_of_le_of_lt h hc
    rw [div_lt_iff₀ (by positivity)] at h3
    exact h3
  exact_mod_cast h2

theorem refillFloat_trunc_zero (e r : Nat) (h : e * r < 10 ^ 9) :
    (refillFloat e r).1 / (refillFloat e r).2 = 0 := by
  have hu := refillFloat_trunc_upper e r
  generalize (refillFloat e r).1 / (refillFloat e r).2 = t at hu ⊢
  generalize e * r = p at hu h
  norm_num at hu h
  omega

theorem refillFloat_trunc_le (e r : Nat) (h : e * r < 2251799 * 10 ^ 9) :
    (refillFloat e r).1 / (refillFloat e r).2 ≤ e * r / 10 ^ 9 := by
  have hu := refillFloat_trunc_upper e r
  have hq := Nat.div_add_mod (e * r) (10 ^ 9)
  have hm := Nat.mod_lt (e * r) (show 0 < 10 ^ 9 by norm_num)
  generalize (refillFloat e r).1 / (refillFloat e r).2 = t at hu ⊢
  generalize e * r / 10 ^ 9 = q at hq ⊢
  generalize e * r % 10 ^ 9 = m at hq hm
  generalize e * r = p at hu h hq
  norm_num at hu h hq hm
  omega

theorem refillFloat_trunc_range (e r : Nat) (h : e * r ≤ 18446744073 * 10 ^ 18) :
    (refillFloat e r).1 / (refillFloat e r).2 < 2 ^ 64 := by
  have hu := refillFloat_trunc_upper e r
  generalize (refillFloat e r).1 / (refillFloat e r).2 = t at hu ⊢
  generalize e * r = p at hu h
  norm_num at hu h ⊢
  omega

theorem refillFloat_trunc_pos (e r : Nat) (h : 10 ^ 9 < e * r) :
    1 ≤ (refillFloat e r).1 / (refillFloat e r).2 := by
  have hl := refillFloat_trunc_lower e r
  generalize (refillFloat e r).1 / (refillFloat e r).2 = t at hl ⊢
  generalize e * r = p at hl h
  norm_num at hl h
  omega

/-! ## the refill amount -/

theorem refillAmount_eq_zero (oor : Int → Nat → Nat) (elapsed : Int) (rate : Nat)
    (h : elapsed.natAbs * rate < 10 ^ 9) : refillAmount oor elapsed rate = 0 := by
  have h0 := refillFloat_trunc_zero elapsed.natAbs rate h
  unfold refillAmount
  simp only [h0]
  split <;> simp

theorem refillAmount_le (oor : Int → Nat → Nat) (elapsed : Int) (rate : Nat)
    (h0 : 0 ≤ elapsed) (h : elapsed.natAbs * rate < 2251799 * 10 ^ 9) :
    refillAmount oor elapsed rate ≤ elapsed.natAbs * rate / 10 ^ 9 := by
  have h1 := refillFloat_trunc_le elapsed.natAbs rate h
  have h2 := refillFloat_trunc_range elapsed.natAbs rate (by omega)
  unfold refillAmount
  simp only [h0, h2, if_true]
  exact h1

theorem refillAmount_pos (oor : Int → Nat → Nat) (elapsed : Int) (rate : Nat)
    (h0 : 0 ≤ elapsed) (h1 : 10 ^ 9 < elapsed.natAbs * rate)
    (h2 : elapsed.natAbs * rate ≤ 18446744073 * 10 ^ 18) :
    1 ≤ refillAmount oor elapsed rate := by
  have h3 := refillFloat_trunc_pos elapsed.natAbs rate h1
  have h4 := refillFloat_trunc_range elapsed.natAbs rate h2
  unfold refillAmount
  simp only [h0, h4, if_true]
  exact h3

/-! ## `Time` order and `Sub` -/

theorem Time.le_refl' (t : Time) : t ≤ t := by
  cases t with
  | zero => exact trivial
  | clock t => exact Int.le_refl t

theorem Time.le_trans' {a b c : Time} (h1 : a ≤ b) (h2 : b ≤ c) : a ≤ c := by
  cases a with
  | zero => exact trivial
  | clock a =>
    cases b with
    | zero => exact absurd h1 (fun h => h)
    | clock b =>
      cases c with
      | zero => exact absurd h2 (fun h => h)
      | clock c => exact Int.le_trans h1 h2

theorem Time.clock_le_clock (a b : Int) : Time.clock a ≤ Time.clock b ↔ a ≤ b := Iff.rfl

theorem Time.Sub_clock_bounds (t u : Int) (h : u ≤ t) :
    0 ≤ (Time.clock t).Sub (Time.clock u) ∧ (Time.clock t).Sub (Time.clock u) ≤ t - u := by
  have e : (Time.clock t).Sub (Time.clock u) = max minDuration (min maxDuration (t - u)) := rfl
  rw [e]
  unfold minDuration maxDuration
  constructor <;> omega

/-! ## token bucket: admission and refill -/

theorem refill_of_amount_zero (oor : Int → Nat → Nat) (now : Int) (b : TokenBucket)
    (h : refillAmount oor ((Time.clock now).Sub b.lastRefill) b.rate = 0) :
    b.refill oor now = b := by
  unfold TokenBucket.refill
  simp only [h, Nat.lt_irrefl, if_false]

theorem refillAmount_window_zero (oor : Int → Nat → Nat) (t u bound : Int) (rate : Nat)
    (h1 : u ≤ t) (h2 : t - u ≤ bound) (h3 : bound * rate < 10 ^ 9) :
    refillAmount oor ((Time.clock t).Sub (Time.clock u)) rate = 0 := by
  obtain ⟨hb1, hb2⟩ := Time.Sub_clock_bounds t u h1
  apply refillAmount_eq_zero
  have e1 : (((Time.clock t).Sub (Time.clock u)).natAbs : Int) = (Time.clock t).Sub (Time.clock u) :=
    Int.natAbs_of_nonneg hb1
  have h4 : (Time.clock t).Sub (Time.clock u) * (rate : Int) ≤ bound * rate :=
    mul_le_mul_of_nonneg_right (hb2.trans h2) (Int.ofNat_nonneg rate)
  have h5 : ((((Time.clock t).Sub (Time.clock u)).natAbs * rate : ℕ) : Int) < 10 ^ 9 := by
    rw [Nat.cast_mul, e1]
    exact lt_of_le_of_lt h4 h3
  exact_mod_cast h5

/-- C2. `TokenBucket.Available` refills first; then, if a token is left, it takes
exactly one and returns true, and otherwise it returns false and leaves the
tokens at 0.  In particular, from `tokens = 1` with less than one token of
refill accrued up to the second call (`(next - last_refill) * rate < 1s`), the
first call returns true and the following one returns false. -/
theorem C2_Available_takes_one_token (oor : Int → Nat → Nat) (b : TokenBucket) (now : Int) :
    ((b.refill oor now).tokens ≠ 0 →
      b.Available oor now
        = (true, { b.refill oor now with tokens := (b.refill oor now).tokens - 1 }) ∧
      (b.Available oor now).2.tokens + 1 = (b.refill oor now).tokens) ∧
    ((b.refill oor now).tokens = 0 →
      b.Available oor now = (false, b.refill oor now) ∧ (b.Available oor now).2.tokens = 0) ∧
    (∀ last next : Int, b.tokens = 1 → b.lastRefill = Time.clock last → last ≤ now →
      now ≤ next → (next - last) * b.rate < 10 ^ 9 →
      (b.Available oor now).1 = true ∧
      ((b.Available oor now).2.Available oor next).1 = false ∧
      ((b.Available oor now).2.Available oor next).2.tokens = 0) := by
  refine ⟨?_, ?_, ?_⟩
  · intro h
    have e : b.Available oor now
        = (true, { b.refill oor now with tokens := (b.refill oor now).tokens - 1 }) := by
      unfold TokenBucket.Available
      simp only [h, ne_eq, not_false_eq_true, if_true]
    rw [e]
    exact ⟨rfl, by simp only; omega⟩
  · intro h
    have e : b.Available oor now = (false, b.refill oor now) := by
      unfold TokenBucket.Available
      simp only [h, ne_eq, not_true_eq_false, if_false]
    rw [e]
    exact ⟨rfl, h⟩
  · intro last next htok hlast h1 h2 h3
    have hr1 : b.refill oor now = b := by
      apply refill_of_amount_zero
      rw [hlast]
      exact refillAmount_window_zero oor now last (next - last) b.rate h1 (by omega) h3
    have ha : b.Available oor now = (true, { b with tokens := 0 }) := by
      unfold TokenBucket.Available
      simp only [hr1, htok]
      simp
    have hr2 : ({ b with tokens := 0 } : TokenBucket).refill oor next = { b with tokens := 0 } := by
      apply refill_of_amount_zero
      simp only [hlast]
      exact refillAmount_window_zero oor next last (next - last) b.rate (by omega) (by omega) h3
    rw [ha]
    refine ⟨rfl, ?_⟩
    simp only
    unfold TokenBucket.Available
    simp only [hr2]
    simp

set_option maxRecDepth 8000 in
theorem C2_Available_takes_one_token_witness :
    (((⟨5, 1, 2, Time.clock 0⟩ : TokenBucket).refill (fun _ _ => 0) 100).tokens ≠ 0 ∧
      (⟨5, 1, 2, Time.clock 0⟩ : TokenBucket).Available (fun _ _ => 0) 100
        = (true, ⟨5, 0, 2, Time.clock 0⟩)) ∧
    (((⟨5, 0, 2, Time.clock 0⟩ : TokenBucket).refill (fun _ _ => 0) 100).tokens = 0 ∧
      (⟨5, 0, 2, Time.clock 0⟩ : TokenBucket).Available (fun _ _ => 0) 100
        = (false, ⟨5, 0, 2, Time.clock 0⟩)) ∧
    (⟨5, 1, 2, Time.clock 0⟩ : TokenBucket).tokens = 1 ∧ (0 : Int) ≤ 100 ∧
    (100 : Int) ≤ 400000000 ∧ ((400000000 : Int) - 0) * (2 : Nat) < 10 ^ 9 ∧
    ((⟨5, 1, 2, Time.clock 0⟩ : TokenBucket).Available (fun _ _ => 0) 100).1 = true ∧
    (((⟨5, 1, 2, Time.clock 0⟩ : TokenBucket).Available (fun _ _ => 0) 100).2.Available
      (fun _ _ => 0) 400000000).1 = false ∧
    (((⟨5, 1, 2, Time.clock 0⟩ : TokenBucket).Available (fun _ _ => 0) 100).2.Available
      (fun _ _ => 0) 400000000).2.tokens = 0 :=
  ⟨⟨by decide,
    ((C2_Available_takes_one_token (fun _ _ => 0) ⟨5, 1, 2, Time.clock 0⟩ 100).1
      (by decide)).1⟩,
   ⟨by decide,
    ((C2_Available_takes_one_token (fun _ _ => 0) ⟨5, 0, 2, Time.clock 0⟩ 100).2.1
      (by decide)).1⟩,
   rfl, by decide, by decide, by decide,
    (C2_Available_takes_one_token (fun _ _ => 0) ⟨5, 1, 2, Time.clock 0⟩ 100).2.2 0 400000000
      rfl rfl (by decide) (by decide) (by decide)⟩

set_option maxRecDepth 8000 in
/-- The first refill of the bucket `NewBucket (2^64 - 1) 1`: the elapsed time
is `maxDuration`, 9223372036 tokens are added and the sum wraps. -/
theorem NewBucket_max_refill (oor : Int → Nat → Nat) (now : Int) :
    (NewBucket (2 ^ 64 - 1) 1).refill oor now = ⟨2 ^ 64 - 1, 9223372035, 1, Time.clock now⟩ := by
  have h1 : (Time.clock now).Sub (NewBucket (2 ^ 64 - 1) 1).lastRefill = maxDuration := rfl
  have h2 : refillAmount oor maxDuration 1 = 9223372036 := by rfl
  have h3 : (NewBucket (2 ^ 64 - 1) 1).rate = 1 := rfl
  simp only [TokenBucket.refill, h1, h3, h2]
  simp only [NewBucket]
  have h4 : min (2 ^ 64 - 1) ((2 ^ 64 - 1 + 9223372036) % 2 ^ 64) = 9223372035 := by decide
  simp [h4]

set_option maxRecDepth 8000 in
/-- C3 at the failing inputs.  A bucket holding `2^64 - 1` tokens of capacity
`2^64 - 1` with rate 1 is refilled one second after its last refill: the sum
`tokens + amount` wraps to 0 and the bucket is left empty, where
`min(capacity, tokens + added)` is `2^64 - 1`.  And 0.57 s at rate 100 add 56
tokens, where `⌊0.57 · 100⌋ = 57`.  The first refill of the bucket
`NewBucket (2^64 - 1) 1` wraps in the same way and leaves 9223372035 tokens. -/
theorem C3_refill_sum_wraps (oor : Int → Nat → Nat) (now : Int) :
    (⟨2 ^ 64 - 1, 2 ^ 64 - 1, 1, Time.clock 0⟩ : TokenBucket).refill oor 1000000000
      = ⟨2 ^ 64 - 1, 0, 1, Time.clock 1000000000⟩ ∧
    min (2 ^ 64 - 1) ((2 ^ 64 - 1) + 1000000000 * 1 / 10 ^ 9) = 2 ^ 64 - 1 ∧
    (NewBucket (2 ^ 64 - 1) 1).refill oor now = ⟨2 ^ 64 - 1, 9223372035, 1, Time.clock now⟩ ∧
    refillAmount oor 570000000 100 = 56 ∧
    570000000 * 100 / 10 ^ 9 = 57 := by
  refine ⟨?_, by decide, ?_, ?_, by decide⟩
  · have h1 : (Time.clock 1000000000).Sub (Time.clock 0) = 1000000000 := by decide
    have h2 : refillAmount oor 1000000000 1 = 1 := by rfl
    simp only [TokenBucket.refill, h1, h2]
    decide
  · exact NewBucket_max_refill oor now
  · rfl

/-- A call leaves `lastRefill` where it was or moves it to the time of the call. -/
theorem step_lastRefill (oor : Int → Nat → Nat) (b : TokenBucket) (c : Call) :
    (b.step oor c).lastRefill = b.lastRefill ∨
    (b.step oor c).lastRefill = Time.clock c.time := by
  have hr : ∀ now, (b.refill oor now).lastRefill = b.lastRefill ∨
      (b.refill oor now).lastRefill = Time.clock now := by
    intro now
    unfold TokenBucket.refill
    dsimp only
    split
    · right; rfl
    · left; rfl
  cases c with
  | refill now => exact hr now
  | available now =>
    have e : (b.Available oor now).2.lastRefill = (b.refill oor now).lastRefill := by
      unfold TokenBucket.Available
      dsimp only
      split <;> rfl
    simp only [TokenBucket.step, Call.time, e]
    exact hr now

theorem scanl_lastRefill_chain (oor : Int → Nat → Nat) (calls : List Call) :
    ∀ b : TokenBucket,
      List.Chain (fun s t => s ≤ t) b.lastRefill (calls.map (fun c => Time.clock c.time)) →
      List.Chain' (fun s t => s ≤ t)
        ((List.scanl (TokenBucket.step oor) b calls).map (fun x => x.lastRefill)) := by
  induction calls with
  | nil => intro b _; simp
  | cons c cs ih =>
    intro b h
    simp only [List.map_cons, List.chain_cons] at h
    obtain ⟨h1, h2⟩ := h
    have hstep := step_lastRefill oor b c
    have hle : b.lastRefill ≤ (b.step oor c).lastRefill := by
      rcases hstep with e | e
      · rw [e]; exact Time.le_refl' _
      · rw [e]; exact h1
    have hle2 : (b.step oor c).lastRefill ≤ Time.clock c.time := by
      rcases hstep with e | e
      · rw [e]; exact h1
      · rw [e]; exact Time.le_refl' _
    have hch : List.Chain (fun s t => s ≤ t) (b.step oor c).lastRefill
        (cs.map (fun c => Time.clock c.time)) := by
      cases cs with
      | nil => exact List.Chain.nil
      | cons c' cs' =>
        simp only [List.map_cons, List.chain_cons] at h2 ⊢
        exact ⟨Time.le_trans' hle2 h2.1, h2.2⟩
    have := ih (b.step oor c) hch
    rw [show List.scanl (TokenBucket.step oor) b (c :: cs)
        = b :: List.scanl (TokenBucket.step oor) (b.step oor c) cs from rfl,
      List.map_cons, List.chain'_cons']
    refine ⟨?_, this⟩
    intro y hy
    have hhead : ((List.scanl (TokenBucket.step oor) (b.step oor c) cs).map
        (fun x => x.lastRefill)).head? = some (b.step oor c).lastRefill := by
      cases cs <;> rfl
    rw [hhead] at hy
    cases hy
    exact hle

/-- C4. A zero-addition refill changes nothing: when the amount `refill`
computes is 0, and in particular whenever `⌊elapsed_seconds · rate⌋ = 0`,
`refill now` returns the bucket as it was, `tokens` and `lastRefill` included.
Consequently, over every sequence of `Available` and `refill` calls at
non-decreasing times (none before the bucket's `lastRefill`), `lastRefill` is
non-decreasing from each state to the next; for a bucket made by `NewBucket`
this is every sequence of calls at non-decreasing times. -/
theorem C4_zero_refill_changes_nothing (oor : Int → Nat → Nat) (b : TokenBucket) :
    (∀ now, refillAmount oor ((Time.clock now).Sub b.lastRefill) b.rate = 0 →
      b.refill oor now = b) ∧
    (∀ now, ⌊(((Time.clock now).Sub b.lastRefill : Int) : ℚ) / 10 ^ 9 * (b.rate : ℚ)⌋ = 0 →
      b.refill oor now = b) ∧
    (∀ calls : List Call,
      List.Chain (fun s t => s ≤ t) b.lastRefill (calls.map (fun c => Time.clock c.time)) →
      List.Chain' (fun s t => s ≤ t)
        ((List.scanl (TokenBucket.step oor) b calls).map (fun x => x.lastRefill))) ∧
    (∀ (capacity rate : Nat) (calls : List Call),
      List.Chain' (fun s t => s ≤ t) (calls.map (fun c => Time.clock c.time)) →
      List.Chain' (fun s t => s ≤ t)
        ((List.scanl (TokenBucket.step oor) (NewBucket capacity rate) calls).map
          (fun x => x.lastRefill))) := by
  refine ⟨fun now h => refill_of_amount_zero oor now b h, ?_, fun calls h =>
    scanl_lastRefill_chain oor calls b h, fun capacity rate calls h =>
    scanl_lastRefill_chain oor calls (NewBucket capacity rate)
      (List.chain'_cons'.mpr ⟨fun _ _ => trivial, h⟩)⟩
  intro now h
  apply refill_of_amount_zero
  apply refillAmount_eq_zero
  generalize (Time.clock now).Sub b.lastRefill = e at h ⊢
  rw [Int.floor_eq_zero_iff] at h
  obtain ⟨h1, h2⟩ := h
  have h3 : (0 : ℚ) ≤ (e : ℚ) * (b.rate : ℚ) := by
    have : (e : ℚ) / 10 ^ 9 * (b.rate : ℚ) = (e : ℚ) * (b.rate : ℚ) / 10 ^ 9 := by ring
    rw [this] at h1
    exact (div_nonneg_iff.mp h1).elim (fun h => h.1) (fun h => by
      have : (0 : ℚ) < 10 ^ 9 := by positivity
      linarith [h.2])
  have h4 : (e : ℚ) * (b.rate : ℚ) < 10 ^ 9 := by
    have : (e : ℚ) / 10 ^ 9 * (b.rate : ℚ) = (e : ℚ) * (b.rate : ℚ) / 10 ^ 9 := by ring
    rw [this, div_lt_one (by positivity)] at h2
    exact h2
  have h3' : (0 : Int) ≤ e * (b.rate : Int) := by exact_mod_cast h3
  have h4' : e * (b.rate : Int) < 10 ^ 9 := by exact_mod_cast h4
  by_cases hr : b.rate = 0
  · rw [hr]; norm_num
  · have hrpos : (0 : Int) < (b.rate : Int) := by
      exact_mod_cast Nat.pos_of_ne_zero hr
    have he : 0 ≤ e := by
      by_contra hneg
      have : e * (b.rate : Int) < 0 := mul_neg_of_neg_of_pos (by omega) hrpos
      omega
    have e1 : ((e.natAbs : ℕ) : Int) = e := Int.natAbs_of_nonneg he
    have h5 : ((e.natAbs * b.rate : ℕ) : Int) < 10 ^ 9 := by
      rw [Nat.cast_mul, e1]
      exact h4'
    exact_mod_cast h5

set_option maxRecDepth 8000 in
theorem C4_zero_refill_changes_nothing_witness :
    refillAmount (fun _ _ => 0)
      ((Time.clock 400000000).Sub (⟨5, 1, 2, Time.clock 0⟩ : TokenBucket).lastRefill) 2 = 0 ∧
    (⟨5, 1, 2, Time.clock 0⟩ : TokenBucket).refill (fun _ _ => 0) 400000000
      = ⟨5, 1, 2, Time.clock 0⟩ ∧
    (⟨5, 1, 2, Time.clock 0⟩ : TokenBucket).refill (fun _ _ => 0) 499999999
      = ⟨5, 1, 2, Time.clock 0⟩ ∧
    List.Chain' (fun s t => s ≤ t)
      ((List.scanl (TokenBucket.step (fun _ _ => 0)) (⟨5, 1, 2, Time.clock 0⟩ : TokenBucket)
        [Call.available 100, Call.refill 1000000000, Call.available 1000000000]).map
          (fun x => x.lastRefill)) ∧
    List.Chain' (fun s t => s ≤ t)
      ((List.scanl (TokenBucket.step (fun _ _ => 0)) (NewBucket 3 1)
        [Call.available 100, Call.refill 1000000000]).map (fun x => x.lastRefill)) :=
  ⟨by decide,
   (C4_zero_refill_changes_nothing (fun _ _ => 0) ⟨5, 1, 2, Time.clock 0⟩).1 400000000
     (by decide),
   (C4_zero_refill_changes_nothing (fun _ _ => 0) ⟨5, 1, 2, Time.clock 0⟩).2.1 499999999 (by
     have e : (Time.clock 499999999).Sub (⟨5, 1, 2, Time.clock 0⟩ : TokenBucket).lastRefill
         = 499999999 := by decide
     rw [e, Int.floor_eq_zero_iff]
     constructor <;> norm_num),
   (C4_zero_refill_changes_nothing (fun _ _ => 0) ⟨5, 1, 2, Time.clock 0⟩).2.2.1
     [Call.available 100, Call.refill 1000000000, Call.available 1000000000]
     (List.Chain.cons (by decide) (List.Chain.cons (by decide) (List.Chain.cons (by decide)
       List.Chain.nil))),
   (C4_zero_refill_changes_nothing (fun _ _ => 0) ⟨5, 1, 2, Time.clock 0⟩).2.2.2 3 1
     [Call.available 100, Call.refill 1000000000]
     (List.Chain.cons (by decide) List.Chain.nil)⟩

/-! ## sequences of admissions -/

theorem Available_spec (oor : Int → Nat → Nat) (now : Int) (b : TokenBucket) :
    (b.Available oor now).2.rate = b.rate ∧
    (b.Available oor now).2.lastRefill = (b.refill oor now).lastRefill ∧
    (b.Available oor now).2.tokens + (if (b.Available oor now).1 then 1 else 0)
      = (b.refill oor now).tokens := by
  unfold TokenBucket.Available
  dsimp only
  split
  · rename_i h
    simp only [refill_rate, if_true, true_and]
    omega
  · rename_i h
    simp only [refill_rate, true_and]
    simp

theorem refill_cases (oor : Int → Nat → Nat) (now : Int) (b : TokenBucket) :
    (refillAmount oor ((Time.clock now).Sub b.lastRefill) b.rate = 0 ∧ b.refill oor now = b) ∨
    (0 < refillAmount oor ((Time.clock now).Sub b.lastRefill) b.rate ∧
      (b.refill oor now).tokens ≤ b.tokens + refillAmount oor ((Time.clock now).Sub b.lastRefill) b.rate ∧
      (b.refill oor now).tokens ≤ b.capacity ∧
      (b.refill oor now).lastRefill = Time.clock now) := by
  by_cases h : refillAmount oor ((Time.clock now).Sub b.lastRefill) b.rate = 0
  · left
    exact ⟨h, refill_of_amount_zero oor now b h⟩
  · right
    have hpos : 0 < refillAmount oor ((Time.clock now).Sub b.lastRefill) b.rate :=
      Nat.pos_of_ne_zero h
    refine ⟨hpos, ?_, ?_, ?_⟩
    · unfold TokenBucket.refill
      simp only [hpos, if_true]
      exact le_trans (Nat.min_le_right _ _) (Nat.mod_le _ _)
    · unfold TokenBucket.refill
      simp only [hpos, if_true]
      exact Nat.min_le_left _ _
    · unfold TokenBucket.refill
      simp only [hpos, if_true]

theorem Available_of_amount_zero (oor : Int → Nat → Nat) (now : Int) (b : TokenBucket)
    (h : refillAmount oor ((Time.clock now).Sub b.lastRefill) b.rate = 0) :
    b.Available oor now =
      if b.tokens ≠ 0 then (true, { b with tokens := b.tokens - 1 }) else (false, b) := by
  unfold TokenBucket.Available
  rw [refill_of_amount_zero oor now b h]

theorem admissions_no_refill (oor : Int → Nat → Nat) (ts : List Int) :
    ∀ b : TokenBucket,
      (∀ t ∈ ts, refillAmount oor ((Time.clock t).Sub b.lastRefill) b.rate = 0) →
      (b.admissions oor ts).1 =
        List.replicate (min ts.length b.tokens) true ++
          List.replicate (ts.length - b.tokens) false := by
  induction ts with
  | nil => intro b _; simp [TokenBucket.admissions]
  | cons t ts ih =>
    intro b h
    have ht := h t (List.mem_cons_self _ _)
    have hrest : ∀ t' ∈ ts, refillAmount oor ((Time.clock t').Sub b.lastRefill) b.rate = 0 :=
      fun t' ht' => h t' (List.mem_cons_of_mem _ ht')
    unfold TokenBucket.admissions
    simp only [Available_of_amount_zero oor t b ht]
    by_cases h0 : b.tokens = 0
    · simp only [h0, ne_eq, not_true_eq_false, if_false]
      rw [ih b hrest, h0]
      simp [List.replicate_succ]
    · simp only [h0, ne_eq, not_false_eq_true, if_true]
      rw [ih { b with tokens := b.tokens - 1 } hrest]
      simp only [List.length_cons]
      have e1 : min (ts.length + 1) b.tokens = min ts.length (b.tokens - 1) + 1 := by omega
      have e2 : ts.length + 1 - b.tokens = ts.length - (b.tokens - 1) := by omega
      rw [e1, e2, List.replicate_succ, List.cons_append]

theorem Limiter_admissions_hit (oor : Int → Nat → Nat) (Has : String → Except String Client)
    (key : String) (ts : List Int) :
    ∀ (l : Limiter) (b : TokenBucket), l.buckets key = some b →
      (Limiter.admissions oor Has key l ts).1 = (b.admissions oor ts).1 := by
  induction ts with
  | nil => intro l b _; rfl
  | cons t ts ih =>
    intro l b h
    have ha : l.Available oor Has t key
        = ((b.Available oor t).1, ⟨Function.update l.buckets key (some (b.Available oor t).2)⟩) := by
      unfold Limiter.Available
      simp only [h]
    unfold Limiter.admissions TokenBucket.admissions
    simp only [ha]
    rw [ih _ (b.Available oor t).2 (by simp)]

theorem Limiter_Available_miss (oor : Int → Nat → Nat) (Has : String → Except String Client)
    (now : Int) (key : String) (l : Limiter) (client : Client)
    (h : l.buckets key = none) (hc : Has key = .ok client) :
    l.Available oor Has now key
      = (((NewBucket client.Capacity client.Rate).Available oor now).1,
          ⟨Function.update l.buckets key
            (some ((NewBucket client.Capacity client.Rate).Available oor now).2)⟩) := by
  unfold Limiter.Available
  simp only [h, hc]

theorem Limiter_admissions_miss_cons (oor : Int → Nat → Nat)
    (Has : String → Except String Client) (key : String) (t : Int) (ts : List Int)
    (l : Limiter) (client : Client) (h : l.buckets key = none) (hc : Has key = .ok client) :
    (Limiter.admissions oor Has key l (t :: ts)).1 =
      ((NewBucket client.Capacity client.Rate).Available oor t).1 ::
        (((NewBucket client.Capacity client.Rate).Available oor t).2.admissions oor ts).1 := by
  have hmiss := Limiter_Available_miss oor Has t key l client h hc
  unfold Limiter.admissions
  simp only [hmiss]
  rw [Limiter_admissions_hit oor Has key ts _
    ((NewBucket client.Capacity client.Rate).Available oor t).2 (by simp)]

/-- The calls that follow the first one at the same instant add no token: the
bucket was either refilled at that instant or, when the first refill added
nothing, still has its zero `lastRefill` and computes the same amount. -/
theorem Limiter_admissions_same_instant (oor : Int → Nat → Nat)
    (Has : String → Except String Client) (key : String) (now : Int) (k : Nat)
    (l : Limiter) (client : Client) (h : l.buckets key = none) (hc : Has key = .ok client) :
    (Limiter.admissions oor Has key l (List.replicate (k + 1) now)).1 =
      ((NewBucket client.Capacity client.Rate).Available oor now).1 ::
        (List.replicate
            (min k ((NewBucket client.Capacity client.Rate).Available oor now).2.tokens) true ++
          List.replicate
            (k - ((NewBucket client.Capacity client.Rate).Available oor now).2.tokens) false) := by
  rw [List.replicate_succ, Limiter_admissions_miss_cons oor Has key now _ l client h hc]
  rw [admissions_no_refill]
  · simp only [List.length_replicate]
  · intro t ht
    rw [List.eq_of_mem_replicate ht]
    obtain ⟨hrate, hlr, _⟩ := Available_spec oor now (NewBucket client.Capacity client.Rate)
    rw [hrate, hlr]
    rcases refill_cases oor now (NewBucket client.Capacity client.Rate) with ⟨h0, hb⟩ | ⟨_, _, _, hl⟩
    · rw [hb]
      exact h0
    · rw [hl]
      apply refillAmount_eq_zero
      have : (Time.clock now).Sub (Time.clock now) = 0 := by
        show max minDuration (min maxDuration (now - now)) = 0
        unfold minDuration maxDuration
        omega
      rw [this]
      simp

set_option maxRecDepth 8000 in
/-- The first refill of the bucket `NewBucket (2^63 - 1) 1500000000`: the
13835058055282163712 tokens added to the `2^63 - 1` it holds wrap the sum. -/
theorem NewBucket_int64_refill (oor : Int → Nat → Nat) (now : Int) :
    (NewBucket (2 ^ 63 - 1) 1500000000).refill oor now
      = ⟨2 ^ 63 - 1, 4611686018427387903, 1500000000, Time.clock now⟩ := by
  have h1 : (Time.clock now).Sub (NewBucket (2 ^ 63 - 1) 1500000000).lastRefill = maxDuration :=
    rfl
  have h2 : refillAmount oor maxDuration 1500000000 = 13835058055282163712 := by rfl
  have h3 : (NewBucket (2 ^ 63 - 1) 1500000000).rate = 1500000000 := rfl
  simp only [TokenBucket.refill, h1, h3, h2]
  simp only [NewBucket]
  have h4 : min (2 ^ 63 - 1) ((2 ^ 63 - 1 + 13835058055282163712) % 2 ^ 64)
      = 4611686018427387903 := by decide
  simp [h4]

set_option maxRecDepth 8000 in
/-- C7 at the failing inputs.  The registry holds capacity `c = 2^64 - 1` and
rate 1 for a key unknown to the limiter, and `c + 1 = 2^64` calls of
`Limiter.Available` are made at one instant.  The first refill of the new
bucket adds 9223372036 tokens to the `2^64 - 1` it holds, the sum wraps, and
only the first 9223372035 calls return true: all the later ones, among the
first `c`, return false.  In the same way, with `c = 2^63 - 1` and rate
1500000000 only the first `2^62 - 1 = 4611686018427387903` of the `c + 1 = 2^63`
calls return true. -/
theorem C7_lazy_bucket_capacity_wraps (oor : Int → Nat → Nat) (now : Int) (key : String) :
    (Limiter.admissions oor (fun _ => .ok ⟨"client", key, 2 ^ 64 - 1, 1⟩) key Limiter.New
        (List.replicate (2 ^ 64) now)).1 =
      List.replicate 9223372035 true ++ List.replicate (2 ^ 64 - 9223372035) false ∧
    (Limiter.admissions oor (fun _ => .ok ⟨"client", key, 2 ^ 63 - 1, 1500000000⟩) key
        Limiter.New (List.replicate (2 ^ 63) now)).1 =
      List.replicate 4611686018427387903 true ++
        List.replicate (2 ^ 63 - 4611686018427387903) false := by
  constructor
  · have ha : (NewBucket (2 ^ 64 - 1) 1).Available oor now
        = (true, ⟨2 ^ 64 - 1, 9223372034, 1, Time.clock now⟩) := by
      unfold TokenBucket.Available
      rw [NewBucket_max_refill oor now]
      rfl
    have hk : (2 : Nat) ^ 64 = 18446744073709551615 + 1 := by norm_num
    rw [hk, Limiter_admissions_same_instant oor _ key now _ Limiter.New
      ⟨"client", key, 2 ^ 64 - 1, 1⟩ rfl rfl]
    simp only [ha]
    have e1 : min 18446744073709551615 9223372034 = 9223372034 := by decide
    have e2 : 18446744073709551615 - 9223372034 = 18446744073709551615 + 1 - 9223372035 := by
      decide
    have e3 : 9223372035 = 9223372034 + 1 := by decide
    rw [e1, e2]
    conv_rhs => rw [e3, List.replicate_succ, List.cons_append]
  · have ha : (NewBucket (2 ^ 63 - 1) 1500000000).Available oor now
        = (true, ⟨2 ^ 63 - 1, 4611686018427387902, 1500000000, Time.clock now⟩) := by
      unfold TokenBucket.Available
      rw [NewBucket_int64_refill oor now]
      rfl
    have hk : (2 : Nat) ^ 63 = 9223372036854775807 + 1 := by norm_num
    rw [hk, Limiter_admissions_same_instant oor _ key now _ Limiter.New
      ⟨"client", key, 2 ^ 63 - 1, 1500000000⟩ rfl rfl]
    simp only [ha]
    have e1 : min 9223372036854775807 4611686018427387902 = 4611686018427387902 := by decide
    have e2 : 9223372036854775807 - 4611686018427387902
        = 9223372036854775807 + 1 - 4611686018427387903 := by decide
    have e3 : 4611686018427387903 = 4611686018427387902 + 1 := by decide
    rw [e1, e2]
    conv_rhs => rw [e3, List.replicate_succ, List.cons_append]

/-! ## rate bound -/

/-- The number of admissions in a list of results. -/
theorem admissions_count_cons (oor : Int → Nat → Nat) (b : TokenBucket) (t : Int)
    (ts : List Int) :
    (b.admissions oor (t :: ts)).1.count true =
      (if (b.Available oor t).1 then 1 else 0) +
        ((b.Available oor t).2.admissions oor ts).1.count true := by
  show ((b.Available oor t).1 :: ((b.Available oor t).2.admissions oor ts).1).count true = _
  cases (b.Available oor t).1
  · simp [List.count_cons]
  · simp [List.count_cons]; omega

theorem refillAmount_le_window (oor : Int → Nat → Nat) (t u : Int) (rate : Nat)
    (h1 : u ≤ t) (h2 : (t - u) * rate < 2251799 * 10 ^ 9) :
    (refillAmount oor ((Time.clock t).Sub (Time.clock u)) rate : Int)
      ≤ (t - u) * rate / 10 ^ 9 := by
  obtain ⟨hb1, hb2⟩ := Time.Sub_clock_bounds t u h1
  generalize (Time.clock t).Sub (Time.clock u) = e at hb1 hb2 ⊢
  have e1 : ((e.natAbs : ℕ) : Int) = e := Int.natAbs_of_nonneg hb1
  have h4 : e * (rate : Int) ≤ (t - u) * rate :=
    mul_le_mul_of_nonneg_right hb2 (Int.ofNat_nonneg rate)
  have h5 : ((e.natAbs * rate : ℕ) : Int) < 2251799 * 10 ^ 9 := by
    rw [Nat.cast_mul, e1]
    exact lt_of_le_of_lt h4 h2
  have h6 : e.natAbs * rate < 2251799 * 10 ^ 9 := by exact_mod_cast h5
  have h7 := refillAmount_le oor e rate hb1 h6
  have h8 : ((refillAmount oor e rate : ℕ) : Int) ≤ ((e.natAbs * rate / 10 ^ 9 : ℕ) : Int) := by
    exact_mod_cast h7
  have h9 : ((e.natAbs * rate / 10 ^ 9 : ℕ) : Int) = e * rate / 10 ^ 9 := by
    rw [Int.natCast_div, Nat.cast_mul, e1]
    norm_num
  rw [h9] at h8
  exact h8.trans (Int.ediv_le_ediv (by norm_num) h4)

theorem admissions_potential (oor : Int → Nat → Nat) (Tend : Int) (ts : List Int) :
    ∀ (b : TokenBucket) (L : Int), b.lastRefill = Time.clock L →
      List.Chain (fun s t => s ≤ t) L ts → (∀ t ∈ ts, t ≤ Tend) → L ≤ Tend →
      (Tend - L) * b.rate < 2251799 * 10 ^ 9 →
      (((b.admissions oor ts).1.count true : ℕ) : Int)
        ≤ b.tokens + (Tend - L) * b.rate / 10 ^ 9 := by
  induction ts with
  | nil =>
    intro b L _ _ _ hL hreg
    have : 0 ≤ (Tend - L) * (b.rate : Int) / 10 ^ 9 :=
      Int.ediv_nonneg (mul_nonneg (by omega) (Int.ofNat_nonneg _)) (by norm_num)
    simp only [TokenBucket.admissions, List.count_nil, Nat.cast_zero]
    omega
  | cons t ts ih =>
    intro b L hlast hchain hend hL hreg
    simp only [List.chain_cons] at hchain
    obtain ⟨hLt, hchain'⟩ := hchain
    have htend : t ≤ Tend := hend t (List.mem_cons_self _ _)
    have hend' : ∀ t' ∈ ts, t' ≤ Tend := fun t' h => hend t' (List.mem_cons_of_mem _ h)
    obtain ⟨hrate, hlr, htok⟩ := Available_spec oor t b
    have hr0 : (0 : Int) ≤ (b.rate : Int) := Int.ofNat_nonneg _
    have hp1 : 0 ≤ (t - L) * (b.rate : Int) := mul_nonneg (by omega) hr0
    have hp2 : 0 ≤ (Tend - t) * (b.rate : Int) := mul_nonneg (by omega) hr0
    have hsum : (Tend - L) * (b.rate : Int) = (t - L) * b.rate + (Tend - t) * b.rate := by ring
    have hamt := refillAmount_le_window oor t L b.rate hLt (by rw [hsum] at hreg; omega)
    rw [admissions_count_cons]
    push_cast
    rcases refill_cases oor t b with ⟨ha0, hrb⟩ | ⟨hapos, htle, _, hlast'⟩
    · -- nothing added: the bucket keeps its last refill time
      rw [hrb] at hlr htok
      have hch : List.Chain (fun s t => s ≤ t) L ts := by
        cases ts with
        | nil => exact List.Chain.nil
        | cons t' ts' =>
          simp only [List.chain_cons] at hchain' ⊢
          exact ⟨le_trans hLt hchain'.1, hchain'.2⟩
      have := ih (b.Available oor t).2 L (by rw [hlr, hlast]) hch hend' hL
        (by rw [hrate]; exact hreg)
      rw [hrate] at this
      have htok' : (((b.Available oor t).2.tokens : ℕ) : Int)
          + (if (b.Available oor t).1 = true then 1 else 0) = b.tokens := by
        exact_mod_cast htok
      omega
    · -- tokens added: the last refill time moves to `t`
      rw [hlast] at htle
      have := ih (b.Available oor t).2 t (by rw [hlr, hlast']) hchain' hend' htend
        (by rw [hrate]; rw [hsum] at hreg; omega)
      rw [hrate] at this
      have htok' : (((b.Available oor t).2.tokens : ℕ) : Int)
          + (if (b.Available oor t).1 = true then 1 else 0) = (b.refill oor t).tokens := by
        exact_mod_cast htok
      have htle' : (((b.refill oor t).tokens : ℕ) : Int)
          ≤ b.tokens + refillAmount oor ((Time.clock t).Sub (Time.clock L)) b.rate := by
        exact_mod_cast htle
      rw [hsum]
      generalize (t - L) * (b.rate : Int) = p1 at hp1 hamt ⊢
      generalize (Tend - t) * (b.rate : Int) = p2 at hp2 this ⊢
      norm_num at hamt this ⊢
      omega

theorem chain_clock (ts : List Int) : ∀ a : Int,
    List.Chain (fun s t : Time => s ≤ t) (Time.clock a) (ts.map Time.clock) →
    List.Chain (fun s t : Int => s ≤ t) a ts := by
  induction ts with
  | nil => intro a _; exact List.Chain.nil
  | cons t ts ih =>
    intro a h
    simp only [List.map_cons, List.chain_cons] at h ⊢
    exact ⟨h.1, ih t h.2⟩

theorem admissions_rate_zero (oor : Int → Nat → Nat) (b : TokenBucket) (ts : List Int)
    (h : b.rate = 0) : (b.admissions oor ts).1.count true ≤ b.tokens := by
  rw [admissions_no_refill oor ts b (fun t _ => refillAmount_eq_zero oor _ _ (by rw [h]; norm_num))]
  rw [List.count_append, List.count_replicate_self]
  have : List.count true (List.replicate (ts.length - b.tokens) false) = 0 := by
    rw [List.count_eq_zero]
    intro hmem
    have := List.eq_of_mem_replicate hmem
    simp at this
  omega

/-- A first refill that adds nothing, at a rate between 1 and `2·10^6`, means
that less than one token (one second's worth at that rate) had accrued. -/
theorem first_refill_zero_window (oor : Int → Nat → Nat) (t L : Int) (rate : Nat)
    (hLt : L ≤ t) (hr1 : 1 ≤ rate) (hr2 : rate ≤ 2000000)
    (h0 : refillAmount oor ((Time.clock t).Sub (Time.clock L)) rate = 0) :
    (t - L) * rate ≤ 10 ^ 9 := by
  have hsub : (Time.clock t).Sub (Time.clock L) = max minDuration (min maxDuration (t - L)) := rfl
  obtain ⟨hb1, hb2⟩ := Time.Sub_clock_bounds t L hLt
  have hmax : (Time.clock t).Sub (Time.clock L) ≤ 2 ^ 63 - 1 := by
    rw [hsub]; unfold minDuration maxDuration; omega
  generalize he : (Time.clock t).Sub (Time.clock L) = e at hb1 hb2 hmax h0 hsub
  have e1 : ((e.natAbs : ℕ) : Int) = e := Int.natAbs_of_nonneg hb1
  have hnat : e.natAbs ≤ 2 ^ 63 - 1 := by omega
  have hupper : e.natAbs * rate ≤ 18446744073 * 10 ^ 18 := by
    calc e.natAbs * rate ≤ (2 ^ 63 - 1) * 2000000 := Nat.mul_le_mul hnat hr2
      _ ≤ 18446744073 * 10 ^ 18 := by norm_num
  have hle : e.natAbs * rate ≤ 10 ^ 9 := by
    by_contra hgt
    have := refillAmount_pos oor e rate hb1 (by omega) hupper
    omega
  have hle1 : e.natAbs ≤ 10 ^ 9 := by
    calc e.natAbs = e.natAbs * 1 := (Nat.mul_one _).symm
      _ ≤ e.natAbs * rate := Nat.mul_le_mul_left _ hr1
      _ ≤ 10 ^ 9 := hle
  have heq : e = t - L := by
    rw [hsub]
    unfold minDuration maxDuration
    have : e ≤ 10 ^ 9 := by omega
    rw [hsub] at this
    unfold minDuration maxDuration at this
    omega
  rw [← heq, ← e1]
  exact_mod_cast hle

/-- C5, as the code has it.  For a bucket with `tokens ≤ capacity` and calls of
`Available` at non-decreasing times, none before the bucket's last refill, all
inside an interval `[T, T + Δt]` with `Δt ≥ 1s` and `Δt · rate ≤ 2·10^15`
(nanoseconds times tokens per second: the range in which the binary64 rounding
of `refill` cannot add a token), the number of calls that return true is at most
`capacity + ⌊Δt_seconds · rate⌋ + 1`: the fraction of a token accrued before
the interval is carried into it. -/
theorem C5_admissions_bounded_by_capacity_rate_carry (oor : Int → Nat → Nat)
    (b : TokenBucket) (times : List Int) (T dt : Int)
    (hinv : b.tokens ≤ b.capacity)
    (hchain : List.Chain (fun s t : Time => s ≤ t) b.lastRefill (times.map Time.clock))
    (hwin : ∀ t ∈ times, T ≤ t ∧ t ≤ T + dt)
    (hdt : 10 ^ 9 ≤ dt) (hreg : dt * b.rate ≤ 2 * 10 ^ 15) :
    (((b.admissions oor times).1.count true : ℕ) : Int)
      ≤ b.capacity + dt * b.rate / 10 ^ 9 + 1 := by
  have hr0 : (0 : Int) ≤ (b.rate : Int) := Int.ofNat_nonneg _
  have hdiv0 : 0 ≤ dt * (b.rate : Int) / 10 ^ 9 :=
    Int.ediv_nonneg (mul_nonneg (by omega) hr0) (by norm_num)
  have hinv' : ((b.tokens : ℕ) : Int) ≤ b.capacity := by exact_mod_cast hinv
  by_cases hrz : b.rate = 0
  · have := admissions_rate_zero oor b times hrz
    have h' : (((b.admissions oor times).1.count true : ℕ) : Int) ≤ b.tokens := by
      exact_mod_cast this
    omega
  have hr1 : 1 ≤ b.rate := Nat.one_le_iff_ne_zero.mpr hrz
  have hr2 : b.rate ≤ 2000000 := by
    have h1 : (10 : Int) ^ 9 * b.rate ≤ dt * b.rate := mul_le_mul_of_nonneg_right hdt hr0
    have h2 : (10 : Int) ^ 9 * b.rate ≤ 2 * 10 ^ 15 := h1.trans hreg
    norm_num at h2
    omega
  cases times with
  | nil =>
    simp only [TokenBucket.admissions, List.count_nil, Nat.cast_zero]
    omega
  | cons t ts =>
    simp only [List.map_cons, List.chain_cons] at hchain
    obtain ⟨hfirst, hrest⟩ := hchain
    have hrest' := chain_clock ts t hrest
    obtain ⟨hTt, htT⟩ := hwin t (List.mem_cons_self _ _)
    have hend : ∀ t' ∈ t :: ts, t' ≤ T + dt := fun t' h => (hwin t' h).2
    have hend' : ∀ t' ∈ ts, t' ≤ T + dt := fun t' h => hend t' (List.mem_cons_of_mem _ h)
    have hmono : (T + dt - t) * (b.rate : Int) ≤ dt * b.rate :=
      mul_le_mul_of_nonneg_right (by omega) hr0
    rcases refill_cases oor t b with ⟨ha0, hrb⟩ | ⟨hapos, _, hcap, hlast'⟩
    · -- the first refill adds nothing
      cases hl : b.lastRefill with
      | zero =>
        exfalso
        rw [hl] at ha0
        have hsub : (Time.clock t).Sub Time.zero = maxDuration := rfl
        rw [hsub] at ha0
        have hna : maxDuration.natAbs = 2 ^ 63 - 1 := by decide
        have := refillAmount_pos oor maxDuration b.rate (by decide)
          (by rw [hna]
              calc 10 ^ 9 < (2 ^ 63 - 1) * 1 := by norm_num
                _ ≤ (2 ^ 63 - 1) * b.rate := Nat.mul_le_mul_left _ hr1)
          (by rw [hna]
              calc (2 ^ 63 - 1) * b.rate ≤ (2 ^ 63 - 1) * 2000000 := Nat.mul_le_mul_left _ hr2
                _ ≤ 18446744073 * 10 ^ 18 := by norm_num)
        omega
      | clock L =>
        rw [hl] at hfirst ha0
        have hLt : L ≤ t := hfirst
        have hcarry := first_refill_zero_window oor t L b.rate hLt hr1 hr2 ha0
        have hsum : (T + dt - L) * (b.rate : Int)
            = (T + dt - t) * b.rate + (t - L) * b.rate := by ring
        have hch : List.Chain (fun s t : Int => s ≤ t) L (t :: ts) :=
          List.Chain.cons hLt hrest'
        have hpot := admissions_potential oor (T + dt) (t :: ts) b L hl hch hend (by omega)
          (by rw [hsum]; norm_num at hcarry hreg hmono ⊢; omega)
        rw [hsum] at hpot
        generalize (T + dt - t) * (b.rate : Int) = p1 at hmono hpot
        generalize (t - L) * (b.rate : Int) = p2 at hcarry hpot
        generalize dt * (b.rate : Int) = p at hreg hmono hdiv0 ⊢
        norm_num at hpot hcarry hreg ⊢
        omega
    · -- the first refill adds tokens: the bucket is refilled at `t`
      obtain ⟨hrate, hlr, htok⟩ := Available_spec oor t b
      have hpot := admissions_potential oor (T + dt) ts (b.Available oor t).2 t
        (by rw [hlr, hlast']) hrest' hend' htT
        (by rw [hrate]; norm_num at hreg hmono ⊢; omega)
      rw [hrate] at hpot
      rw [admissions_count_cons]
      push_cast
      have htok' : (((b.Available oor t).2.tokens : ℕ) : Int)
          + (if (b.Available oor t).1 = true then 1 else 0) = (b.refill oor t).tokens := by
        exact_mod_cast htok
      have hcap' : (((b.refill oor t).tokens : ℕ) : Int) ≤ b.capacity := by exact_mod_cast hcap
      generalize (T + dt - t) * (b.rate : Int) = p1 at hmono hpot
      generalize dt * (b.rate : Int) = p at hreg hmono hdiv0 ⊢
      norm_num at hpot hreg ⊢
      omega

set_option maxRecDepth 8000 in
theorem C5_admissions_bounded_by_capacity_rate_carry_witness :
    (⟨1, 1, 1, Time.clock 1000000000⟩ : TokenBucket).tokens ≤ 1 ∧
    (10 : Int) ^ 9 ≤ 1500000000 ∧ (1500000000 : Int) * (1 : Nat) ≤ 2 * 10 ^ 15 ∧
    ((((⟨1, 1, 1, Time.clock 1000000000⟩ : TokenBucket).admissions (fun _ _ => 0)
      [1500000000, 2000000000, 3000000000]).1.count true : ℕ) : Int)
      ≤ (1 : Nat) + 1500000000 * (1 : Nat) / 10 ^ 9 + 1 :=
  ⟨by decide, by decide, by decide,
    C5_admissions_bounded_by_capacity_rate_carry (fun _ _ => 0)
      ⟨1, 1, 1, Time.clock 1000000000⟩ [1500000000, 2000000000, 3000000000]
      1500000000 1500000000 (by decide)
      (List.Chain.cons (by decide) (List.Chain.cons (by decide) (List.Chain.cons (by decide)
        List.Chain.nil)))
      (by decide) (by decide) (by decide)⟩

set_option maxRecDepth 8000 in
/-- C5 fails as stated.  The bucket `NewBucket 1 1` after an admission at time 0
and a sweep of the refill loop one second later holds one token, last refilled
at 1 s.  Calls of `Available` at 1.5 s, 2 s and 3 s, inside an interval of 1.5 s,
all return true: 3 admissions, where `capacity + ⌊Δt · rate⌋ = 1 + 1 = 2`. -/
theorem C5_rate_bound_counterexample :
    (NewBucket 1 1).run (fun _ _ => 0) [Call.available 0, Call.refill 1000000000]
      = ⟨1, 1, 1, Time.clock 1000000000⟩ ∧
    ((⟨1, 1, 1, Time.clock 1000000000⟩ : TokenBucket).admissions (fun _ _ => 0)
      [1500000000, 2000000000, 3000000000]).1 = [true, true, true] ∧
    ¬ (((⟨1, 1, 1, Time.clock 1000000000⟩ : TokenBucket).admissions (fun _ _ => 0)
      [1500000000, 2000000000, 3000000000]).1.count true
        ≤ 1 + (3000000000 - 1500000000) * 1 / 10 ^ 9) := by
  refine ⟨by decide, by decide, by decide⟩

/-! ## the cliff of a lazily created bucket, inside the 64-bit range -/

set_option maxRecDepth 100000 in
theorem refillFloat_trunc_divisors :
    ∀ i : Fin 10, ∀ j : Fin 10,
      (refillFloat (2 ^ (9 - i.val) * 5 ^ (9 - j.val)) (2 ^ i.val * 5 ^ j.val)).1 /
        (refillFloat (2 ^ (9 - i.val) * 5 ^ (9 - j.val)) (2 ^ i.val * 5 ^ j.val)).2 = 1 := by
  decide

/-- Exactly one second's worth: when `elapsed * rate` is `10^9`, the binary64
amount is one token. -/
theorem refillFloat_trunc_one (e r : Nat) (h : e * r = 10 ^ 9) :
    (refillFloat e r).1 / (refillFloat e r).2 = 1 := by
  have hdvd : r ∣ 2 ^ 9 * 5 ^ 9 := ⟨e, by rw [Nat.mul_comm r e, h]; norm_num⟩
  obtain ⟨r1, r2, h1, h2, hr⟩ := (Nat.dvd_mul).mp hdvd
  obtain ⟨i, hi, rfl⟩ := (Nat.dvd_prime_pow Nat.prime_two).mp h1
  obtain ⟨j, hj, rfl⟩ := (Nat.dvd_prime_pow Nat.prime_five).mp h2
  subst hr
  have he : e = 2 ^ (9 - i) * 5 ^ (9 - j) := by
    have hpos : 0 < 2 ^ i * 5 ^ j := by positivity
    apply Nat.eq_of_mul_eq_mul_right hpos
    rw [h]
    have e2 : 2 ^ (9 - i) * 5 ^ (9 - j) * (2 ^ i * 5 ^ j)
        = (2 ^ (9 - i) * 2 ^ i) * (5 ^ (9 - j) * 5 ^ j) := by ring
    rw [e2, ← pow_add, ← pow_add, Nat.sub_add_cancel hi, Nat.sub_add_cancel hj]
    norm_num
  rw [he]
  exact refillFloat_trunc_divisors ⟨i, by omega⟩ ⟨j, by omega⟩

/-- At least one second's worth, inside the range of `uint`: the amount is at
least one token. -/
theorem refillAmount_pos_of_ge (oor : Int → Nat → Nat) (elapsed : Int) (rate : Nat)
    (h0 : 0 ≤ elapsed) (h1 : 10 ^ 9 ≤ elapsed.natAbs * rate)
    (h2 : elapsed.natAbs * rate ≤ 18446744073 * 10 ^ 18) :
    1 ≤ refillAmount oor elapsed rate := by
  rcases Nat.eq_or_lt_of_le h1 with h | h
  · have h3 := refillFloat_trunc_one elapsed.natAbs rate h.symm
    unfold refillAmount
    simp only [h0, h3, if_true]
    norm_num
  · exact refillAmount_pos oor elapsed rate h0 h h2

/-- The first refill of a bucket made by `NewBucket`, inside the 64-bit range:
the elapsed time is `maxDuration`, at least one token is added and the bucket is
full afterwards. -/
theorem NewBucket_first_refill (oor : Int → Nat → Nat) (now : Int) (capacity rate : Nat)
    (hr : 0 < rate) (hrange : capacity + 9223372037 * rate < 2 ^ 64) :
    (NewBucket capacity rate).refill oor now = ⟨capacity, capacity, rate, Time.clock now⟩ := by
  have h1 : (Time.clock now).Sub (NewBucket capacity rate).lastRefill = maxDuration := rfl
  have hna : maxDuration.natAbs = 2 ^ 63 - 1 := by decide
  have hpr : (2 ^ 63 - 1) * rate ≤ 18446744073 * 10 ^ 18 := by omega
  have hpos := refillAmount_pos oor maxDuration rate (by decide)
    (by rw [hna]; omega) (by rw [hna]; exact hpr)
  have hup : refillAmount oor maxDuration rate ≤ 9223372037 * rate := by
    have hu := refillFloat_trunc_upper (2 ^ 63 - 1) rate
    have hlt := refillFloat_trunc_range (2 ^ 63 - 1) rate hpr
    unfold refillAmount
    simp only [hna, hlt, if_true, show (0 : Int) ≤ maxDuration from by decide]
    generalize (refillFloat (2 ^ 63 - 1) rate).1 / (refillFloat (2 ^ 63 - 1) rate).2 = t at hu
    norm_num at hu ⊢
    omega
  have hpos' : 0 < refillAmount oor maxDuration rate := hpos
  have hrate : (NewBucket capacity rate).rate = rate := rfl
  have hmod : (capacity + refillAmount oor maxDuration rate) % 2 ^ 64
      = capacity + refillAmount oor maxDuration rate := Nat.mod_eq_of_lt (by omega)
  unfold TokenBucket.refill
  simp only [h1, hrate, hpos', if_true]
  simp only [NewBucket]
  rw [hmod, Nat.min_eq_left (by omega)]

theorem admissions_no_refill_state (oor : Int → Nat → Nat) (ts : List Int) :
    ∀ b : TokenBucket,
      (∀ t ∈ ts, refillAmount oor ((Time.clock t).Sub b.lastRefill) b.rate = 0) →
      (b.admissions oor ts).2 = { b with tokens := b.tokens - ts.length } := by
  induction ts with
  | nil => intro b _; rfl
  | cons t ts ih =>
    intro b h
    have ht := h t (List.mem_cons_self _ _)
    have hrest : ∀ t' ∈ ts, refillAmount oor ((Time.clock t').Sub b.lastRefill) b.rate = 0 :=
      fun t' ht' => h t' (List.mem_cons_of_mem _ ht')
    unfold TokenBucket.admissions
    simp only [Available_of_amount_zero oor t b ht]
    by_cases h0 : b.tokens = 0
    · simp only [h0, ne_eq, not_true_eq_false, if_false]
      rw [ih b hrest, h0]
      simp
    · simp only [h0, ne_eq, not_false_eq_true, if_true]
      rw [ih { b with tokens := b.tokens - 1 } hrest]
      simp only [List.length_cons, TokenBucket.mk.injEq, and_true, true_and]
      omega

theorem Limiter_admissions_hit_state (oor : Int → Nat → Nat)
    (Has : String → Except String Client) (key : String) (ts : List Int) :
    ∀ (l : Limiter) (b : TokenBucket), l.buckets key = some b →
      (Limiter.admissions oor Has key l ts).2.buckets key = some (b.admissions oor ts).2 := by
  induction ts with
  | nil => intro l b h; exact h
  | cons t ts ih =>
    intro l b h
    have ha : l.Available oor Has t key
        = ((b.Available oor t).1, ⟨Function.update l.buckets key (some (b.Available oor t).2)⟩) := by
      unfold Limiter.Available
      simp only [h]
    unfold Limiter.admissions TokenBucket.admissions
    simp only [ha]
    exact ih _ (b.Available oor t).2 (by simp)

theorem Available_true_of_amount_pos (oor : Int → Nat → Nat) (now : Int) (b : TokenBucket)
    (hcap : 0 < b.capacity)
    (ha : 1 ≤ refillAmount oor ((Time.clock now).Sub b.lastRefill) b.rate)
    (hlt : b.tokens + refillAmount oor ((Time.clock now).Sub b.lastRefill) b.rate < 2 ^ 64) :
    (b.Available oor now).1 = true := by
  have hpos : 0 < refillAmount oor ((Time.clock now).Sub b.lastRefill) b.rate := ha
  have htok : (b.refill oor now).tokens ≠ 0 := by
    unfold TokenBucket.refill
    simp only [hpos, if_true]
    rw [Nat.mod_eq_of_lt hlt]
    omega
  unfold TokenBucket.Available
  simp only [htok, ne_eq, not_false_eq_true, if_true]

/-- The rate-limit cliff of a lazily created bucket, for a registry record whose
capacity and rate stay inside the 64-bit range at the first refill
(`capacity + 9223372037 * rate < 2^64`).  Of `capacity + 1` calls of
`Limiter.Available` on a key unknown to the limiter, all within less than `1/rate`
seconds of the first, the first `capacity` return true and the last returns
false; the first call installs the bucket with the registry's capacity and rate
(full but for the token it took), and a call at least `1/rate` seconds after
the first returns true. -/
theorem Limiter_lazy_cliff_in_range (oor : Int → Nat → Nat)
    (Has : String → Except String Client) (key : String) (l : Limiter) (client : Client)
    (first later : Int) (ts : List Int)
    (hmiss : l.buckets key = none) (hHas : Has key = .ok client)
    (hc : 0 < client.Capacity) (hr : 0 < client.Rate)
    (hrange : client.Capacity + 9223372037 * client.Rate < 2 ^ 64)
    (hlen : ts.length = client.Capacity)
    (hwin : ∀ t ∈ ts, first ≤ t ∧ (t - first) * client.Rate < 10 ^ 9)
    (hlater : 10 ^ 9 ≤ (later - first) * client.Rate) :
    (Limiter.admissions oor Has key l (first :: ts)).1
      = List.replicate client.Capacity true ++ [false] ∧
    (l.Available oor Has first key).2.buckets key
      = some ⟨client.Capacity, client.Capacity - 1, client.Rate, Time.clock first⟩ ∧
    ((Limiter.admissions oor Has key l (first :: ts)).2.Available oor Has later key).1
      = true := by
  have hfirst := NewBucket_first_refill oor first client.Capacity client.Rate hr hrange
  have hne : client.Capacity ≠ 0 := by omega
  have ha : (NewBucket client.Capacity client.Rate).Available oor first
      = (true, ⟨client.Capacity, client.Capacity - 1, client.Rate, Time.clock first⟩) := by
    unfold TokenBucket.Available
    rw [hfirst]
    simp only [ne_eq, hne, not_false_eq_true, if_true]
  have hmissA := Limiter_Available_miss oor Has first key l client hmiss hHas
  rw [ha] at hmissA
  have hzero : ∀ t ∈ ts, refillAmount oor
      ((Time.clock t).Sub
        (⟨client.Capacity, client.Capacity - 1, client.Rate, Time.clock first⟩ :
          TokenBucket).lastRefill)
      (⟨client.Capacity, client.Capacity - 1, client.Rate, Time.clock first⟩ :
          TokenBucket).rate = 0 := by
    intro t ht
    obtain ⟨h1, h2⟩ := hwin t ht
    exact refillAmount_window_zero oor t first (t - first) client.Rate h1 (le_refl _) h2
  refine ⟨?_, ?_, ?_⟩
  · rw [Limiter_admissions_miss_cons oor Has key first ts l client hmiss hHas, ha]
    simp only
    rw [admissions_no_refill oor ts _ hzero]
    simp only [hlen]
    have e1 : min client.Capacity (client.Capacity - 1) = client.Capacity - 1 := by omega
    have e2 : client.Capacity - (client.Capacity - 1) = 1 := by omega
    rw [e1, e2]
    obtain ⟨k, hk⟩ : ∃ k, client.Capacity = k + 1 := ⟨client.Capacity - 1, by omega⟩
    rw [hk]
    simp [List.replicate_succ]
  · rw [hmissA]
    simp
  · have hstate : (Limiter.admissions oor Has key l (first :: ts)).2.buckets key
        = some ⟨client.Capacity, 0, client.Rate, Time.clock first⟩ := by
      show (Limiter.admissions oor Has key (l.Available oor Has first key).2 ts).2.buckets key = _
      rw [Limiter_admissions_hit_state oor Has key ts _
        ⟨client.Capacity, client.Capacity - 1, client.Rate, Time.clock first⟩
        (by rw [hmissA]; simp)]
      rw [admissions_no_refill_state oor ts _ hzero]
      simp only [hlen, Option.some.injEq, TokenBucket.mk.injEq, and_true, true_and]
      omega
    have hL : (Limiter.admissions oor Has key l (first :: ts)).2.Available oor Has later key
        = (((⟨client.Capacity, 0, client.Rate, Time.clock first⟩ : TokenBucket).Available
            oor later).1,
          ⟨Function.update (Limiter.admissions oor Has key l (first :: ts)).2.buckets key
            (some ((⟨client.Capacity, 0, client.Rate, Time.clock first⟩ : TokenBucket).Available
              oor later).2)⟩) := by
      unfold Limiter.Available
      simp only [hstate]
    rw [hL]
    simp only
    -- the refill at `later` adds at least one token
    have hr0 : (0 : Int) < (client.Rate : Int) := by exact_mod_cast hr
    have hfl : first ≤ later := by
      by_contra hlt
      have : (later - first) * (client.Rate : Int) < 0 :=
        mul_neg_of_neg_of_pos (by omega) hr0
      omega
    have hsub : (Time.clock later).Sub (Time.clock first)
        = max minDuration (min maxDuration (later - first)) := rfl
    obtain ⟨hb1, hb2⟩ := Time.Sub_clock_bounds later first hfl
    have hmax : (Time.clock later).Sub (Time.clock first) ≤ 2 ^ 63 - 1 := by
      rw [hsub]; unfold minDuration maxDuration; omega
    have hge : 10 ^ 9 ≤ (Time.clock later).Sub (Time.clock first) * (client.Rate : Int) := by
      by_cases hsat : later - first ≤ 2 ^ 63 - 1
      · have : (Time.clock later).Sub (Time.clock first) = later - first := by
          rw [hsub]; unfold minDuration maxDuration; omega
        rw [this]; exact hlater
      · have : (Time.clock later).Sub (Time.clock first) = 2 ^ 63 - 1 := by
          rw [hsub]; unfold minDuration maxDuration; omega
        rw [this]
        have : ((2 : Int) ^ 63 - 1) * 1 ≤ (2 ^ 63 - 1) * (client.Rate : Int) :=
          mul_le_mul_of_nonneg_left (by omega) (by norm_num)
        omega
    obtain ⟨e, he⟩ : ∃ e, (Time.clock later).Sub (Time.clock first) = e := ⟨_, rfl⟩
    rw [he] at hb1 hmax hge
    have e1 : ((e.natAbs : ℕ) : Int) = e := Int.natAbs_of_nonneg hb1
    have hnat : e.natAbs ≤ 2 ^ 63 - 1 := by omega
    have hge' : 10 ^ 9 ≤ e.natAbs * client.Rate := by
      have : ((10 ^ 9 : ℕ) : Int) ≤ ((e.natAbs * client.Rate : ℕ) : Int) := by
        rw [Nat.cast_mul, e1]
        exact_mod_cast hge
      exact_mod_cast this
    have hle' : e.natAbs * client.Rate ≤ 18446744073 * 10 ^ 18 := by
      calc e.natAbs * client.Rate ≤ (2 ^ 63 - 1) * client.Rate := Nat.mul_le_mul_right _ hnat
        _ ≤ 18446744073 * 10 ^ 18 := by omega
    have hamt := refillAmount_pos_of_ge oor e client.Rate hb1 hge' hle'
    have hlt : refillAmount oor e client.Rate < 2 ^ 64 := by
      have := refillFloat_trunc_range e.natAbs client.Rate hle'
      unfold refillAmount
      simp only [hb1, this, if_true]
    apply Available_true_of_amount_pos oor later _ hc
    · simp only [he]
      exact hamt
    · simp only [he]
      omega

set_option maxRecDepth 8000 in
theorem Limiter_lazy_cliff_in_range_witness :
    (Limiter.admissions (fun _ _ => 0) (fun k => .ok ⟨"client", k, 3, 1⟩) "k" Limiter.New
        [0, 0, 0, 0]).1 = List.replicate 3 true ++ [false] ∧
    (Limiter.New.Available (fun _ _ => 0) (fun k => .ok ⟨"client", k, 3, 1⟩) 0 "k").2.buckets "k"
      = some ⟨3, 3 - 1, 1, Time.clock 0⟩ ∧
    ((Limiter.admissions (fun _ _ => 0) (fun k => .ok ⟨"client", k, 3, 1⟩) "k" Limiter.New
        [0, 0, 0, 0]).2.Available (fun _ _ => 0) (fun k => .ok ⟨"client", k, 3, 1⟩)
          1100000000 "k").1 = true :=
  Limiter_lazy_cliff_in_range (fun _ _ => 0) (fun k => .ok ⟨"client", k, 3, 1⟩) "k" Limiter.New
    ⟨"client", "k", 3, 1⟩ 0 1100000000 [0, 0, 0] rfl rfl (by decide) (by decide) (by decide)
    rfl (by decide) (by decide)

/-! ## least-connections strategy -/

theorem LeastConnections_loop_nil (endpoints : List Endpoint) (minimal : Int) :
    LeastConnections.loop endpoints none minimal =
      if endpoints.any Endpoint.IsActive
      then .error "invalid memory address or nil pointer dereference"
      else .ok none := by
  induction endpoints with
  | nil => rfl
  | cons e rest ih =>
    unfold LeastConnections.loop
    cases he : e.IsActive with
    | true => simp [he, Endpoint.Connections]
    | false => simp [he, ih]

/-- C11 at the failing input, and on every list.  With A (1 in flight) and B
(0 in flight) both active, `LeastConnections.Next` does not return B: at the
first active endpoint it reads the counter of the still-nil `endpoint` and the
call panics.  On every list the call panics as soon as some endpoint is active,
and returns nil when none is. -/
theorem C11_LeastConnections_Next_panics (endpoints : List Endpoint) :
    LeastConnections.Next [⟨0, true, 1⟩, ⟨1, true, 0⟩]
      = .error "invalid memory address or nil pointer dereference" ∧
    LeastConnections.Next endpoints =
      (if endpoints.any Endpoint.IsActive
       then .error "invalid memory address or nil pointer dereference"
       else .ok none) :=
  ⟨LeastConnections_loop_nil _ _, LeastConnections_loop_nil endpoints _⟩

/-! ## `Forward`: rejections -/

theorem Forward_missing_key (oor : Int → Nat → Nat) (Has : String → Except String Client)
    (uuidValidate : String → Bool) (sample : Nat → Nat) (fuel : Nat)
    (trackConnections : Bool) (now : Int) (ctxDone : Bool) (header : Option String)
    (b : Balancer) (h : header.getD "" = "") :
    b.Forward oor Has uuidValidate sample fuel trackConnections now ctxDone header
      = ⟨.error (ResponseError "client key is not found" StatusUnauthorized), [], b⟩ := by
  unfold Forward
  simp only [h, if_true]

theorem Forward_invalid_key (oor : Int → Nat → Nat) (Has : String → Except String Client)
    (uuidValidate : String → Bool) (sample : Nat → Nat) (fuel : Nat)
    (trackConnections : Bool) (now : Int) (ctxDone : Bool) (header : Option String)
    (b : Balancer) (h : header.getD "" ≠ "") (hv : uuidValidate (header.getD "") = false) :
    b.Forward oor Has uuidValidate sample fuel trackConnections now ctxDone header
      = ⟨.error (ResponseError "invalid client key" StatusUnauthorized), [], b⟩ := by
  unfold Forward
  simp only [h, hv, if_false, Bool.not_false, if_true]

theorem Forward_limited (oor : Int → Nat → Nat) (Has : String → Except String Client)
    (uuidValidate : String → Bool) (sample : Nat → Nat) (fuel : Nat)
    (trackConnections : Bool) (now : Int) (ctxDone : Bool) (header : Option String)
    (b : Balancer) (h : header.getD "" ≠ "") (hv : uuidValidate (header.getD "") = true)
    (ha : (b.limiter.Available oor Has now (header.getD "")).1 = false) :
    b.Forward oor Has uuidValidate sample fuel trackConnections now ctxDone header
      = ⟨.error (ResponseError "too many requests" StatusTooManyRequests),
          [.limiterAvailable (header.getD "")],
          { b with limiter := (b.limiter.Available oor Has now (header.getD "")).2 }⟩ := by
  unfold Forward
  simp only [h, hv, ha, if_false, Bool.not_true, Bool.not_false, if_true]
  simp

theorem Forward_blocked (oor : Int → Nat → Nat) (Has : String → Except String Client)
    (uuidValidate : String → Bool) (sample : Nat → Nat) (fuel : Nat)
    (trackConnections : Bool) (now : Int) (ctxDone : Bool) (header : Option String)
    (b : Balancer) (h : header.getD "" ≠ "") (hv : uuidValidate (header.getD "") = true)
    (ha : (b.limiter.Available oor Has now (header.getD "")).1 = true) (hm : b.mu = true) :
    b.Forward oor Has uuidValidate sample fuel trackConnections now ctxDone header
      = ⟨.blocked, [.limiterAvailable (header.getD "")],
          { b with limiter := (b.limiter.Available oor Has now (header.getD "")).2 }⟩ := by
  unfold Forward
  simp only [h, hv, ha, hm, if_false, Bool.not_true, if_true]
  simp

theorem Forward_admitted (oor : Int → Nat → Nat) (Has : String → Except String Client)
    (uuidValidate : String → Bool) (sample : Nat → Nat) (fuel : Nat)
    (trackConnections : Bool) (now : Int) (ctxDone : Bool) (header : Option String)
    (b : Balancer) (h : header.getD "" ≠ "") (hv : uuidValidate (header.getD "") = true)
    (ha : (b.limiter.Available oor Has now (header.getD "")).1 = true) (hm : b.mu = false) :
    b.Forward oor Has uuidValidate sample fuel trackConnections now ctxDone header =
      match b.strategy.Next sample fuel with
      | .panicked msg =>
        ⟨.panicked msg, [.limiterAvailable (header.getD ""), .strategyNext],
          { b with limiter := (b.limiter.Available oor Has now (header.getD "")).2,
                   mu := true }⟩
      | .running =>
        ⟨.running, [.limiterAvailable (header.getD ""), .strategyNext],
          { b with limiter := (b.limiter.Available oor Has now (header.getD "")).2,
                   mu := true }⟩
      | .returned (none, strategy) =>
        ⟨.error (ResponseError "no available endpoint" StatusServiceUnavailable),
          [.limiterAvailable (header.getD ""), .strategyNext],
          { limiter := (b.limiter.Available oor Has now (header.getD "")).2,
            strategy := strategy, mu := false }⟩
      | .returned (some endpoint, strategy) =>
        if trackConnections then
          ⟨.proxied endpoint,
            [.limiterAvailable (header.getD ""), .strategyNext, .newConnection endpoint.id,
              .proxyServeHTTP endpoint.id],
            { limiter := (b.limiter.Available oor Has now (header.getD "")).2,
              strategy := strategy.NewConnection ctxDone endpoint.id, mu := false }⟩
        else
          ⟨.proxied endpoint,
            [.limiterAvailable (header.getD ""), .strategyNext, .proxyServeHTTP endpoint.id],
            { limiter := (b.limiter.Available oor Has now (header.getD "")).2,
              strategy := strategy, mu := false }⟩ := by
  unfold Forward
  simp only [h, hv, ha, hm, if_false, Bool.not_true]
  simp

theorem Forward_error_shape (oor : Int → Nat → Nat) (Has : String → Except String Client)
    (uuidValidate : String → Bool) (sample : Nat → Nat) (fuel : Nat)
    (trackConnections : Bool) (now : Int) (ctxDone : Bool) (header : Option String)
    (b : Balancer) (r : ErrorResponse)
    (hr : (b.Forward oor Has uuidValidate sample fuel trackConnections now ctxDone header).reply
      = .error r) :
    (header.getD "" = "" ∧ r = ResponseError "client key is not found" StatusUnauthorized) ∨
    (header.getD "" ≠ "" ∧ uuidValidate (header.getD "") = false ∧
      r = ResponseError "invalid client key" StatusUnauthorized) ∨
    (header.getD "" ≠ "" ∧ uuidValidate (header.getD "") = true ∧
      (b.limiter.Available oor Has now (header.getD "")).1 = false ∧
      r = ResponseError "too many requests" StatusTooManyRequests) ∨
    (header.getD "" ≠ "" ∧ uuidValidate (header.getD "") = true ∧
      (b.limiter.Available oor Has now (header.getD "")).1 = true ∧ b.mu = false ∧
      (∃ s, b.strategy.Next sample fuel = .returned (none, s)) ∧
      r = ResponseError "no available endpoint" StatusServiceUnavailable) := by
  by_cases h : header.getD "" = ""
  · left
    rw [Forward_missing_key oor Has uuidValidate sample fuel trackConnections now ctxDone
      header b h] at hr
    exact ⟨h, by cases hr; rfl⟩
  · right
    cases hv : uuidValidate (header.getD "") with
    | false =>
      left
      rw [Forward_invalid_key oor Has uuidValidate sample fuel trackConnections now ctxDone
        header b h hv] at hr
      exact ⟨h, rfl, by cases hr; rfl⟩
    | true =>
      right
      cases ha : (b.limiter.Available oor Has now (header.getD "")).1 with
      | false =>
        left
        rw [Forward_limited oor Has uuidValidate sample fuel trackConnections now ctxDone
          header b h hv ha] at hr
        exact ⟨h, rfl, rfl, by cases hr; rfl⟩
      | true =>
        right
        cases hm : b.mu with
        | true =>
          rw [Forward_blocked oor Has uuidValidate sample fuel trackConnections now ctxDone
            header b h hv ha hm] at hr
          simp at hr
        | false =>
          rw [Forward_admitted oor Has uuidValidate sample fuel trackConnections now ctxDone
            header b h hv ha hm] at hr
          refine ⟨h, rfl, rfl, rfl, ?_⟩
          cases hn : b.strategy.Next sample fuel with
          | panicked msg => rw [hn] at hr; simp at hr
          | running => rw [hn] at hr; simp at hr
          | returned p =>
            obtain ⟨e, s⟩ := p
            cases e with
            | none =>
              rw [hn] at hr
              simp only [Reply.error.injEq] at hr
              exact ⟨⟨s, rfl⟩, hr.symm⟩
            | some e =>
              rw [hn] at hr
              by_cases ht : trackConnections = true
              · simp [ht] at hr
              · simp [ht] at hr

/-! ## `uuid.Validate` and the canonical form -/

theorem utf8_ascii (c : Char) (h : c.toNat ≤ 127) : utf8 c = [c.toNat] := by
  unfold utf8
  simp [h]

theorem flatMap_utf8_ascii (l : List Char) (h : ∀ c ∈ l, c.toNat ≤ 127) :
    l.flatMap utf8 = l.map Char.toNat := by
  induction l with
  | nil => rfl
  | cons c l ih =>
    rw [List.flatMap_cons, utf8_ascii c (h c (List.mem_cons_self _ _)),
      ih (fun d hd => h d (List.mem_cons_of_mem _ hd))]
    rfl

theorem getD_map_toNat (l : List Char) (i : Nat) (h : i < l.length) :
    (l.map Char.toNat).getD i 0 = (l.getD i ' ').toNat := by
  rw [List.getD_eq_getElem _ _ (by simpa using h), List.getD_eq_getElem _ _ h]
  simp

theorem canonicalUUIDSpec_iff (s : String) :
    canonicalUUIDSpec s = true ↔
      s.data.length = 36 ∧ ∀ i, i < 36 →
        if i = 8 ∨ i = 13 ∨ i = 18 ∨ i = 23 then (s.data.getD i ' ').toNat = 45
        else (48 ≤ (s.data.getD i ' ').toNat ∧ (s.data.getD i ' ').toNat ≤ 57) ∨
          (97 ≤ (s.data.getD i ' ').toNat ∧ (s.data.getD i ' ').toNat ≤ 102) := by
  unfold canonicalUUIDSpec
  rw [Bool.and_eq_true, List.all_eq_true]
  constructor
  · rintro ⟨h1, h2⟩
    refine ⟨by simpa using h1, fun i hi => ?_⟩
    have := h2 i (List.mem_range.mpr hi)
    split_ifs with hc
    · simpa [hc] using this
    · simpa [hc] using this
  · rintro ⟨h1, h2⟩
    refine ⟨by simpa using h1, fun i hi => ?_⟩
    have := h2 i (List.mem_range.mp hi)
    split_ifs at this with hc
    · simpa [hc] using this
    · simpa [hc] using this

/-- Every canonical UUID passes `uuid.Validate`. -/
theorem canonicalUUIDSpec_Validate (s : String) (h : canonicalUUIDSpec s = true) :
    uuid.Validate s = true := by
  obtain ⟨hlen, hc⟩ := (canonicalUUIDSpec_iff s).mp h
  have hascii : ∀ c ∈ s.data, c.toNat ≤ 127 := by
    intro c hmem
    obtain ⟨i, hi, rfl⟩ := List.getElem_of_mem hmem
    have := hc i (by omega)
    rw [List.getD_eq_getElem _ _ hi] at this
    split_ifs at this <;> omega
  have hb : bytes s = s.data.map Char.toNat := flatMap_utf8_ascii _ hascii
  have hl : (bytes s).length = 36 := by rw [hb, List.length_map, hlen]
  have hget : ∀ i, i < 36 → (bytes s).getD i 0 = (s.data.getD i ' ').toNat := by
    intro i hi
    rw [hb]
    exact getD_map_toNat _ _ (by omega)
  have hyph : ∀ i, i < 36 → (i = 8 ∨ i = 13 ∨ i = 18 ∨ i = 23) → (bytes s).getD i 0 = 45 := by
    intro i hi h4
    have := hc i hi
    rw [if_pos h4] at this
    rw [hget i hi, this]
  have hhex : ∀ i, i < 36 → ¬ (i = 8 ∨ i = 13 ∨ i = 18 ∨ i = 23) →
      uuid.xvalid ((bytes s).getD i 0) = true := by
    intro i hi h4
    have := hc i hi
    rw [if_neg h4] at this
    rw [hget i hi]
    unfold uuid.xvalid
    simp only [Bool.or_eq_true, Bool.and_eq_true, decide_eq_true_eq]
    omega
  unfold uuid.Validate uuid.ValidateBytes
  rw [if_pos hl]
  unfold uuid.standard
  rw [if_pos hl, if_neg (by
    rw [hyph 8 (by omega) (by omega), hyph 13 (by omega) (by omega),
      hyph 18 (by omega) (by omega), hyph 23 (by omega) (by omega)]
    simp)]
  simp only [List.all_cons, List.all_nil, Bool.and_true, Bool.and_eq_true, uuid.xtob]
  refine ⟨⟨?_, ?_⟩, ⟨?_, ?_⟩, ⟨?_, ?_⟩, ⟨?_, ?_⟩, ⟨?_, ?_⟩, ⟨?_, ?_⟩, ⟨?_, ?_⟩, ⟨?_, ?_⟩,
    ⟨?_, ?_⟩, ⟨?_, ?_⟩, ⟨?_, ?_⟩, ⟨?_, ?_⟩, ⟨?_, ?_⟩, ⟨?_, ?_⟩, ⟨?_, ?_⟩, ⟨?_, ?_⟩⟩ <;>
    exact hhex _ (by omega) (by omega)

/-! ## `Forward`: the rejection table -/

/-- C12, as amended.  The rejection table of `Forward`, with the keys that
`uuid.Validate` rejects in the place of the keys that are not canonical UUIDs.
A missing or empty `X-API-Key` header yields 401 with the message "client key is
not found"; a key that `uuid.Validate` rejects yields 401 with "invalid client
key", and `uuid.Validate` rejects no canonical UUID; a key it accepts for which
`limiter.Available` returns false yields 429; an admitted request whose call of
`strategy.Next`, made once it holds `b.mu`, returns nil yields 503; and in every
error response of `Forward` the `code` field of the JSON body equals the status
written.  The body of the first case is encoded as
`{"code":401,"message":"client key is not found"}` (and a newline). -/
theorem C12_Forward_rejection_table (oor : Int → Nat → Nat)
    (Has : String → Except String Client)
    (sample : Nat → Nat) (fuel : Nat) (trackConnections : Bool) (now : Int) (ctxDone : Bool)
    (header : Option String) (b : Balancer) :
    (header.getD "" = "" →
      (b.Forward oor Has uuid.Validate sample fuel trackConnections now ctxDone header).reply
        = .error ⟨401, ⟨401, "client key is not found"⟩⟩) ∧
    (header.getD "" ≠ "" → uuid.Validate (header.getD "") = false →
      (b.Forward oor Has uuid.Validate sample fuel trackConnections now ctxDone header).reply
        = .error ⟨401, ⟨401, "invalid client key"⟩⟩) ∧
    (canonicalUUIDSpec (header.getD "") = true →
      header.getD "" ≠ "" ∧ uuid.Validate (header.getD "") = true) ∧
    (header.getD "" ≠ "" → uuid.Validate (header.getD "") = true →
      (b.limiter.Available oor Has now (header.getD "")).1 = false →
      (b.Forward oor Has uuid.Validate sample fuel trackConnections now ctxDone header).reply
        = .error ⟨429, ⟨429, "too many requests"⟩⟩) ∧
    (header.getD "" ≠ "" → uuid.Validate (header.getD "") = true →
      (b.limiter.Available oor Has now (header.getD "")).1 = true → b.mu = false →
      ∀ s, b.strategy.Next sample fuel = .returned (none, s) →
      (b.Forward oor Has uuid.Validate sample fuel trackConnections now ctxDone header).reply
        = .error ⟨503, ⟨503, "no available endpoint"⟩⟩) ∧
    (∀ r,
      (b.Forward oor Has uuid.Validate sample fuel trackConnections now ctxDone header).reply
        = .error r →
      r.body.Code = r.status ∧ (r.status = 401 ∨ r.status = 429 ∨ r.status = 503)) ∧
    (ResponseError "client key is not found" StatusUnauthorized).body.encode
      = "\x7b\"code\":401,\"message\":\"client key is not found\"\x7d\n" := by
  refine ⟨?_, ?_, ?_, ?_, ?_, ?_, by decide⟩
  · intro h
    rw [Forward_missing_key oor Has uuid.Validate sample fuel trackConnections now ctxDone
      header b h]
    rfl
  · intro h hv
    rw [Forward_invalid_key oor Has uuid.Validate sample fuel trackConnections now ctxDone
      header b h hv]
    rfl
  · intro hc
    refine ⟨?_, canonicalUUIDSpec_Validate _ hc⟩
    intro h0
    rw [h0] at hc
    exact absurd hc (by decide)
  · intro h hv ha
    rw [Forward_limited oor Has uuid.Validate sample fuel trackConnections now ctxDone
      header b h hv ha]
    rfl
  · intro h hv ha hm s hn
    rw [Forward_admitted oor Has uuid.Validate sample fuel trackConnections now ctxDone
      header b h hv ha hm, hn]
    rfl
  · intro r hr
    rcases Forward_error_shape oor Has uuid.Validate sample fuel trackConnections now ctxDone
      header b r hr with ⟨_, rfl⟩ | ⟨_, _, rfl⟩ | ⟨_, _, _, rfl⟩ | ⟨_, _, _, _, _, rfl⟩
    · exact ⟨rfl, Or.inl rfl⟩
    · exact ⟨rfl, Or.inl rfl⟩
    · exact ⟨rfl, Or.inr (Or.inl rfl)⟩
    · exact ⟨rfl, Or.inr (Or.inr rfl)⟩

set_option maxRecDepth 8000 in
/-- C12 fails as stated.  The key of 32 hexadecimal digits without hyphens is
not a canonical UUID, and `uuid.Validate` accepts it.  `Forward` then goes on to
the limiter: with a registry that fails the answer is 429 "too many requests",
and with a registered client and an active endpoint the request is forwarded.
Neither answer is the 401 of the claim. -/
theorem C12_rejection_table_counterexample :
    canonicalUUIDSpec "123e4567e89b12d3a456426614174000" = false ∧
    uuid.Validate "123e4567e89b12d3a456426614174000" = true ∧
    ((⟨Limiter.New, .roundRobin ⟨[⟨7, true, 0⟩], 0⟩, false⟩ : Balancer).Forward (fun _ _ => 0)
        (fun _ => .error "down") uuid.Validate (fun _ => 0) 0 false 0 false
        (some "123e4567e89b12d3a456426614174000")).reply
      = .error ⟨429, ⟨429, "too many requests"⟩⟩ ∧
    ((⟨Limiter.New, .roundRobin ⟨[⟨7, true, 0⟩], 0⟩, false⟩ : Balancer).Forward (fun _ _ => 0)
        (fun k => .ok ⟨"client", k, 1, 1⟩) uuid.Validate (fun _ => 0) 0 false 0 false
        (some "123e4567e89b12d3a456426614174000")).reply
      = .proxied ⟨7, true, 0⟩ ∧
    ¬ (∀ (Has : String → Except String Client) (header : Option String),
        header.getD "" ≠ "" → canonicalUUIDSpec (header.getD "") = false →
        ((⟨Limiter.New, .roundRobin ⟨[⟨7, true, 0⟩], 0⟩, false⟩ : Balancer).Forward
          (fun _ _ => 0) Has uuid.Validate (fun _ => 0) 0 false 0 false header).reply
          = .error ⟨401, ⟨401, "invalid client key"⟩⟩) := by
  refine ⟨by decide, by decide, by decide, by decide, ?_⟩
  intro h
  have := h (fun _ => .error "down") (some "123e4567e89b12d3a456426614174000")
    (by decide) (by decide)
  revert this
  decide

/-- What the missing `defer` costs.  When `strategy.Next` panics under `b.mu`,
the mutex stays held, and every later request that the limiter admits waits at
`b.mu.Lock()`: it gets no answer, whatever the endpoints are by then. -/
theorem Forward_blocked_after_panic (oor : Int → Nat → Nat)
    (Has : String → Except String Client) (uuidValidate : String → Bool)
    (sample : Nat → Nat) (fuel : Nat) (trackConnections : Bool) (now : Int) (ctxDone : Bool)
    (header : Option String) (b : Balancer) (msg : String)
    (hr : (b.Forward oor Has uuidValidate sample fuel trackConnections now ctxDone header).reply
      = .panicked msg) :
    (b.Forward oor Has uuidValidate sample fuel trackConnections now ctxDone header).balancer.mu
      = true ∧
    ∀ (b2 : Balancer) (sample2 : Nat → Nat) (fuel2 : Nat) (track2 : Bool) (now2 : Int)
      (ctxDone2 : Bool) (header2 : Option String),
      b2.mu = true → header2.getD "" ≠ "" → uuidValidate (header2.getD "") = true →
      (b2.limiter.Available oor Has now2 (header2.getD "")).1 = true →
      (b2.Forward oor Has uuidValidate sample2 fuel2 track2 now2 ctxDone2 header2).reply
        = .blocked := by
  constructor
  · by_cases h : header.getD "" = ""
    · rw [Forward_missing_key oor Has uuidValidate sample fuel trackConnections now ctxDone
        header b h] at hr
      simp at hr
    · cases hv : uuidValidate (header.getD "") with
      | false =>
        rw [Forward_invalid_key oor Has uuidValidate sample fuel trackConnections now ctxDone
          header b h hv] at hr
        simp at hr
      | true =>
        cases ha : (b.limiter.Available oor Has now (header.getD "")).1 with
        | false =>
          rw [Forward_limited oor Has uuidValidate sample fuel trackConnections now ctxDone
            header b h hv ha] at hr
          simp at hr
        | true =>
          cases hm : b.mu with
          | true =>
            rw [Forward_blocked oor Has uuidValidate sample fuel trackConnections now ctxDone
              header b h hv ha hm] at hr
            simp at hr
          | false =>
            rw [Forward_admitted oor Has uuidValidate sample fuel trackConnections now ctxDone
              header b h hv ha hm] at hr ⊢
            cases hn : b.strategy.Next sample fuel with
            | panicked m => rfl
            | running => simp [hn] at hr
            | returned p =>
              obtain ⟨e, s⟩ := p
              cases e with
              | none => simp [hn] at hr
              | some e =>
                by_cases ht : trackConnections = true
                · simp [hn, ht] at hr
                · simp [hn, ht] at hr
  · intro b2 sample2 fuel2 track2 now2 ctxDone2 header2 hm h hv ha
    rw [Forward_blocked oor Has uuidValidate sample2 fuel2 track2 now2 ctxDone2 header2 b2
      h hv ha hm]

/-! ## `Forward`: ordering and short-circuit -/

/-- The ways a request runs through `Forward`. -/
theorem Forward_cases (oor : Int → Nat → Nat) (Has : String → Except String Client)
    (uuidValidate : String → Bool) (sample : Nat → Nat) (fuel : Nat)
    (trackConnections : Bool) (now : Int) (ctxDone : Bool) (header : Option String)
    (b : Balancer) :
    ((header.getD "" = "" ∨ uuidValidate (header.getD "") = false) ∧
      (∃ msg,
        (b.Forward oor Has uuidValidate sample fuel trackConnections now ctxDone header).reply
          = .error (ResponseError msg StatusUnauthorized)) ∧
      (b.Forward oor Has uuidValidate sample fuel trackConnections now ctxDone header).trace = [] ∧
      (b.Forward oor Has uuidValidate sample fuel trackConnections now ctxDone header).balancer
        = b) ∨
    (header.getD "" ≠ "" ∧ uuidValidate (header.getD "") = true ∧
      (b.limiter.Available oor Has now (header.getD "")).1 = false ∧
      (b.Forward oor Has uuidValidate sample fuel trackConnections now ctxDone header).reply
        = .error (ResponseError "too many requests" StatusTooManyRequests) ∧
      (b.Forward oor Has uuidValidate sample fuel trackConnections now ctxDone header).trace
        = [.limiterAvailable (header.getD "")] ∧
      (b.Forward oor Has uuidValidate sample fuel trackConnections now ctxDone header).balancer
        = { b with limiter := (b.limiter.Available oor Has now (header.getD "")).2 }) ∨
    (header.getD "" ≠ "" ∧ uuidValidate (header.getD "") = true ∧
      (b.limiter.Available oor Has now (header.getD "")).1 = true ∧
      (b.Forward oor Has uuidValidate sample fuel trackConnections now ctxDone
        header).balancer.limiter = (b.limiter.Available oor Has now (header.getD "")).2 ∧
      ((∃ s, b.strategy.Next sample fuel = .returned (none, s) ∧
          (b.Forward oor Has uuidValidate sample fuel trackConnections now ctxDone header).reply
            = .error (ResponseError "no available endpoint" StatusServiceUnavailable) ∧
          (b.Forward oor Has uuidValidate sample fuel trackConnections now ctxDone header).trace
            = [.limiterAvailable (header.getD ""), .strategyNext] ∧
          (b.Forward oor Has uuidValidate sample fuel trackConnections now ctxDone
            header).balancer.strategy = s) ∨
        ((∀ r, (b.Forward oor Has uuidValidate sample fuel trackConnections now ctxDone
            header).reply ≠ .error r) ∧
          ∃ rest, (b.Forward oor Has uuidValidate sample fuel trackConnections now ctxDone
            header).trace = .limiterAvailable (header.getD "") :: .strategyNext :: rest ∧
            ∀ ev ∈ rest, ∃ e s, b.strategy.Next sample fuel = .returned (some e, s) ∧
              (ev = .newConnection e.id ∨ ev = .proxyServeHTTP e.id)) ∨
        (b.mu = true ∧
          (b.Forward oor Has uuidValidate sample fuel trackConnections now ctxDone header).reply
            = .blocked ∧
          (b.Forward oor Has uuidValidate sample fuel trackConnections now ctxDone header).trace
            = [.limiterAvailable (header.getD "")]))) := by
  by_cases h : header.getD "" = ""
  · left
    rw [Forward_missing_key oor Has uuidValidate sample fuel trackConnections now ctxDone
      header b h]
    exact ⟨Or.inl h, ⟨_, rfl⟩, rfl, rfl⟩
  · cases hv : uuidValidate (header.getD "") with
    | false =>
      left
      rw [Forward_invalid_key oor Has uuidValidate sample fuel trackConnections now ctxDone
        header b h hv]
      exact ⟨Or.inr rfl, ⟨_, rfl⟩, rfl, rfl⟩
    | true =>
      right
      cases ha : (b.limiter.Available oor Has now (header.getD "")).1 with
      | false =>
        left
        rw [Forward_limited oor Has uuidValidate sample fuel trackConnections now ctxDone
          header b h hv ha]
        exact ⟨h, rfl, rfl, rfl, rfl, rfl⟩
      | true =>
        right
        cases hm : b.mu with
        | true =>
          rw [Forward_blocked oor Has uuidValidate sample fuel trackConnections now ctxDone
            header b h hv ha hm]
          exact ⟨h, rfl, rfl, rfl, Or.inr (Or.inr ⟨rfl, rfl, rfl⟩)⟩
        | false =>
          rw [Forward_admitted oor Has uuidValidate sample fuel trackConnections now ctxDone
            header b h hv ha hm]
          refine ⟨h, rfl, rfl, ?_⟩
          cases hn : b.strategy.Next sample fuel with
          | panicked msg =>
            refine ⟨rfl, Or.inr (Or.inl ⟨fun r hr => by simp at hr, [], rfl, ?_⟩)⟩
            intro ev hev
            simp at hev
          | running =>
            refine ⟨rfl, Or.inr (Or.inl ⟨fun r hr => by simp at hr, [], rfl, ?_⟩)⟩
            intro ev hev
            simp at hev
          | returned p =>
            obtain ⟨e, s⟩ := p
            cases e with
            | none => exact ⟨rfl, Or.inl ⟨s, rfl, rfl, rfl, rfl⟩⟩
            | some e =>
              by_cases ht : trackConnections = true
              · simp only [ht, if_true]
                refine ⟨trivial, Or.inr (Or.inl ⟨fun r hr => by simp at hr,
                  [.newConnection e.id, .proxyServeHTTP e.id], rfl, ?_⟩)⟩
                intro ev hev
                refine ⟨e, s, rfl, ?_⟩
                simpa using hev
              · have ht' : trackConnections = false := by simpa using ht
                simp only [ht', Bool.false_eq_true, if_false]
                refine ⟨trivial, Or.inr (Or.inl ⟨fun r hr => by simp at hr,
                  [.proxyServeHTTP e.id], rfl, ?_⟩)⟩
                intro ev hev
                refine ⟨e, s, rfl, ?_⟩
                right
                simpa using hev

theorem Limiter_Available_true (oor : Int → Nat → Nat) (Has : String → Except String Client)
    (now : Int) (key : String) (l : Limiter)
    (h : (l.Available oor Has now key).1 = true) :
    ∃ b0 : TokenBucket,
      (l.buckets key = some b0 ∨
        (l.buckets key = none ∧
          ∃ client, Has key = .ok client ∧ b0 = NewBucket client.Capacity client.Rate)) ∧
      (b0.Available oor now).1 = true ∧
      (l.Available oor Has now key).2.buckets key = some (b0.Available oor now).2 ∧
      (b0.Available oor now).2.tokens + 1 = (b0.refill oor now).tokens ∧
      ∀ k, k ≠ key → (l.Available oor Has now key).2.buckets k = l.buckets k := by
  have hspec : ∀ b0 : TokenBucket, (b0.Available oor now).1 = true →
      (b0.Available oor now).2.tokens + 1 = (b0.refill oor now).tokens := by
    intro b0 h1
    have := (Available_spec oor now b0).2.2
    rw [h1] at this
    simpa using this
  cases hb : l.buckets key with
  | some b0 =>
    have ha : l.Available oor Has now key
        = ((b0.Available oor now).1,
            ⟨Function.update l.buckets key (some (b0.Available oor now).2)⟩) := by
      unfold Limiter.Available
      simp only [hb]
    rw [ha] at h ⊢
    refine ⟨b0, Or.inl rfl, h, by simp, hspec b0 h, ?_⟩
    intro k hk
    simp [Function.update, hk]
  | none =>
    cases hc : Has key with
    | error err =>
      exfalso
      have ha : l.Available oor Has now key = (false, l) := by
        unfold Limiter.Available
        simp only [hb, hc]
      rw [ha] at h
      simp at h
    | ok client =>
      have ha := Limiter_Available_miss oor Has now key l client hb hc
      rw [ha] at h ⊢
      refine ⟨NewBucket client.Capacity client.Rate, Or.inr ⟨rfl, client, rfl, rfl⟩, h,
        by simp, hspec _ h, ?_⟩
      intro k hk
      simp [Function.update, hk]

/-- C13. The order of `Forward` and its short-circuit.  The limiter is called
only for a key that passed both checks, and first; the strategy is called only
after the limiter admitted the request; an endpoint is touched only after the
strategy returned it.  On a 401 response nothing was called and the balancer
(bucket map, tokens, cursor) is unchanged; on a 429 response the limiter was
called once, the strategy is unchanged and no endpoint was touched; on a 503
response of `Forward` the limiter was called exactly once and returned true, one
token of the client's bucket was taken, the strategy was called once and
`NewConnection` was not called. -/
theorem C13_Forward_order_short_circuit (oor : Int → Nat → Nat)
    (Has : String → Except String Client) (uuidValidate : String → Bool)
    (sample : Nat → Nat) (fuel : Nat) (trackConnections : Bool) (now : Int) (ctxDone : Bool)
    (header : Option String) (b : Balancer) :
    (∀ k, Event.limiterAvailable k ∈
        (b.Forward oor Has uuidValidate sample fuel trackConnections now ctxDone header).trace →
      k = header.getD "" ∧ header.getD "" ≠ "" ∧ uuidValidate (header.getD "") = true ∧
      (b.Forward oor Has uuidValidate sample fuel trackConnections now ctxDone
        header).trace.head? = some (.limiterAvailable k)) ∧
    (Event.strategyNext ∈
        (b.Forward oor Has uuidValidate sample fuel trackConnections now ctxDone header).trace →
      (b.limiter.Available oor Has now (header.getD "")).1 = true ∧
      ∃ rest, (b.Forward oor Has uuidValidate sample fuel trackConnections now ctxDone
        header).trace = .limiterAvailable (header.getD "") :: .strategyNext :: rest ∧
        Event.strategyNext ∉ rest) ∧
    (∀ id, (Event.newConnection id ∈
          (b.Forward oor Has uuidValidate sample fuel trackConnections now ctxDone
            header).trace ∨
        Event.proxyServeHTTP id ∈
          (b.Forward oor Has uuidValidate sample fuel trackConnections now ctxDone
            header).trace) →
      (b.limiter.Available oor Has now (header.getD "")).1 = true ∧
      ∃ e s, b.strategy.Next sample fuel = .returned (some e, s) ∧ e.id = id) ∧
    (∀ r, (b.Forward oor Has uuidValidate sample fuel trackConnections now ctxDone
        header).reply = .error r → r.status = 401 →
      (b.Forward oor Has uuidValidate sample fuel trackConnections now ctxDone header).trace = [] ∧
      (b.Forward oor Has uuidValidate sample fuel trackConnections now ctxDone header).balancer
        = b) ∧
    (∀ r, (b.Forward oor Has uuidValidate sample fuel trackConnections now ctxDone
        header).reply = .error r → r.status = 429 →
      (b.Forward oor Has uuidValidate sample fuel trackConnections now ctxDone header).trace
        = [.limiterAvailable (header.getD "")] ∧
      (b.limiter.Available oor Has now (header.getD "")).1 = false ∧
      (b.Forward oor Has uuidValidate sample fuel trackConnections now ctxDone
        header).balancer.limiter = (b.limiter.Available oor Has now (header.getD "")).2 ∧
      (b.Forward oor Has uuidValidate sample fuel trackConnections now ctxDone
        header).balancer.strategy = b.strategy) ∧
    (∀ r, (b.Forward oor Has uuidValidate sample fuel trackConnections now ctxDone
        header).reply = .error r → r.status = 503 →
      (b.Forward oor Has uuidValidate sample fuel trackConnections now ctxDone header).trace
        = [.limiterAvailable (header.getD ""), .strategyNext] ∧
      (b.limiter.Available oor Has now (header.getD "")).1 = true ∧
      (b.Forward oor Has uuidValidate sample fuel trackConnections now ctxDone
        header).balancer.limiter = (b.limiter.Available oor Has now (header.getD "")).2 ∧
      ∃ b0 : TokenBucket,
        (b.limiter.buckets (header.getD "") = some b0 ∨
          (b.limiter.buckets (header.getD "") = none ∧
            ∃ client, Has (header.getD "") = .ok client ∧
              b0 = NewBucket client.Capacity client.Rate)) ∧
        (b.Forward oor Has uuidValidate sample fuel trackConnections now ctxDone
          header).balancer.limiter.buckets (header.getD "") = some (b0.Available oor now).2 ∧
        (b0.Available oor now).2.tokens + 1 = (b0.refill oor now).tokens) := by
  have hc := Forward_cases oor Has uuidValidate sample fuel trackConnections now ctxDone header b
  generalize b.Forward oor Has uuidValidate sample fuel trackConnections now ctxDone header
    = res at hc ⊢
  rcases hc with ⟨_, ⟨msg, hrep⟩, htr, hbal⟩ | ⟨hk, hv, ha, hrep, htr, hbal⟩ |
    ⟨hk, hv, ha, hlim, hrest⟩
  · -- rejected before the limiter
    refine ⟨?_, ?_, ?_, ?_, ?_, ?_⟩
    · intro k hmem; rw [htr] at hmem; simp at hmem
    · intro hmem; rw [htr] at hmem; simp at hmem
    · intro id hmem; rw [htr] at hmem; simp at hmem
    · intro r _ _; exact ⟨htr, hbal⟩
    · intro r hr hs
      rw [hrep] at hr
      cases hr
      simp [ResponseError, StatusUnauthorized] at hs
    · intro r hr hs
      rw [hrep] at hr
      cases hr
      simp [ResponseError, StatusUnauthorized] at hs
  · -- rejected by the limiter
    refine ⟨?_, ?_, ?_, ?_, ?_, ?_⟩
    · intro k hmem
      rw [htr] at hmem ⊢
      simp only [List.mem_singleton, Event.limiterAvailable.injEq] at hmem
      subst hmem
      exact ⟨rfl, hk, hv, rfl⟩
    · intro hmem; rw [htr] at hmem; simp at hmem
    · intro id hmem; rw [htr] at hmem; simp at hmem
    · intro r hr hs
      rw [hrep] at hr
      cases hr
      simp [ResponseError, StatusTooManyRequests] at hs
    · intro r _ _
      rw [hbal]
      exact ⟨htr, ha, rfl, rfl⟩
    · intro r hr hs
      rw [hrep] at hr
      cases hr
      simp [ResponseError, StatusTooManyRequests] at hs
  · -- admitted
    rcases hrest with ⟨s, hn, hrep, htr, hstr⟩ | ⟨hne, rest, htr, hev⟩ | ⟨_, hrep, htr⟩
    · refine ⟨?_, ?_, ?_, ?_, ?_, ?_⟩
      · intro k hmem
        rw [htr] at hmem ⊢
        simp only [List.mem_cons, Event.limiterAvailable.injEq, List.mem_singleton,
          reduceCtorEq, or_false, List.not_mem_nil] at hmem
        subst hmem
        exact ⟨rfl, hk, hv, rfl⟩
      · intro _
        exact ⟨ha, [], htr, by simp⟩
      · intro id hmem; rw [htr] at hmem; simp at hmem
      · intro r hr hs
        rw [hrep] at hr
        cases hr
        simp [ResponseError, StatusServiceUnavailable] at hs
      · intro r hr hs
        rw [hrep] at hr
        cases hr
        simp [ResponseError, StatusServiceUnavailable] at hs
      · intro r _ _
        obtain ⟨b0, h1, _, h3, h4, _⟩ :=
          Limiter_Available_true oor Has now (header.getD "") b.limiter ha
        refine ⟨htr, ha, hlim, b0, h1, ?_, h4⟩
        rw [hlim]
        exact h3
    · have hnot : Event.strategyNext ∉ rest := by
        intro hmem
        obtain ⟨e, s, _, h1 | h1⟩ := hev _ hmem <;> cases h1
      have hnotl : ∀ k, Event.limiterAvailable k ∉ rest := by
        intro k hmem
        obtain ⟨e, s, _, h1 | h1⟩ := hev _ hmem <;> cases h1
      refine ⟨?_, ?_, ?_, ?_, ?_, ?_⟩
      · intro k hmem
        rw [htr] at hmem ⊢
        simp only [List.mem_cons, Event.limiterAvailable.injEq, reduceCtorEq, false_or] at hmem
        rcases hmem with h1 | h1
        · subst h1
          exact ⟨rfl, hk, hv, rfl⟩
        · exact absurd h1 (hnotl k)
      · intro _
        exact ⟨ha, rest, htr, hnot⟩
      · intro id hmem
        rw [htr] at hmem
        simp only [List.mem_cons, reduceCtorEq, false_or] at hmem
        refine ⟨ha, ?_⟩
        rcases hmem with hmem | hmem
        · obtain ⟨e, s, hn, h1 | h1⟩ := hev _ hmem
          · cases h1; exact ⟨e, s, hn, rfl⟩
          · cases h1
        · obtain ⟨e, s, hn, h1 | h1⟩ := hev _ hmem
          · cases h1
          · cases h1; exact ⟨e, s, hn, rfl⟩
      · intro r hr _; exact absurd hr (hne r)
      · intro r hr _; exact absurd hr (hne r)
      · intro r hr _; exact absurd hr (hne r)
    · -- admitted, waiting for the mutex
      refine ⟨?_, ?_, ?_, ?_, ?_, ?_⟩
      · intro k hmem
        rw [htr] at hmem ⊢
        simp only [List.mem_singleton, Event.limiterAvailable.injEq] at hmem
        subst hmem
        exact ⟨rfl, hk, hv, rfl⟩
      · intro hmem; rw [htr] at hmem; simp at hmem
      · intro id hmem; rw [htr] at hmem; simp at hmem
      · intro r hr _; rw [hrep] at hr; cases hr
      · intro r hr _; rw [hrep] at hr; cases hr
      · intro r hr _; rw [hrep] at hr; cases hr

set_option maxRecDepth 8000 in
theorem C13_Forward_order_short_circuit_witness :
    (Event.limiterAvailable "123e4567-e89b-12d3-a456-426614174000" ∈
        ((⟨Limiter.New, .roundRobin ⟨[], 0⟩, false⟩ : Balancer).Forward (fun _ _ => 0)
          (fun _ => .error "down") uuid.Validate (fun _ => 0) 0 false 0 false
          (some "123e4567-e89b-12d3-a456-426614174000")).trace ∧
      ((⟨Limiter.New, .roundRobin ⟨[], 0⟩, false⟩ : Balancer).Forward (fun _ _ => 0)
          (fun _ => .error "down") uuid.Validate (fun _ => 0) 0 false 0 false
          (some "123e4567-e89b-12d3-a456-426614174000")).trace.head? = some (.limiterAvailable "123e4567-e89b-12d3-a456-426614174000")) ∧
    (Event.strategyNext ∈
        ((⟨Limiter.New, .roundRobin ⟨[], 0⟩, false⟩ : Balancer).Forward (fun _ _ => 0)
          (fun k => .ok ⟨"client", k, 1, 1⟩) uuid.Validate (fun _ => 0) 0 false 0 false
          (some "123e4567-e89b-12d3-a456-426614174000")).trace ∧
      (Limiter.New.Available (fun _ _ => 0) (fun k => .ok ⟨"client", k, 1, 1⟩) 0 "123e4567-e89b-12d3-a456-426614174000").1
        = true) ∧
    (Event.newConnection 7 ∈
        ((⟨Limiter.New, .roundRobin ⟨[⟨7, true, 0⟩], 0⟩, false⟩ : Balancer).Forward (fun _ _ => 0)
          (fun k => .ok ⟨"client", k, 1, 1⟩) uuid.Validate (fun _ => 0) 0 true 0 false
          (some "123e4567-e89b-12d3-a456-426614174000")).trace ∧
      (Limiter.New.Available (fun _ _ => 0) (fun k => .ok ⟨"client", k, 1, 1⟩) 0 "123e4567-e89b-12d3-a456-426614174000").1
        = true) ∧
    (((⟨Limiter.New, .roundRobin ⟨[], 0⟩, false⟩ : Balancer).Forward (fun _ _ => 0)
        (fun _ => .error "down") uuid.Validate (fun _ => 0) 0 false 0 false none).trace
        = [] ∧
      ((⟨Limiter.New, .roundRobin ⟨[], 0⟩, false⟩ : Balancer).Forward (fun _ _ => 0)
        (fun _ => .error "down") uuid.Validate (fun _ => 0) 0 false 0 false none).balancer
        = ⟨Limiter.New, .roundRobin ⟨[], 0⟩, false⟩) ∧
    (((⟨Limiter.New, .roundRobin ⟨[], 0⟩, false⟩ : Balancer).Forward (fun _ _ => 0)
        (fun _ => .error "down") uuid.Validate (fun _ => 0) 0 false 0 false
        (some "123e4567-e89b-12d3-a456-426614174000")).trace = [.limiterAvailable "123e4567-e89b-12d3-a456-426614174000"]) ∧
    (((⟨Limiter.New, .roundRobin ⟨[], 0⟩, false⟩ : Balancer).Forward (fun _ _ => 0)
        (fun k => .ok ⟨"client", k, 1, 1⟩) uuid.Validate (fun _ => 0) 0 false 0 false
        (some "123e4567-e89b-12d3-a456-426614174000")).trace = [.limiterAvailable "123e4567-e89b-12d3-a456-426614174000", .strategyNext]) :=
  ⟨⟨by decide,
    ((C13_Forward_order_short_circuit (fun _ _ => 0) (fun _ => .error "down") uuid.Validate
      (fun _ => 0) 0 false 0 false (some "123e4567-e89b-12d3-a456-426614174000") ⟨Limiter.New, .roundRobin ⟨[], 0⟩, false⟩).1 "123e4567-e89b-12d3-a456-426614174000"
      (by decide)).2.2.2⟩,
   ⟨by decide,
    ((C13_Forward_order_short_circuit (fun _ _ => 0) (fun k => .ok ⟨"client", k, 1, 1⟩)
      uuid.Validate (fun _ => 0) 0 false 0 false (some "123e4567-e89b-12d3-a456-426614174000")
      ⟨Limiter.New, .roundRobin ⟨[], 0⟩, false⟩).2.1 (by decide)).1⟩,
   ⟨by decide,
    ((C13_Forward_order_short_circuit (fun _ _ => 0) (fun k => .ok ⟨"client", k, 1, 1⟩)
      uuid.Validate (fun _ => 0) 0 true 0 false (some "123e4567-e89b-12d3-a456-426614174000")
      ⟨Limiter.New, .roundRobin ⟨[⟨7, true, 0⟩], 0⟩, false⟩).2.2.1 7 (Or.inl (by decide))).1⟩,
   (C13_Forward_order_short_circuit (fun _ _ => 0) (fun _ => .error "down") uuid.Validate
      (fun _ => 0) 0 false 0 false none ⟨Limiter.New, .roundRobin ⟨[], 0⟩, false⟩).2.2.2.1
      ⟨401, ⟨401, "client key is not found"⟩⟩ rfl rfl,
   ((C13_Forward_order_short_circuit (fun _ _ => 0) (fun _ => .error "down") uuid.Validate
      (fun _ => 0) 0 false 0 false (some "123e4567-e89b-12d3-a456-426614174000") ⟨Limiter.New, .roundRobin ⟨[], 0⟩, false⟩).2.2.2.2.1
      ⟨429, ⟨429, "too many requests"⟩⟩ rfl rfl).1,
   ((C13_Forward_order_short_circuit (fun _ _ => 0) (fun k => .ok ⟨"client", k, 1, 1⟩)
      uuid.Validate (fun _ => 0) 0 false 0 false (some "123e4567-e89b-12d3-a456-426614174000")
      ⟨Limiter.New, .roundRobin ⟨[], 0⟩, false⟩).2.2.2.2.2
      ⟨503, ⟨503, "no available endpoint"⟩⟩ rfl rfl).1⟩

set_option maxRecDepth 8000 in
theorem C12_Forward_rejection_table_witness :
    ((⟨Limiter.New, .roundRobin ⟨[], 0⟩, false⟩ : Balancer).Forward (fun _ _ => 0)
        (fun _ => .error "down") uuid.Validate (fun _ => 0) 0 false 0 false none).reply
      = .error ⟨401, ⟨401, "client key is not found"⟩⟩ ∧
    ((⟨Limiter.New, .roundRobin ⟨[], 0⟩, false⟩ : Balancer).Forward (fun _ _ => 0)
        (fun _ => .error "down") uuid.Validate (fun _ => 0) 0 false 0 false
        (some "123e4567-e89b-12d3-a456-42661417400g")).reply
      = .error ⟨401, ⟨401, "invalid client key"⟩⟩ ∧
    uuid.Validate "123e4567-e89b-12d3-a456-426614174000" = true ∧
    ((⟨Limiter.New, .roundRobin ⟨[], 0⟩, false⟩ : Balancer).Forward (fun _ _ => 0)
        (fun _ => .error "down") uuid.Validate (fun _ => 0) 0 false 0 false
        (some "123e4567-e89b-12d3-a456-426614174000")).reply
      = .error ⟨429, ⟨429, "too many requests"⟩⟩ ∧
    ((⟨Limiter.New, .roundRobin ⟨[], 0⟩, false⟩ : Balancer).Forward (fun _ _ => 0)
        (fun k => .ok ⟨"client", k, 1, 1⟩) uuid.Validate (fun _ => 0) 0 false 0 false
        (some "123e4567-e89b-12d3-a456-426614174000")).reply
      = .error ⟨503, ⟨503, "no available endpoint"⟩⟩ ∧
    ((⟨401, ⟨401, "client key is not found"⟩⟩ : ErrorResponse).body.Code
        = (⟨401, ⟨401, "client key is not found"⟩⟩ : ErrorResponse).status ∧
      ((⟨401, ⟨401, "client key is not found"⟩⟩ : ErrorResponse).status = 401 ∨
        (⟨401, ⟨401, "client key is not found"⟩⟩ : ErrorResponse).status = 429 ∨
        (⟨401, ⟨401, "client key is not found"⟩⟩ : ErrorResponse).status = 503)) :=
  ⟨(C12_Forward_rejection_table (fun _ _ => 0) (fun _ => .error "down")
      (fun _ => 0) 0 false 0 false none ⟨Limiter.New, .roundRobin ⟨[], 0⟩, false⟩).1 rfl,
   (C12_Forward_rejection_table (fun _ _ => 0) (fun _ => .error "down")
      (fun _ => 0) 0 false 0 false (some "123e4567-e89b-12d3-a456-42661417400g")
      ⟨Limiter.New, .roundRobin ⟨[], 0⟩, false⟩).2.1 (by decide) (by decide),
   ((C12_Forward_rejection_table (fun _ _ => 0) (fun _ => .error "down")
      (fun _ => 0) 0 false 0 false (some "123e4567-e89b-12d3-a456-426614174000")
      ⟨Limiter.New, .roundRobin ⟨[], 0⟩, false⟩).2.2.1 (by decide)).2,
   (C12_Forward_rejection_table (fun _ _ => 0) (fun _ => .error "down")
      (fun _ => 0) 0 false 0 false (some "123e4567-e89b-12d3-a456-426614174000")
      ⟨Limiter.New, .roundRobin ⟨[], 0⟩, false⟩).2.2.2.1 (by decide) (by decide) rfl,
   (C12_Forward_rejection_table (fun _ _ => 0) (fun k => .ok ⟨"client", k, 1, 1⟩)
      (fun _ => 0) 0 false 0 false (some "123e4567-e89b-12d3-a456-426614174000")
      ⟨Limiter.New, .roundRobin ⟨[], 0⟩, false⟩).2.2.2.2.1 (by decide) (by decide) (by decide)
      rfl (.roundRobin ⟨[], 0⟩) rfl,
   (C12_Forward_rejection_table (fun _ _ => 0) (fun _ => .error "down")
      (fun _ => 0) 0 false 0 false none ⟨Limiter.New, .roundRobin ⟨[], 0⟩, false⟩).2.2.2.2.2.1
      ⟨401, ⟨401, "client key is not found"⟩⟩
      (by decide)⟩

/-! ## client validation -/

theorem Client_Valid_none_iff (c : Client) :
    c.Valid = none ↔ c.Name ≠ "" ∧ 0 < c.Capacity ∧ 0 < c.Rate := by
  unfold Client.Valid
  by_cases h1 : c.Name = ""
  · simp [h1]
  · by_cases h2 : c.Capacity = 0
    · simp [h1, h2]
    · by_cases h3 : c.Rate = 0
      · simp [h1, h2, h3]
      · simp [h1, h2, h3, Nat.pos_of_ne_zero h2, Nat.pos_of_ne_zero h3]

/-- C14. Client validation.  `Client.Valid` returns nil exactly when the name is
non-empty, the capacity positive and the rate positive; its errors are "empty
name", "null capacity" and "null rate", in that order of checks.  Whenever
`Valid` returns an error, `AddClient` answers 400 with that error as message and
does not call the registry's `Add`; after a valid client it calls `Add` once. -/
theorem C14_Client_Valid_and_AddClient (c : Client) (Add : Client → Except String String) :
    (c.Valid = none ↔ c.Name ≠ "" ∧ 0 < c.Capacity ∧ 0 < c.Rate) ∧
    (c.Name = "" → c.Valid = some "empty name") ∧
    (c.Name ≠ "" → c.Capacity = 0 → c.Valid = some "null capacity") ∧
    (c.Name ≠ "" → c.Capacity ≠ 0 → c.Rate = 0 → c.Valid = some "null rate") ∧
    (∀ err, c.Valid = some err →
      AddClient (.ok c) Add = (.error ⟨400, ⟨400, err⟩⟩, [])) ∧
    (c.Valid = none → (AddClient (.ok c) Add).2 = [c]) := by
  refine ⟨Client_Valid_none_iff c, ?_, ?_, ?_, ?_, ?_⟩
  · intro h
    unfold Client.Valid
    simp [h]
  · intro h1 h2
    unfold Client.Valid
    simp [h1, h2]
  · intro h1 h2 h3
    unfold Client.Valid
    simp [h1, h2, h3]
  · intro err h
    unfold AddClient
    simp only [h]
    rfl
  · intro h
    unfold AddClient
    simp only [h]
    cases Add c <;> rfl

theorem C14_Client_Valid_and_AddClient_witness :
    ((⟨"api", "", 10, 1⟩ : Client).Valid = none) ∧
    ((⟨"", "", 10, 1⟩ : Client).Valid = some "empty name") ∧
    ((⟨"api", "", 0, 1⟩ : Client).Valid = some "null capacity") ∧
    ((⟨"api", "", 10, 0⟩ : Client).Valid = some "null rate") ∧
    (AddClient (.ok ⟨"api", "", 0, 1⟩) (fun _ => .ok "key")
      = (.error ⟨400, ⟨400, "null capacity"⟩⟩, [])) ∧
    (AddClient (.ok ⟨"api", "", 10, 0⟩) (fun _ => .ok "key")
      = (.error ⟨400, ⟨400, "null rate"⟩⟩, [])) ∧
    ((AddClient (.ok ⟨"api", "", 10, 1⟩) (fun _ => .ok "key")).2 = [⟨"api", "", 10, 1⟩]) :=
  ⟨(C14_Client_Valid_and_AddClient ⟨"api", "", 10, 1⟩ (fun _ => .ok "key")).1.mpr
      ⟨by decide, by decide, by decide⟩,
   (C14_Client_Valid_and_AddClient ⟨"", "", 10, 1⟩ (fun _ => .ok "key")).2.1 rfl,
   (C14_Client_Valid_and_AddClient ⟨"api", "", 0, 1⟩ (fun _ => .ok "key")).2.2.1
      (by decide) rfl,
   (C14_Client_Valid_and_AddClient ⟨"api", "", 10, 0⟩ (fun _ => .ok "key")).2.2.2.1
      (by decide) (by decide) rfl,
   (C14_Client_Valid_and_AddClient ⟨"api", "", 0, 1⟩ (fun _ => .ok "key")).2.2.2.2.1
      "null capacity" (by decide),
   (C14_Client_Valid_and_AddClient ⟨"api", "", 10, 0⟩ (fun _ => .ok "key")).2.2.2.2.1
      "null rate" (by decide),
   (C14_Client_Valid_and_AddClient ⟨"api", "", 10, 1⟩ (fun _ => .ok "key")).2.2.2.2.2
      (by decide)⟩

/-! ## health probe -/

theorem pingLoop_all_failed (fuel : Nat) :
    ∀ (k : Nat) (current : Int) (tries : Nat), 0 ≤ current → current ≤ 5 →
      Endpoint.pingLoop (fun _ => .failed) 5 (fuel + (5 - current).toNat + 1) k current tries
        = some (false, tries + (5 - current).toNat + 1) := by
  intro k current tries h0 h5
  obtain ⟨n, hn⟩ : ∃ n : Nat, (5 - current).toNat = n := ⟨_, rfl⟩
  induction n generalizing k current tries with
  | zero =>
    have hc : current = 5 := by omega
    subst hc
    rw [hn]
    simp [Endpoint.pingLoop]
  | succ n ih =>
    rw [hn]
    have hlt : current < 5 := by omega
    have e : fuel + (n + 1) + 1 = (fuel + n + 1) + 1 := by omega
    rw [e]
    unfold Endpoint.pingLoop
    simp only [hlt, if_true]
    have hn' : (5 - (current + 1)).toNat = n := by omega
    have := ih (k + 1) (current + 1) (tries + 1) (by omega) (by omega) hn'
    rw [hn'] at this
    rw [this]
    congr 2
    omega

theorem pingLoop_never_success (probes : Nat → Probe) (attempts : Int)
    (h : ∀ k, ∃ code, probes k = .status code ∧ ¬ (200 ≤ code ∧ code < 300)) :
    ∀ fuel k current tries, Endpoint.pingLoop probes attempts fuel k current tries = none := by
  intro fuel
  induction fuel with
  | zero => intro k current tries; rfl
  | succ f ih =>
    intro k current tries
    obtain ⟨code, hp, hc⟩ := h k
    unfold Endpoint.pingLoop
    simp only [hp, hc, if_false]
    exact ih _ _ _

/-- C15 at the failing inputs.  With `attempts = 5` and every `client.Get`
failing, `pingEndpoint` returns unhealthy only at the sixth try: the counter is
compared before it is incremented.  With every response carrying status 300 the
probe never returns, whatever the number of turns: a response outside
`[200, 300)` neither counts as a try nor ends the loop.  A single response with
status 299 makes the probe healthy at the first try. -/
theorem C15_pingEndpoint_tries (fuel : Nat) :
    Endpoint.pingEndpoint (fun _ => .failed) attempts (fuel + 6) = some (false, 6) ∧
    Endpoint.pingEndpoint (fun _ => .status 300) attempts fuel = none ∧
    Endpoint.pingEndpoint (fun _ => .status 299) attempts (fuel + 1) = some (true, 1) := by
  refine ⟨?_, ?_, ?_⟩
  · have := pingLoop_all_failed fuel 0 0 0 (by norm_num) (by norm_num)
    simpa [Endpoint.pingEndpoint, attempts] using this
  · exact pingLoop_never_success _ _ (fun _ => ⟨300, rfl, by norm_num⟩) fuel 0 0 0
  · simp [Endpoint.pingEndpoint, Endpoint.pingLoop]

theorem pingLoop_true_sound (probes : Nat → Probe) (attempts : Int) :
    ∀ fuel k current tries n,
      Endpoint.pingLoop probes attempts fuel k current tries = some (true, n) →
      ∃ j code, k ≤ j ∧ probes j = .status code ∧ 200 ≤ code ∧ code < 300 := by
  intro fuel
  induction fuel with
  | zero => intro k current tries n h; simp [Endpoint.pingLoop] at h
  | succ f ih =>
    intro k current tries n h
    unfold Endpoint.pingLoop at h
    cases hp : probes k with
    | cancel =>
      simp only [hp] at h
      obtain ⟨j, code, hj, hrest⟩ := ih _ _ _ _ h
      exact ⟨j, code, by omega, hrest⟩
    | failed =>
      simp only [hp] at h
      by_cases hc : current < attempts
      · simp only [hc, if_true] at h
        obtain ⟨j, code, hj, hrest⟩ := ih _ _ _ _ h
        exact ⟨j, code, by omega, hrest⟩
      · simp [hc] at h
    | status code =>
      simp only [hp] at h
      by_cases hc : 200 ≤ code ∧ code < 300
      · exact ⟨k, code, le_refl k, hp, hc.1, hc.2⟩
      · simp only [hc, if_false] at h
        obtain ⟨j, code', hj, hrest⟩ := ih _ _ _ _ h
        exact ⟨j, code', by omega, hrest⟩

/-! ## configuration built from the command line -/

/-- C17. A configuration that `Load` builds from the command line (both `-port`
and `-endpoints` set) has `Defaults.Capacity = 0` and `Defaults.Rate = 0`
whatever the flags hold; so `Config.Validate` returns an error for it, which is
"null default capacity" when the checks before that one pass, and `New` rejects
it with an error starting "invalid config: ", without going on. -/
theorem C17_cli_config_rejected {β : Type} (visited : List String) (flags : Flags)
    (Unmarshal : String → Except String (List String)) (fromFile : Except String Config)
    (rest : Config → Except String β) (cfg : Config)
    (hport : "port" ∈ visited) (hendpoints : "endpoints" ∈ visited)
    (hload : Load visited flags Unmarshal fromFile = .ok cfg) :
    cfg.Defaults.Capacity = 0 ∧ cfg.Defaults.Rate = 0 ∧
    (∃ err, Config.Validate (some cfg) = some err ∧
      New rest (some cfg) = .error ("invalid config: " ++ err)) ∧
    (cfg.Port ≠ 0 → cfg.Endpoints.length ≠ 0 → cfg.Strategy ∈ strategies →
      cfg.HealthInterval ≠ 0 → cfg.RefillInterval ≠ 0 →
      Config.Validate (some cfg) = some "null default capacity" ∧
      New rest (some cfg) = .error "invalid config: null default capacity") := by
  have hcfg : cfg.Defaults = ⟨0, 0⟩ ∧ cfg.LoggingLevel ∈ logLevels := by
    unfold Load at hload
    simp only [hport, hendpoints, decide_True, Bool.and_self, if_true] at hload
    cases hu : Unmarshal flags.Endpoints with
    | error err => simp [hu] at hload
    | ok endpoints =>
      simp only [hu] at hload
      by_cases hl : flags.LoggingLevel ∈ logLevels
      · simp only [hl, not_true_eq_false, if_false, Except.ok.injEq] at hload
        rw [← hload]
        exact ⟨rfl, hl⟩
      · simp [hl] at hload
  obtain ⟨hdef, hlog⟩ := hcfg
  have hcap : cfg.Defaults.Capacity = 0 := by rw [hdef]
  have hrate : cfg.Defaults.Rate = 0 := by rw [hdef]
  have hnew : ∀ err, Config.Validate (some cfg) = some err →
      New rest (some cfg) = .error ("invalid config: " ++ err) := by
    intro err h
    unfold New
    simp only [h]
  have hval : ∃ err, Config.Validate (some cfg) = some err := by
    unfold Config.Validate
    simp only [hlog, not_true_eq_false, if_false, hcap, if_true]
    split_ifs <;> exact ⟨_, rfl⟩
  refine ⟨hcap, hrate, ?_, ?_⟩
  · obtain ⟨err, herr⟩ := hval
    exact ⟨err, herr, hnew err herr⟩
  · intro h1 h2 h3 h4 h5
    have hv : Config.Validate (some cfg) = some "null default capacity" := by
      unfold Config.Validate
      simp only [hlog, not_true_eq_false, if_false, h1, h2, h3, h4, h5, hcap, if_true]
    exact ⟨hv, hnew _ hv⟩

theorem C17_cli_config_rejected_witness :
    (⟨"info", 8080, ["http://localhost:8001"], "round-robin", 5000000000, 100000000, ⟨0, 0⟩,
        "local", "migrations", "clients.sqlite", ⟨"", "", "", "", ""⟩⟩ : Config).Defaults.Capacity
      = 0 ∧
    Config.Validate (some ⟨"info", 8080, ["http://localhost:8001"], "round-robin", 5000000000,
        100000000, ⟨0, 0⟩, "local", "migrations", "clients.sqlite", ⟨"", "", "", "", ""⟩⟩)
      = some "null default capacity" ∧
    New (fun _ => Except.ok ()) (some ⟨"info", 8080, ["http://localhost:8001"], "round-robin",
        5000000000, 100000000, ⟨0, 0⟩, "local", "migrations", "clients.sqlite",
        ⟨"", "", "", "", ""⟩⟩)
      = .error "invalid config: null default capacity" :=
  have h := C17_cli_config_rejected ["port", "endpoints"]
    ⟨"config.json", 8080, 5000000000, 100000000, "[\"http://localhost:8001\"]", "info",
      "round-robin", "local", "migrations", "clients.sqlite"⟩
    (fun _ => .ok ["http://localhost:8001"]) (.error "no file") (fun _ => Except.ok ())
    ⟨"info", 8080, ["http://localhost:8001"], "round-robin", 5000000000, 100000000, ⟨0, 0⟩,
      "local", "migrations", "clients.sqlite", ⟨"", "", "", "", ""⟩⟩
    (by decide) (by decide) rfl
  ⟨h.1, (h.2.2.2 (by decide) (by decide) (by decide) (by decide) (by decide)).1,
    (h.2.2.2 (by decide) (by decide) (by decide) (by decide) (by decide)).2⟩

/-! ## double-checked locking -/

theorem stepCall_writer (oor : Int → Nat → Nat) (Has : String → Except String Client)
    (now : Int) (id : Nat) (key : String) (s : Shared) (pc : Pc) :
    ((Limiter.stepCall oor Has now id key s pc).1.writer = s.writer ∧
      (Limiter.stepCall oor Has now id key s pc).2.holdsLock = pc.holdsLock) ∨
    (s.writer = none ∧ (Limiter.stepCall oor Has now id key s pc).1.writer = some id) ∨
    (pc.holdsLock = true ∧ (Limiter.stepCall oor Has now id key s pc).1.writer = none ∧
      (Limiter.stepCall oor Has now id key s pc).2.holdsLock = false) := by
  cases pc with
  | start =>
    by_cases h : s.writer = none <;> simp [Limiter.stepCall, Pc.holdsLock, h]
  | rlocked => simp [Limiter.stepCall, Pc.holdsLock]
  | looked b => cases b <;> simp [Limiter.stepCall, Pc.holdsLock]
  | hit b => simp [Limiter.stepCall, Pc.holdsLock]
  | miss =>
    by_cases h : s.writer = none ∧ s.readers = 0
    · right; left
      simp [Limiter.stepCall, h, h.1]
    · left
      simp [Limiter.stepCall, Pc.holdsLock, h]
  | locked =>
    left
    cases hb : s.buckets key <;> simp [Limiter.stepCall, Pc.holdsLock, hb]
  | lockedMiss =>
    left
    cases hh : Has key <;> simp [Limiter.stepCall, Pc.holdsLock, hh]
  | failed => simp [Limiter.stepCall, Pc.holdsLock]
  | gotClient cl => simp [Limiter.stepCall, Pc.holdsLock]
  | lockedHit b => simp [Limiter.stepCall, Pc.holdsLock]
  | unlocking b r => simp [Limiter.stepCall, Pc.holdsLock]
  | returned b r => simp [Limiter.stepCall, Pc.holdsLock]

theorem stepCall_next (oor : Int → Nat → Nat) (Has : String → Except String Client)
    (now : Int) (id : Nat) (key : String) (s : Shared) (pc : Pc) :
    s.next ≤ (Limiter.stepCall oor Has now id key s pc).1.next := by
  cases pc with
  | start => by_cases h : s.writer = none <;> simp [Limiter.stepCall, h]
  | looked b => cases b <;> simp [Limiter.stepCall]
  | miss => by_cases h : s.writer = none ∧ s.readers = 0 <;> simp [Limiter.stepCall, h]
  | locked => cases hb : s.buckets key <;> simp [Limiter.stepCall, hb]
  | lockedMiss => cases hh : Has key <;> simp [Limiter.stepCall, hh]
  | _ => simp [Limiter.stepCall]

/-- A call on another key leaves the entry of `k` and the records for `k` as
they are. -/
theorem stepCall_other_key (oor : Int → Nat → Nat) (Has : String → Except String Client)
    (now : Int) (id : Nat) (key k : String) (s : Shared) (pc : Pc) (hk : key ≠ k) :
    (Limiter.stepCall oor Has now id key s pc).1.buckets k = s.buckets k ∧
    (Limiter.stepCall oor Has now id key s pc).1.hasCalls.count k = s.hasCalls.count k ∧
    (Limiter.stepCall oor Has now id key s pc).1.created.count k = s.created.count k := by
  have hk' : k ≠ key := fun h => hk h.symm
  cases pc with
  | start => by_cases h : s.writer = none <;> simp [Limiter.stepCall, h]
  | looked b => cases b <;> simp [Limiter.stepCall]
  | miss => by_cases h : s.writer = none ∧ s.readers = 0 <;> simp [Limiter.stepCall, h]
  | locked => cases hb : s.buckets key <;> simp [Limiter.stepCall, hb]
  | lockedMiss =>
    cases hh : Has key <;> simp [Limiter.stepCall, hh, List.count_append, List.count_cons, hk]
  | gotClient cl =>
    simp [Limiter.stepCall, Function.update, hk', List.count_append, List.count_cons, hk]
  | _ => simp [Limiter.stepCall]

/-- A step of a call on `k` before `Has` was called for `k`. -/
theorem stepCall_fresh (oor : Int → Nat → Nat) (Has : String → Except String Client)
    (now : Int) (id : Nat) (k : String) (s : Shared) (pc : Pc) (client : Client)
    (hHas : Has k = .ok client) (hb : s.buckets k = none) (hok : pc.okFresh = true) :
    (Limiter.stepCall oor Has now id k s pc).1.buckets k = none ∧
    (Limiter.stepCall oor Has now id k s pc).1.created = s.created ∧
    (Limiter.stepCall oor Has now id k s pc).1.next = s.next ∧
    (((Limiter.stepCall oor Has now id k s pc).1.hasCalls = s.hasCalls ∧
        (Limiter.stepCall oor Has now id k s pc).2.okFresh = true) ∨
     (pc.holdsLock = true ∧
        (Limiter.stepCall oor Has now id k s pc).1.hasCalls = s.hasCalls ++ [k] ∧
        (Limiter.stepCall oor Has now id k s pc).2 = .gotClient client)) := by
  cases pc with
  | start => by_cases h : s.writer = none <;> simp [Limiter.stepCall, h, hb, Pc.okFresh]
  | rlocked => simp [Limiter.stepCall, hb, Pc.okFresh]
  | looked b =>
    cases b with
    | none => simp [Limiter.stepCall, hb, Pc.okFresh]
    | some q => simp [Pc.okFresh] at hok
  | miss =>
    by_cases h : s.writer = none ∧ s.readers = 0 <;> simp [Limiter.stepCall, h, hb, Pc.okFresh]
  | locked => simp [Limiter.stepCall, hb, Pc.okFresh]
  | lockedMiss => simp [Limiter.stepCall, hHas, hb, Pc.holdsLock]
  | hit b => simp [Pc.okFresh] at hok
  | failed => simp [Pc.okFresh] at hok
  | gotClient cl => simp [Pc.okFresh] at hok
  | lockedHit b => simp [Pc.okFresh] at hok
  | unlocking b r => simp [Pc.okFresh] at hok
  | returned b r => simp [Pc.okFresh] at hok

/-- A step of a call on `k` while the write lock is held by the call that has
the client and has not stored the bucket. -/
theorem stepCall_consulted (oor : Int → Nat → Nat) (Has : String → Except String Client)
    (now : Int) (id : Nat) (k : String) (s : Shared) (pc : Pc)
    (hb : s.buckets k = none) (hw : s.writer ≠ none) (hok : pc.okConsulted = true) :
    (Limiter.stepCall oor Has now id k s pc).1.hasCalls = s.hasCalls ∧
    (((Limiter.stepCall oor Has now id k s pc).1.buckets k = none ∧
        (Limiter.stepCall oor Has now id k s pc).1.created = s.created ∧
        pc.holdsLock = false ∧
        (Limiter.stepCall oor Has now id k s pc).2.okConsulted = true) ∨
     (pc.holdsLock = true ∧
        (Limiter.stepCall oor Has now id k s pc).1.buckets k = some s.next ∧
        (Limiter.stepCall oor Has now id k s pc).1.next = s.next + 1 ∧
        (Limiter.stepCall oor Has now id k s pc).1.created = s.created ++ [k] ∧
        (Limiter.stepCall oor Has now id k s pc).2 = .lockedHit s.next)) := by
  cases pc with
  | start => simp [Limiter.stepCall, hw, hb, Pc.okConsulted, Pc.holdsLock]
  | rlocked => simp [Limiter.stepCall, hb, Pc.okConsulted, Pc.holdsLock]
  | looked b =>
    cases b with
    | none => simp [Limiter.stepCall, hb, Pc.okConsulted, Pc.holdsLock]
    | some q => simp [Pc.okConsulted] at hok
  | miss => simp [Limiter.stepCall, hw, hb, Pc.okConsulted, Pc.holdsLock]
  | gotClient cl => simp [Limiter.stepCall, Pc.holdsLock]
  | locked => simp [Pc.okConsulted] at hok
  | lockedMiss => simp [Pc.okConsulted] at hok
  | hit b => simp [Pc.okConsulted] at hok
  | failed => simp [Pc.okConsulted] at hok
  | lockedHit b => simp [Pc.okConsulted] at hok
  | unlocking b r => simp [Pc.okConsulted] at hok
  | returned b r => simp [Pc.okConsulted] at hok

/-- A step of a call on `k` once the bucket `p` is stored under `k`. -/
theorem stepCall_installed (oor : Int → Nat → Nat) (Has : String → Except String Client)
    (now : Int) (id : Nat) (k : String) (s : Shared) (pc : Pc) (p : Nat)
    (hb : s.buckets k = some p) (hok : pc.okInstalled p = true) :
    (Limiter.stepCall oor Has now id k s pc).1.buckets k = some p ∧
    (Limiter.stepCall oor Has now id k s pc).1.hasCalls = s.hasCalls ∧
    (Limiter.stepCall oor Has now id k s pc).1.created = s.created ∧
    (Limiter.stepCall oor Has now id k s pc).2.okInstalled p = true := by
  cases pc with
  | start => by_cases h : s.writer = none <;> simp [Limiter.stepCall, h, hb, Pc.okInstalled]
  | rlocked => simp [Limiter.stepCall, hb, Pc.okInstalled]
  | looked b =>
    cases b with
    | none => simp [Limiter.stepCall, hb, Pc.okInstalled]
    | some q => simpa [Limiter.stepCall, hb, Pc.okInstalled] using hok
  | miss =>
    by_cases h : s.writer = none ∧ s.readers = 0 <;>
      simp [Limiter.stepCall, h, hb, Pc.okInstalled]
  | locked => simp [Limiter.stepCall, hb, Pc.okInstalled]
  | hit b => simpa [Limiter.stepCall, hb, Pc.okInstalled] using hok
  | lockedHit b => simpa [Limiter.stepCall, hb, Pc.okInstalled] using hok
  | unlocking b r => simpa [Limiter.stepCall, hb, Pc.okInstalled] using hok
  | returned b r =>
    cases b with
    | none => simp [Pc.okInstalled] at hok
    | some q => simpa [Limiter.stepCall, hb, Pc.okInstalled] using hok
  | lockedMiss => simp [Pc.okInstalled] at hok
  | failed => simp [Pc.okInstalled] at hok
  | gotClient cl => simp [Pc.okInstalled] at hok

theorem okFresh_to_okConsulted (pc : Pc) (h : pc.okFresh = true) (hl : pc.holdsLock = false) :
    pc.okConsulted = true := by
  cases pc with
  | looked b => cases b <;> simp_all [Pc.okFresh, Pc.okConsulted, Pc.holdsLock]
  | _ => simp_all [Pc.okFresh, Pc.okConsulted, Pc.holdsLock]

theorem okConsulted_to_okInstalled (pc : Pc) (p : Nat) (h : pc.okConsulted = true)
    (hl : pc.holdsLock = false) : pc.okInstalled p = true := by
  cases pc with
  | looked b => cases b <;> simp_all [Pc.okInstalled, Pc.okConsulted, Pc.holdsLock]
  | _ => simp_all [Pc.okInstalled, Pc.okConsulted, Pc.holdsLock]

theorem getElem?_set_cases {α : Type} (l : List α) (i j : Nat) (x y g : α)
    (hi : l[i]? = some g) (h : (l.set i x)[j]? = some y) :
    (j = i ∧ y = x) ∨ (j ≠ i ∧ l[j]? = some y) := by
  by_cases hji : j = i
  · subst hji
    left
    have hlt : j < l.length := by
      rcases Nat.lt_or_ge j l.length with h1 | h1
      · exact h1
      · rw [List.getElem?_eq_none h1] at hi; cases hi
    rw [List.getElem?_set_self hlt] at h
    exact ⟨rfl, (Option.some.inj h).symm⟩
  · right
    rw [List.getElem?_set_ne (fun h' => hji h'.symm)] at h
    exact ⟨hji, h⟩

/-- Every statement of every call keeps the invariant of double-checked
locking. -/
theorem Inv_step (oor : Int → Nat → Nat) (Has : String → Except String Client)
    (k : String) (client : Client) (hHas : Has k = .ok client) (h0 c0 n0 : Nat)
    (c : Concurrent) (t : Nat × Int) (h : c.Inv k h0 c0 n0) :
    (c.step oor Has t).Inv k h0 c0 n0 := by
  unfold Concurrent.step
  cases hc : c.calls[t.1]? with
  | none => exact h
  | some g =>
    obtain ⟨key, pc⟩ := g
    simp only
    obtain ⟨hex, hn, hph⟩ := h
    have hlt : t.1 < c.calls.length := by
      rcases Nat.lt_or_ge t.1 c.calls.length with h1 | h1
      · exact h1
      · rw [List.getElem?_eq_none h1] at hc; cases hc
    have hcases := fun (j : Nat) (y : Goroutine) =>
      getElem?_set_cases c.calls t.1 j
        ⟨key, (Limiter.stepCall oor Has t.2 t.1 key c.shared pc).2⟩ y ⟨key, pc⟩ hc
    have hgl := hex t.1 ⟨key, pc⟩ hc
    have hnext := stepCall_next oor Has t.2 t.1 key c.shared pc
    -- a call other than the stepping one does not hold the lock when that one does
    have hfree : pc.holdsLock = true → ∀ (j : Nat) (y : Goroutine), j ≠ t.1 →
        c.calls[j]? = some y → y.pc.holdsLock = false := by
      intro hl j y hne hy
      cases hyl : y.pc.holdsLock with
      | false => rfl
      | true =>
        have e1 := hex j y hy hyl
        have e2 := hgl hl
        rw [e1] at e2
        exact absurd (Option.some.inj e2) hne
    refine ⟨?_, le_trans hn hnext, ?_⟩
    · intro j y hy hl
      rcases hcases j y hy with ⟨rfl, rfl⟩ | ⟨hne, hy'⟩
      · rcases stepCall_writer oor Has t.2 t.1 key c.shared pc with
          ⟨h1, h2⟩ | ⟨_, h2⟩ | ⟨_, _, h3⟩
        · rw [h1]
          exact hgl (h2 ▸ hl)
        · exact h2
        · simp only at hl
          rw [h3] at hl
          cases hl
      · rcases stepCall_writer oor Has t.2 t.1 key c.shared pc with
          ⟨h1, _⟩ | ⟨h1, _⟩ | ⟨h1, _, _⟩
        · rw [h1]
          exact hex j y hy' hl
        · have := hex j y hy' hl
          rw [h1] at this
          cases this
        · have := hfree h1 j y hne hy'
          rw [this] at hl
          cases hl
    · by_cases hkey : key = k
      · subst hkey
        rcases hph with ⟨hb, hh, hcr, hall⟩ | ⟨hb, hh, hcr, ⟨w, cl, hw⟩, hall⟩ |
          ⟨p, hp0, hp1, hb, hh, hcr, hall⟩
        · -- no `Has` call yet
          obtain ⟨e1, e2, _, ⟨e4, e5⟩ | ⟨e4, e5, e6⟩⟩ :=
            stepCall_fresh oor Has t.2 t.1 key c.shared pc client hHas hb
              (hall t.1 ⟨key, pc⟩ hc rfl)
          · left
            refine ⟨e1, by rw [e4]; exact hh, by rw [e2]; exact hcr, ?_⟩
            intro j y hy hky
            rcases hcases j y hy with ⟨rfl, rfl⟩ | ⟨hne, hy'⟩
            · exact e5
            · exact hall j y hy' hky
          · right; left
            refine ⟨e1, by rw [e5, List.count_append, hh]; simp,
              by rw [e2]; exact hcr, ⟨t.1, client, ?_⟩, ?_⟩
            · rw [List.getElem?_set_self hlt, e6]
            · intro j y hy hky
              rcases hcases j y hy with ⟨rfl, rfl⟩ | ⟨hne, hy'⟩
              · simp only [e6, Pc.okConsulted]
              · exact okFresh_to_okConsulted _ (hall j y hy' hky) (hfree e4 j y hne hy')
        · -- the client is there, the bucket is not stored yet
          have hwr : c.shared.writer ≠ none := by
            rw [hex w ⟨key, .gotClient cl⟩ hw rfl]
            simp
          obtain ⟨e0, ⟨e1, e2, e3, e4⟩ | ⟨e1, e2, e3, e4, e5⟩⟩ :=
            stepCall_consulted oor Has t.2 t.1 key c.shared pc hb hwr
              (hall t.1 ⟨key, pc⟩ hc rfl)
          · right; left
            refine ⟨e1, by rw [e0]; exact hh, by rw [e2]; exact hcr, ⟨w, cl, ?_⟩, ?_⟩
            · have hne : t.1 ≠ w := by
                intro hwt
                rw [← hwt, hc] at hw
                have hpc : pc = .gotClient cl := by
                  have := Option.some.inj hw
                  exact congrArg Goroutine.pc this
                rw [hpc] at e3
                simp [Pc.holdsLock] at e3
              rw [List.getElem?_set_ne hne]
              exact hw
            · intro j y hy hky
              rcases hcases j y hy with ⟨rfl, rfl⟩ | ⟨hne, hy'⟩
              · exact e4
              · exact hall j y hy' hky
          · right; right
            refine ⟨c.shared.next, hn, by rw [e3]; omega, e2, by rw [e0]; exact hh,
              by rw [e4, List.count_append, hcr]; simp, ?_⟩
            intro j y hy hky
            rcases hcases j y hy with ⟨rfl, rfl⟩ | ⟨hne, hy'⟩
            · simp only [e5, Pc.okInstalled, decide_True]
            · exact okConsulted_to_okInstalled _ _ (hall j y hy' hky) (hfree e1 j y hne hy')
        · -- the bucket is stored
          obtain ⟨e1, e2, e3, e4⟩ :=
            stepCall_installed oor Has t.2 t.1 key c.shared pc p hb
              (hall t.1 ⟨key, pc⟩ hc rfl)
          right; right
          refine ⟨p, hp0, lt_of_lt_of_le hp1 hnext, e1, by rw [e2]; exact hh,
            by rw [e3]; exact hcr, ?_⟩
          intro j y hy hky
          rcases hcases j y hy with ⟨rfl, rfl⟩ | ⟨hne, hy'⟩
          · exact e4
          · exact hall j y hy' hky
      · -- a call on another key
        obtain ⟨e1, e2, e3⟩ := stepCall_other_key oor Has t.2 t.1 key k c.shared pc hkey
        have hothers : ∀ (P : Pc → Bool),
            (∀ (j : Nat) (g : Goroutine), c.calls[j]? = some g → g.key = k → P g.pc = true) →
            ∀ (j : Nat) (g : Goroutine),
              (c.calls.set t.1
                ⟨key, (Limiter.stepCall oor Has t.2 t.1 key c.shared pc).2⟩)[j]? = some g →
              g.key = k → P g.pc = true := by
          intro P hall j y hy hky
          rcases hcases j y hy with ⟨rfl, rfl⟩ | ⟨hne, hy'⟩
          · exact absurd hky hkey
          · exact hall j y hy' hky
        rcases hph with ⟨hb, hh, hcr, hall⟩ | ⟨hb, hh, hcr, ⟨w, cl, hw⟩, hall⟩ |
          ⟨p, hp0, hp1, hb, hh, hcr, hall⟩
        · left
          exact ⟨by rw [e1]; exact hb, by rw [e2]; exact hh, by rw [e3]; exact hcr,
            hothers _ hall⟩
        · right; left
          refine ⟨by rw [e1]; exact hb, by rw [e2]; exact hh, by rw [e3]; exact hcr,
            ⟨w, cl, ?_⟩, hothers _ hall⟩
          have hne : t.1 ≠ w := by
            intro hwt
            rw [← hwt, hc] at hw
            exact hkey (congrArg Goroutine.key (Option.some.inj hw))
          rw [List.getElem?_set_ne hne]
          exact hw
        · right; right
          exact ⟨p, hp0, lt_of_lt_of_le hp1 hnext, by rw [e1]; exact hb,
            by rw [e2]; exact hh, by rw [e3]; exact hcr, hothers _ hall⟩

theorem Inv_init (s : Shared) (keys : List String) (k : String) (hk : s.buckets k = none) :
    (Concurrent.init s keys).Inv k (s.hasCalls.count k) (s.created.count k) s.next := by
  have hstart : ∀ (j : Nat) (g : Goroutine),
      (Concurrent.init s keys).calls[j]? = some g → g.pc = .start := by
    intro j g hg
    simp only [Concurrent.init, List.getElem?_map, Option.map_eq_some'] at hg
    obtain ⟨a, _, rfl⟩ := hg
    rfl
  refine ⟨?_, le_refl _, Or.inl ⟨hk, rfl, rfl, ?_⟩⟩
  · intro j g hg hl
    rw [hstart j g hg] at hl
    cases hl
  · intro j g hg _
    rw [hstart j g hg]
    rfl

theorem Inv_run (oor : Int → Nat → Nat) (Has : String → Except String Client)
    (k : String) (client : Client) (hHas : Has k = .ok client) (h0 c0 n0 : Nat)
    (schedule : List (Nat × Int)) :
    ∀ c : Concurrent, c.Inv k h0 c0 n0 → (c.run oor Has schedule).Inv k h0 c0 n0 := by
  induction schedule with
  | nil => intro c h; exact h
  | cons t rest ih =>
    intro c h
    exact ih _ (Inv_step oor Has k client hHas h0 c0 n0 c t h)

/-! ## every call returns -/

theorem run_append (oor : Int → Nat → Nat) (Has : String → Except String Client)
    (c : Concurrent) (l1 l2 : List (Nat × Int)) :
    c.run oor Has (l1 ++ l2) = (c.run oor Has l1).run oor Has l2 := by
  unfold Concurrent.run
  rw [List.foldl_append]

/-- Steps of one call in a row are the steps of the call alone. -/
theorem run_replicate (oor : Int → Nat → Nat) (Has : String → Except String Client)
    (now : Int) (i : Nat) (key : String) (n : Nat) :
    ∀ (c : Concurrent) (pc : Pc), c.calls[i]? = some ⟨key, pc⟩ →
      c.run oor Has (List.replicate n (i, now))
        = ⟨(Limiter.stepsCall oor Has now i key n (c.shared, pc)).1,
            c.calls.set i ⟨key, (Limiter.stepsCall oor Has now i key n (c.shared, pc)).2⟩⟩ := by
  induction n with
  | zero =>
    intro c pc hc
    simp only [List.replicate, Concurrent.run, List.foldl_nil, Limiter.stepsCall]
    have hlt : i < c.calls.length := by
      rcases Nat.lt_or_ge i c.calls.length with h1 | h1
      · exact h1
      · rw [List.getElem?_eq_none h1] at hc; cases hc
    have : c.calls.set i ⟨key, pc⟩ = c.calls := by
      apply List.ext_getElem?
      intro j
      by_cases hj : i = j
      · subst hj
        rw [List.getElem?_set_self hlt, hc]
      · rw [List.getElem?_set_ne hj]
    rw [this]
  | succ n ih =>
    intro c pc hc
    have hlt : i < c.calls.length := by
      rcases Nat.lt_or_ge i c.calls.length with h1 | h1
      · exact h1
      · rw [List.getElem?_eq_none h1] at hc; cases hc
    have hstep : c.step oor Has (i, now)
        = ⟨(Limiter.stepCall oor Has now i key c.shared pc).1,
            c.calls.set i ⟨key, (Limiter.stepCall oor Has now i key c.shared pc).2⟩⟩ := by
      unfold Concurrent.step
      simp only [hc]
    have hrun : c.run oor Has (List.replicate (n + 1) (i, now))
        = (c.step oor Has (i, now)).run oor Has (List.replicate n (i, now)) := by
      simp only [List.replicate_succ, Concurrent.run, List.foldl_cons]
    rw [hrun, hstep, ih _ (Limiter.stepCall oor Has now i key c.shared pc).2
      (by simp only [List.getElem?_set_self hlt])]
    simp only [Limiter.stepsCall, List.set_set]

/-- A call that starts while `l.mu` is free returns within nine statements and
leaves `l.mu` free. -/
theorem stepsCall_returns (oor : Int → Nat → Nat) (Has : String → Except String Client)
    (now : Int) (id : Nat) (key : String) (s : Shared)
    (hw : s.writer = none) (hr : s.readers = 0) :
    (Limiter.stepsCall oor Has now id key 9 (s, .start)).1.writer = none ∧
    (Limiter.stepsCall oor Has now id key 9 (s, .start)).1.readers = 0 ∧
    ∃ b r, (Limiter.stepsCall oor Has now id key 9 (s, .start)).2 = .returned b r := by
  cases hb : s.buckets key with
  | some p => simp [Limiter.stepsCall, Limiter.stepCall, hw, hr, hb]
  | none =>
    cases hh : Has key with
    | error e => simp [Limiter.stepsCall, Limiter.stepCall, hw, hr, hb, hh]
    | ok client => simp [Limiter.stepsCall, Limiter.stepCall, hw, hr, hb, hh]

/-- The statements of one call, run alone from a limiter whose lock is free,
make up `Limiter.Available`: the call returns what `Limiter.Available` returns,
and leaves under its key the bucket `Limiter.Available` leaves there. -/
theorem stepsCall_eq_Available (oor : Int → Nat → Nat) (Has : String → Except String Client)
    (now : Int) (id : Nat) (key : String) (s : Shared)
    (hw : s.writer = none) (hr : s.readers = 0) :
    (∃ b, (Limiter.stepsCall oor Has now id key 9 (s, .start)).2
        = .returned b (s.limiter.Available oor Has now key).1) ∧
    (Limiter.stepsCall oor Has now id key 9 (s, .start)).1.limiter.buckets key
      = (s.limiter.Available oor Has now key).2.buckets key := by
  cases hb : s.buckets key with
  | some p =>
    simp [Limiter.stepsCall, Limiter.stepCall, Limiter.Available, Shared.limiter, hw, hr, hb]
  | none =>
    cases hh : Has key with
    | error e =>
      simp [Limiter.stepsCall, Limiter.stepCall, Limiter.Available, Shared.limiter, hw, hr,
        hb, hh]
    | ok client =>
      simp [Limiter.stepsCall, Limiter.stepCall, Limiter.Available, Shared.limiter, hw, hr,
        hb, hh]

/-- The calls do return: run one after the other from a limiter whose lock is
free, every call has returned at the end. -/
theorem sequential_returns (oor : Int → Nat → Nat) (Has : String → Except String Client)
    (now : Int) (s : Shared) (keys : List String)
    (hw : s.writer = none) (hr : s.readers = 0) :
    ∀ n, n ≤ keys.length →
      ((Concurrent.init s keys).run oor Has (Concurrent.sequential now n)).shared.writer
        = none ∧
      ((Concurrent.init s keys).run oor Has (Concurrent.sequential now n)).shared.readers
        = 0 ∧
      ((Concurrent.init s keys).run oor Has (Concurrent.sequential now n)).calls.length
        = keys.length ∧
      (∀ (j : Nat) (g : Goroutine), j < n →
        ((Concurrent.init s keys).run oor Has (Concurrent.sequential now n)).calls[j]?
          = some g → ∃ b r, g.pc = .returned b r) ∧
      (∀ (j : Nat) (g : Goroutine), n ≤ j →
        ((Concurrent.init s keys).run oor Has (Concurrent.sequential now n)).calls[j]?
          = some g → g.pc = .start) := by
  intro n
  induction n with
  | zero =>
    intro _
    refine ⟨hw, hr, by simp [Concurrent.sequential, Concurrent.run, Concurrent.init], ?_, ?_⟩
    · intro j g hj
      omega
    · intro j g _ hg
      simp only [Concurrent.sequential, Concurrent.run, List.foldl_nil, Concurrent.init,
        List.getElem?_map, Option.map_eq_some'] at hg
      obtain ⟨a, _, rfl⟩ := hg
      rfl
  | succ n ih =>
    intro hn
    obtain ⟨h1, h2, h3, h4, h5⟩ := ih (by omega)
    simp only [Concurrent.sequential]
    rw [run_append]
    generalize (Concurrent.init s keys).run oor Has (Concurrent.sequential now n) = c
      at h1 h2 h3 h4 h5 ⊢
    have hlt : n < c.calls.length := by omega
    have hg : c.calls[n]? = some ⟨(c.calls[n]).key, .start⟩ := by
      rw [List.getElem?_eq_getElem hlt]
      have := h5 n (c.calls[n]) (le_refl _) (List.getElem?_eq_getElem hlt)
      congr 1
      cases hc : c.calls[n] with
      | mk key pc =>
        rw [hc] at this
        simp only at this
        rw [this]
    rw [run_replicate oor Has now n _ 9 c .start hg]
    obtain ⟨e1, e2, b, r, e3⟩ := stepsCall_returns oor Has now n (c.calls[n]).key c.shared h1 h2
    refine ⟨e1, e2, by simp only [List.length_set]; exact h3, ?_, ?_⟩
    · intro j g hj hgj
      by_cases hjn : j = n
      · subst hjn
        rw [List.getElem?_set_self hlt] at hgj
        cases hgj
        exact ⟨b, r, e3⟩
      · rw [List.getElem?_set_ne (fun h => hjn h.symm)] at hgj
        exact h4 j g (by omega) hgj
    · intro j g hj hgj
      rw [List.getElem?_set_ne (by omega)] at hgj
      exact h5 j g (by omega) hgj

theorem okFresh_no_bucket (pc : Pc) (h : pc.okFresh = true) :
    pc.bucket = none ∧ ∀ b r, pc ≠ .returned b r := by
  cases pc with
  | looked b => cases b <;> simp_all [Pc.okFresh, Pc.bucket]
  | _ => simp_all [Pc.okFresh, Pc.bucket]

theorem okConsulted_no_bucket (pc : Pc) (h : pc.okConsulted = true) :
    pc.bucket = none ∧ ∀ b r, pc ≠ .returned b r := by
  cases pc with
  | looked b => cases b <;> simp_all [Pc.okConsulted, Pc.bucket]
  | _ => simp_all [Pc.okConsulted, Pc.bucket]

theorem okInstalled_bucket (pc : Pc) (p : Nat) (h : pc.okInstalled p = true) :
    (∀ q, pc.bucket = some q → q = p) ∧ ∀ b r, pc = .returned b r → b = some p := by
  cases pc with
  | looked b => cases b <;> simp_all [Pc.okInstalled, Pc.bucket]
  | returned b r => cases b <;> simp_all [Pc.okInstalled, Pc.bucket]
  | _ => simp_all [Pc.okInstalled, Pc.bucket]

/-- C16, as amended.  Double-checked locking, for a key the registry answers
for.  Let `k` be a key without a bucket in the limiter for which `Has` succeeds,
and let any number of calls of `Limiter.Available` run concurrently, on `k` and
on any other keys, their statements interleaved in any order (`schedule`), for
any length of time.  Then at every moment at most one bucket has been created
for `k` and `Has` has been called at most once for `k`; and there is one
pointer `p`, not allocated before the calls started, such that every call on
`k` that has a bucket in hand has `p`, by which time the map holds `p` under
`k`, exactly one bucket has been created for `k` and `Has` has been called
exactly once for `k`; and every call on `k` that has returned has returned from
`Available()` on `p`.  The calls do return: when `l.mu` is free at the start
and the calls run one after the other, every call has returned at the end. -/
theorem C16_double_checked_locking (oor : Int → Nat → Nat)
    (Has : String → Except String Client) (s : Shared) (keys : List String) (k : String)
    (client : Client) (hk : s.buckets k = none) (hHas : Has k = .ok client)
    (schedule : List (Nat × Int)) :
    (((Concurrent.init s keys).run oor Has schedule).shared.created.count k
      ≤ s.created.count k + 1 ∧
    ((Concurrent.init s keys).run oor Has schedule).shared.hasCalls.count k
      ≤ s.hasCalls.count k + 1 ∧
    ∃ p, s.next ≤ p ∧
      ∀ (j : Nat) (g : Goroutine),
        ((Concurrent.init s keys).run oor Has schedule).calls[j]? = some g → g.key = k →
        (∀ q, g.pc.bucket = some q →
          q = p ∧
          ((Concurrent.init s keys).run oor Has schedule).shared.buckets k = some p ∧
          ((Concurrent.init s keys).run oor Has schedule).shared.created.count k
            = s.created.count k + 1 ∧
          ((Concurrent.init s keys).run oor Has schedule).shared.hasCalls.count k
            = s.hasCalls.count k + 1) ∧
        (∀ b r, g.pc = .returned b r → b = some p)) ∧
    (s.writer = none → s.readers = 0 → ∀ (now : Int) (j : Nat) (g : Goroutine),
      ((Concurrent.init s keys).run oor Has
        (Concurrent.sequential now keys.length)).calls[j]? = some g →
      ∃ b r, g.pc = .returned b r) := by
  refine ⟨?_, ?_⟩
  swap
  · intro hw hr now j g hg
    obtain ⟨_, _, h3, h4, _⟩ :=
      sequential_returns oor Has now s keys hw hr keys.length (le_refl _)
    have hj : j < keys.length := by
      rcases Nat.lt_or_ge j keys.length with h1 | h1
      · exact h1
      · rw [List.getElem?_eq_none (by rw [h3]; exact h1)] at hg
        cases hg
    exact h4 j g hj hg
  have hinv := Inv_run oor Has k client hHas _ _ _ schedule _ (Inv_init s keys k hk)
  generalize (Concurrent.init s keys).run oor Has schedule = c at hinv ⊢
  obtain ⟨_, _, ⟨hb, hh, hcr, hall⟩ | ⟨hb, hh, hcr, _, hall⟩ |
    ⟨p, hp0, hp1, hb, hh, hcr, hall⟩⟩ := hinv
  · refine ⟨by omega, by omega, s.next, le_refl _, ?_⟩
    intro j g hg hkey
    have := okFresh_no_bucket g.pc (hall j g hg hkey)
    refine ⟨fun q hq => ?_, fun b r hr => absurd hr (this.2 b r)⟩
    rw [this.1] at hq
    cases hq
  · refine ⟨by omega, by omega, s.next, le_refl _, ?_⟩
    intro j g hg hkey
    have := okConsulted_no_bucket g.pc (hall j g hg hkey)
    refine ⟨fun q hq => ?_, fun b r hr => absurd hr (this.2 b r)⟩
    rw [this.1] at hq
    cases hq
  · refine ⟨by omega, by omega, p, hp0, ?_⟩
    intro j g hg hkey
    have := okInstalled_bucket g.pc p (hall j g hg hkey)
    exact ⟨fun q hq => ⟨this.1 q hq, hb, hcr, hh⟩, this.2⟩

set_option maxRecDepth 8000 in
theorem C16_double_checked_locking_witness :
    ((Concurrent.init ⟨fun _ => none, fun _ => NewBucket 0 0, 0, 0, none, [], []⟩
        ["k", "k"]).run (fun _ _ => 0) (fun key => .ok ⟨"client", key, 1, 1⟩)
      [(0, 0), (0, 0), (0, 0), (1, 0), (1, 0), (1, 0),
       (0, 0), (0, 0), (0, 0), (0, 0), (0, 0), (0, 0),
       (1, 0), (1, 0), (1, 0), (1, 0)]).calls
      = [⟨"k", .returned (some 0) true⟩, ⟨"k", .returned (some 0) false⟩] ∧
    ((Concurrent.init ⟨fun _ => none, fun _ => NewBucket 0 0, 0, 0, none, [], []⟩
        ["k", "k"]).run (fun _ _ => 0) (fun key => .ok ⟨"client", key, 1, 1⟩)
      [(0, 0), (0, 0), (0, 0), (1, 0), (1, 0), (1, 0),
       (0, 0), (0, 0), (0, 0), (0, 0), (0, 0), (0, 0),
       (1, 0), (1, 0), (1, 0), (1, 0)]).shared.created = ["k"] ∧
    ((Concurrent.init ⟨fun _ => none, fun _ => NewBucket 0 0, 0, 0, none, [], []⟩
        ["k", "k"]).run (fun _ _ => 0) (fun key => .ok ⟨"client", key, 1, 1⟩)
      [(0, 0), (0, 0), (0, 0), (1, 0), (1, 0), (1, 0),
       (0, 0), (0, 0), (0, 0), (0, 0), (0, 0), (0, 0),
       (1, 0), (1, 0), (1, 0), (1, 0)]).shared.hasCalls = ["k"] ∧
    ((Concurrent.init ⟨fun _ => none, fun _ => NewBucket 0 0, 0, 0, none, [], []⟩
        ["k", "k"]).run (fun _ _ => 0) (fun key => .ok ⟨"client", key, 1, 1⟩)
      [(0, 0), (0, 0), (0, 0), (1, 0), (1, 0), (1, 0),
       (0, 0), (0, 0), (0, 0), (0, 0), (0, 0), (0, 0),
       (1, 0), (1, 0), (1, 0), (1, 0)]).shared.created.count "k" ≤ 0 + 1 ∧
    ((Concurrent.init ⟨fun _ => none, fun _ => NewBucket 0 0, 0, 0, none, [], []⟩
        ["k", "k"]).run (fun _ _ => 0) (fun key => .ok ⟨"client", key, 1, 1⟩)
      [(0, 0), (0, 0), (0, 0), (1, 0), (1, 0), (1, 0),
       (0, 0), (0, 0), (0, 0), (0, 0), (0, 0), (0, 0),
       (1, 0), (1, 0), (1, 0), (1, 0)]).shared.hasCalls.count "k" ≤ 0 + 1 :=
  ⟨by decide, by decide, by decide,
   (C16_double_checked_locking (fun _ _ => 0) (fun key => .ok ⟨"client", key, 1, 1⟩)
      ⟨fun _ => none, fun _ => NewBucket 0 0, 0, 0, none, [], []⟩ ["k", "k"] "k"
      ⟨"client", "k", 1, 1⟩ rfl rfl
      [(0, 0), (0, 0), (0, 0), (1, 0), (1, 0), (1, 0),
       (0, 0), (0, 0), (0, 0), (0, 0), (0, 0), (0, 0),
       (1, 0), (1, 0), (1, 0), (1, 0)]).1.1,
   (C16_double_checked_locking (fun _ _ => 0) (fun key => .ok ⟨"client", key, 1, 1⟩)
      ⟨fun _ => none, fun _ => NewBucket 0 0, 0, 0, none, [], []⟩ ["k", "k"] "k"
      ⟨"client", "k", 1, 1⟩ rfl rfl
      [(0, 0), (0, 0), (0, 0), (1, 0), (1, 0), (1, 0),
       (0, 0), (0, 0), (0, 0), (0, 0), (0, 0), (0, 0),
       (1, 0), (1, 0), (1, 0), (1, 0)]).1.2.1⟩

set_option maxRecDepth 8000 in
/-- C16 fails as stated for a key the registry does not answer for.  Two calls
on the unknown key `k` both miss at the first lookup and enter the locked
section one after the other; `Has` fails for both, so `Has` has been called
twice for `k` and no bucket has been created when both have returned. -/
theorem C16_double_checked_counterexample :
    ((Concurrent.init ⟨fun _ => none, fun _ => NewBucket 0 0, 0, 0, none, [], []⟩
        ["k", "k"]).run (fun _ _ => 0) (fun _ => .error "down")
      [(0, 0), (0, 0), (0, 0), (1, 0), (1, 0), (1, 0),
       (0, 0), (0, 0), (0, 0), (0, 0), (1, 0), (1, 0), (1, 0), (1, 0)]).calls
      = [⟨"k", .returned none false⟩, ⟨"k", .returned none false⟩] ∧
    ((Concurrent.init ⟨fun _ => none, fun _ => NewBucket 0 0, 0, 0, none, [], []⟩
        ["k", "k"]).run (fun _ _ => 0) (fun _ => .error "down")
      [(0, 0), (0, 0), (0, 0), (1, 0), (1, 0), (1, 0),
       (0, 0), (0, 0), (0, 0), (0, 0), (1, 0), (1, 0), (1, 0), (1, 0)]).shared.created
      = [] ∧
    ((Concurrent.init ⟨fun _ => none, fun _ => NewBucket 0 0, 0, 0, none, [], []⟩
        ["k", "k"]).run (fun _ _ => 0) (fun _ => .error "down")
      [(0, 0), (0, 0), (0, 0), (1, 0), (1, 0), (1, 0),
       (0, 0), (0, 0), (0, 0), (0, 0), (1, 0), (1, 0), (1, 0), (1, 0)]).shared.hasCalls
      = ["k", "k"] ∧
    ((Concurrent.init ⟨fun _ => none, fun _ => NewBucket 0 0, 0, 0, none, [], []⟩
        ["k", "k"]).run (fun _ _ => 0) (fun _ => .error "down")
      [(0, 0), (0, 0), (0, 0), (1, 0), (1, 0), (1, 0),
       (0, 0), (0, 0), (0, 0), (0, 0), (1, 0), (1, 0), (1, 0), (1, 0)]).shared.buckets "k"
      = none := by
  refine ⟨by decide, by decide, by decide, by decide⟩

end Balancer
